import Mathlib

/-!
Verification development for the recipe execution engine
(`amplifier_module_tool_recipes`: `executor.py` and `models.py`).

The Python data and control flow is shallowly embedded in Lean:

* JSON-like dynamic values (`Json`) model the Python values that flow
  through recipe contexts.  Numbers are modelled as integers (float
  values are outside the modelled domain, as is customary for a shallow
  embedding); strings are Lean strings (sequences of Unicode scalar
  values).
* `json.dumps` / `json.loads` / `JSONDecoder.raw_decode` from the Python
  standard library are modelled by `dumps`, `loads` and `rawDecode`
  below, following the documented strict JSON grammar (with the integer
  restriction above; unpaired surrogate escapes are rejected).
* Executor methods become pure functions; external effects (agent
  spawns, bash subprocesses, condition evaluation, cancellation polling,
  the session store) are abstracted as oracle parameters, and every call
  into the session store is recorded in an event trace so that ordering
  properties can be stated.
-/

set_option maxHeartbeats 1000000

/-- Single-quote character, used to build the error-message strings that
the Python source writes with quoted fragments. -/
def quo : String := String.singleton (Char.ofNat 39)

mutual

/-- Dynamic JSON-like values (model of the Python values stored in a
recipe context: `None`, `bool`, `int`, `str`, `list`, `dict`). -/
inductive Json where
  | null
  | bool (b : Bool)
  | int (n : Int)
  | str (s : String)
  | arr (xs : JsonA)
  | obj (kvs : JsonO)
deriving DecidableEq, Repr

/-- Spine of a JSON array (kept as a separate inductive so that all
recursions stay structural and kernel-reducible). -/
inductive JsonA where
  | nil
  | cons (hd : Json) (tl : JsonA)
deriving DecidableEq, Repr

/-- Spine of a JSON object: key/value entries in insertion order
(model of a Python `dict`). -/
inductive JsonO where
  | nil
  | cons (k : String) (v : Json) (tl : JsonO)
deriving DecidableEq, Repr

end

def JsonA.ofList : List Json → JsonA
  | [] => .nil
  | x :: xs => .cons x (JsonA.ofList xs)

def JsonA.toList : JsonA → List Json
  | .nil => []
  | .cons x xs => x :: xs.toList

def JsonO.ofList : List (String × Json) → JsonO
  | [] => .nil
  | (k, v) :: xs => .cons k v (JsonO.ofList xs)

def JsonO.toList : JsonO → List (String × Json)
  | .nil => []
  | .cons k v xs => (k, v) :: xs.toList

/-- Lookup of a key in an object spine (model of Python `d[k]` /
`k in d`, first—and in a `dict`, only—occurrence wins). -/
def JsonO.lookup : JsonO → String → Option Json
  | .nil, _ => none
  | .cons k v xs, key => if k = key then some v else xs.lookup key

/-- Decimal digits of a natural number, most significant first; `fuel`
bounds the recursion (callers pass `n + 1`, which always suffices). -/
def natDigits : Nat → Nat → List Char
  | 0, _ => []
  | fuel + 1, n =>
    if n < 10 then [Char.ofNat (48 + n)]
    else natDigits fuel (n / 10) ++ [Char.ofNat (48 + n % 10)]

/-- Decimal representation of a natural number (model of Python
`str(n)` for `n ≥ 0`). -/
def natChars (n : Nat) : List Char := natDigits (n + 1) n

/-- Decimal representation of an integer (model of Python `str(n)`,
also the serialization `json.dumps` uses for ints). -/
def intChars (n : Int) : List Char :=
  if n < 0 then '-' :: natChars n.natAbs else natChars n.toNat

/-- Hexadecimal digit character, lowercase (as produced by the
`'\u%04x'` formatting in Python `json.encoder`). -/
def hexDigitChar (n : Nat) : Char :=
  Char.ofNat (if n < 10 then 48 + n else 87 + n)

/-- Four lowercase hex digits of `n % 0x10000`. -/
def hex4 (n : Nat) : List Char :=
  [hexDigitChar (n / 4096 % 16), hexDigitChar (n / 256 % 16),
   hexDigitChar (n / 16 % 16), hexDigitChar (n % 16)]

/-- Escape of one character inside a JSON string, following Python
`json.encoder.py_encode_basestring_ascii` (default `ensure_ascii=True`):
quote and backslash get two-character escapes, the five short control
escapes are used where defined, every other character outside printable
ASCII becomes `\uXXXX` (a surrogate pair when above the BMP). -/
def escChar (c : Char) : List Char :=
  if c = '"' then ['\\', '"']
  else if c = '\\' then ['\\', '\\']
  else if c.toNat = 8 then ['\\', 'b']
  else if c.toNat = 9 then ['\\', 't']
  else if c.toNat = 10 then ['\\', 'n']
  else if c.toNat = 12 then ['\\', 'f']
  else if c.toNat = 13 then ['\\', 'r']
  else if 32 ≤ c.toNat ∧ c.toNat ≤ 126 then [c]
  else if c.toNat < 65536 then '\\' :: 'u' :: hex4 c.toNat
  else
    '\\' :: 'u' :: hex4 (55296 + (c.toNat - 65536) / 1024) ++
      '\\' :: 'u' :: hex4 (56320 + (c.toNat - 65536) % 1024)

def escL : List Char → List Char
  | [] => []
  | c :: cs => escChar c ++ escL cs

mutual

/-- Serialization of a value, following Python `json.dumps` with its
default arguments (`ensure_ascii=True`, separators `", "` and `": "`,
insertion-ordered keys). -/
def dumpsL : Json → List Char
  | .null => "null".data
  | .bool true => "true".data
  | .bool false => "false".data
  | .int n => intChars n
  | .str s => '"' :: (escL s.data ++ ['"'])
  | .arr xs => '[' :: (dumpsA xs ++ [']'])
  | .obj kvs => '{' :: (dumpsO kvs ++ ['}'])

def dumpsA : JsonA → List Char
  | .nil => []
  | .cons x .nil => dumpsL x
  | .cons x (.cons y ys) => dumpsL x ++ ',' :: ' ' :: dumpsA (.cons y ys)

def dumpsO : JsonO → List Char
  | .nil => []
  | .cons k v .nil => '"' :: (escL k.data ++ ['"']) ++ ':' :: ' ' :: dumpsL v
  | .cons k v (.cons k2 v2 ys) =>
    '"' :: (escL k.data ++ ['"']) ++ ':' :: ' ' :: dumpsL v ++
      ',' :: ' ' :: dumpsO (.cons k2 v2 ys)

end

/-- Model of Python `json.dumps(value)`. -/
def dumps (v : Json) : String := String.mk (dumpsL v)

/-- Model of Python `str(value)` on scalar values, and `json.dumps` on
containers; this is exactly the rendering `substitute_variables` applies
to a resolved context value. -/
def renderValue : Json → String
  | .null => "None"
  | .bool true => "True"
  | .bool false => "False"
  | .int n => String.mk (intChars n)
  | .str s => s
  | .arr xs => dumps (.arr xs)
  | .obj kvs => dumps (.obj kvs)

/-- Whitespace recognized by the JSON grammar (and by Python
`json.loads` between tokens): space, tab, newline, carriage return. -/
def jsonWs (c : Char) : Bool :=
  c = ' ' ∨ c = '\t' ∨ c = '\n' ∨ c = '\r'

def skipWs : List Char → List Char
  | [] => []
  | c :: cs => if jsonWs c then skipWs cs else c :: cs

/-- Whitespace stripped by Python `str.strip()` (ASCII portion:
space, tab, newline, carriage return, vertical tab, form feed). -/
def pyWs (c : Char) : Bool :=
  c = ' ' ∨ c = '\t' ∨ c = '\n' ∨ c = '\r' ∨ c.toNat = 11 ∨ c.toNat = 12

def dropLeadingWs : List Char → List Char
  | [] => []
  | c :: cs => if pyWs c then dropLeadingWs cs else c :: cs

/-- Model of Python `s.strip()` (with the ASCII whitespace set):
drop trailing whitespace, then leading whitespace. -/
def pyStrip (s : String) : String :=
  String.mk (dropLeadingWs (dropLeadingWs s.data.reverse).reverse)

/-- Value of a hexadecimal digit character (either case). -/
def hexVal (c : Char) : Option Nat :=
  if 48 ≤ c.toNat ∧ c.toNat ≤ 57 then some (c.toNat - 48)
  else if 97 ≤ c.toNat ∧ c.toNat ≤ 102 then some (c.toNat - 87)
  else if 65 ≤ c.toNat ∧ c.toNat ≤ 70 then some (c.toNat - 55)
  else none

/-- Body of a JSON string after the opening quote: decodes escapes and
returns the decoded characters together with the input after the closing
quote.  Follows the strict `json.loads` scanner: raw control characters
and unknown escapes are rejected; `\uXXXX` escapes are decoded,
recombining surrogate pairs (unpaired surrogates, which Python would
keep as lone surrogate code units, are outside the modelled domain and
rejected). -/
def parseStringBody : List Char → Option (List Char × List Char)
  | [] => none
  | '"' :: rest => some ([], rest)
  | '\\' :: rest =>
    match rest with
    | '"' :: r => (parseStringBody r).map (fun (cs, r2) => ('"' :: cs, r2))
    | '\\' :: r => (parseStringBody r).map (fun (cs, r2) => ('\\' :: cs, r2))
    | '/' :: r => (parseStringBody r).map (fun (cs, r2) => ('/' :: cs, r2))
    | 'b' :: r => (parseStringBody r).map (fun (cs, r2) => (Char.ofNat 8 :: cs, r2))
    | 'f' :: r => (parseStringBody r).map (fun (cs, r2) => (Char.ofNat 12 :: cs, r2))
    | 'n' :: r => (parseStringBody r).map (fun (cs, r2) => ('\n' :: cs, r2))
    | 'r' :: r => (parseStringBody r).map (fun (cs, r2) => (Char.ofNat 13 :: cs, r2))
    | 't' :: r => (parseStringBody r).map (fun (cs, r2) => ('\t' :: cs, r2))
    | 'u' :: h1 :: h2 :: h3 :: h4 :: r =>
      match hexVal h1, hexVal h2, hexVal h3, hexVal h4 with
      | some d1, some d2, some d3, some d4 =>
        let n := d1 * 4096 + d2 * 256 + d3 * 16 + d4
        if 55296 ≤ n ∧ n < 56320 then
          match r with
          | '\\' :: 'u' :: g1 :: g2 :: g3 :: g4 :: r2 =>
            match hexVal g1, hexVal g2, hexVal g3, hexVal g4 with
            | some e1, some e2, some e3, some e4 =>
              let m := e1 * 4096 + e2 * 256 + e3 * 16 + e4
              if 56320 ≤ m ∧ m < 57344 then
                (parseStringBody r2).map (fun (cs, r3) =>
                  (Char.ofNat (65536 + (n - 55296) * 1024 + (m - 56320)) :: cs, r3))
              else none
            | _, _, _, _ => none
          | _ => none
        else if 56320 ≤ n ∧ n < 57344 then none
        else (parseStringBody r).map (fun (cs, r2) => (Char.ofNat n :: cs, r2))
      | _, _, _, _ => none
    | _ => none
  | c :: rest =>
    if c.toNat < 32 then none
    else (parseStringBody rest).map (fun (cs, r2) => (c :: cs, r2))

/-- Digit-accumulating loop of the number scanner. -/
def digitsLoop (acc : Nat) : List Char → Nat × List Char
  | [] => (acc, [])
  | c :: cs =>
    if 48 ≤ c.toNat ∧ c.toNat ≤ 57 then digitsLoop (acc * 10 + (c.toNat - 48)) cs
    else (acc, c :: cs)

/-- Unsigned integer part of a JSON number (`0|[1-9][0-9]*`, the integer
part of the scanner regex `NUMBER_RE`): a leading zero is not followed
by further digits. -/
def parseUIntPart : List Char → Option (Nat × List Char)
  | '0' :: rest => some (0, rest)
  | c :: rest =>
    if 49 ≤ c.toNat ∧ c.toNat ≤ 57 then some (digitsLoop (c.toNat - 48) rest)
    else none
  | [] => none

/-- True when the character would extend a JSON number into a float
(fraction or exponent); the modelled grammar covers integers only, so
such numbers are rejected rather than parsed as floats. -/
def floatFollow : List Char → Bool
  | [] => false
  | c :: _ => c = '.' ∨ c = 'e' ∨ c = 'E'

mutual

/-- Recursive-descent JSON value parser (model of the scanner behind
`json.loads` / `JSONDecoder.raw_decode`), on the integer-only grammar.
It starts exactly at the value (no leading whitespace skip, as in
`raw_decode`) and returns the value with the unconsumed suffix.  `fuel`
bounds the recursion depth; each caller passes a bound derived from the
input length. -/
def parseVal : Nat → List Char → Option (Json × List Char)
  | 0, _ => none
  | _ + 1, 'n' :: 'u' :: 'l' :: 'l' :: rest => some (.null, rest)
  | _ + 1, 't' :: 'r' :: 'u' :: 'e' :: rest => some (.bool true, rest)
  | _ + 1, 'f' :: 'a' :: 'l' :: 's' :: 'e' :: rest => some (.bool false, rest)
  | _ + 1, '"' :: rest =>
    (parseStringBody rest).map (fun (cs, r) => (.str (String.mk cs), r))
  | _ + 1, '-' :: rest =>
    match parseUIntPart rest with
    | some (n, r) => if floatFollow r then none else some (.int (-(n : Int)), r)
    | none => none
  | fuel + 1, '[' :: rest =>
    match skipWs rest with
    | ']' :: r => some (.arr .nil, r)
    | r => (parseElems fuel r).map (fun (xs, r2) => (.arr xs, r2))
  | fuel + 1, '{' :: rest =>
    match skipWs rest with
    | '}' :: r => some (.obj .nil, r)
    | r => (parseMembers fuel r).map (fun (kvs, r2) => (.obj kvs, r2))
  | _ + 1, c :: rest =>
    match parseUIntPart (c :: rest) with
    | some (n, r) => if floatFollow r then none else some (.int (n : Int), r)
    | none => none
  | _ + 1, [] => none

/-- One or more array elements followed by `]`. -/
def parseElems : Nat → List Char → Option (JsonA × List Char)
  | 0, _ => none
  | fuel + 1, cs =>
    match parseVal fuel cs with
    | none => none
    | some (v, r) =>
      match skipWs r with
      | ',' :: r2 =>
        (parseElems fuel (skipWs r2)).map (fun (xs, r3) => (.cons v xs, r3))
      | ']' :: r2 => some (.cons v .nil, r2)
      | _ => none

/-- One or more object members followed by `}`. -/
def parseMembers : Nat → List Char → Option (JsonO × List Char)
  | 0, _ => none
  | fuel + 1, cs =>
    match cs with
    | '"' :: r0 =>
      match parseStringBody r0 with
      | none => none
      | some (kcs, r1) =>
        match skipWs r1 with
        | ':' :: r2 =>
          match parseVal fuel (skipWs r2) with
          | none => none
          | some (v, r3) =>
            match skipWs r3 with
            | ',' :: r4 =>
              match skipWs r4 with
              | '"' :: r5 =>
                (parseMembers fuel ('"' :: r5)).map
                  (fun (kvs, r6) => (.cons (String.mk kcs) v kvs, r6))
              | _ => none
            | '}' :: r4 => some (.cons (String.mk kcs) v .nil, r4)
            | _ => none
        | _ => none
    | _ => none

end

/-- Model of Python `json.loads(s)`: whitespace, one value, whitespace,
end of input. -/
def loads (s : String) : Option Json :=
  let cs := skipWs s.data
  match parseVal (cs.length + 1) cs with
  | some (v, r) => if skipWs r = [] then some v else none
  | none => none

/-- Model of `json.JSONDecoder().raw_decode(s, idx)` restricted to the
suffix starting at `idx`: parses one value beginning exactly at the
head and returns it with the unconsumed suffix. -/
def rawDecode (cs : List Char) : Option (Json × List Char) :=
  parseVal (cs.length + 1) cs

/-- Python truthiness of an optional string field (`None` and `""` are
falsy). -/
def truthyS : Option String → Bool
  | none => false
  | some s => s ≠ ""

/-- Python truthiness of an optional dict field (`None` and `{}` are
falsy). -/
def truthyO : Option JsonO → Bool
  | none => false
  | some o => o ≠ .nil

/-- Value of the Python-typed field `parallel: bool | int` (in Python,
`bool` is a subtype of `int`; the source distinguishes the two with
`isinstance(..., bool)`, so the model keeps them apart). -/
inductive PyBoolInt where
  | pybool (b : Bool)
  | pyint (n : Int)
deriving DecidableEq, Repr

/-- Python truthiness of a `bool | int` value. -/
def PyBoolInt.truthy : PyBoolInt → Bool
  | .pybool b => b
  | .pyint n => n ≠ 0

/-- Model of `models.RecursionConfig`. -/
structure RecursionConfig where
  max_depth : Int := 5
  max_total_steps : Int := 100
deriving DecidableEq, Repr

/-- Model of `models.ApprovalConfig`. -/
structure ApprovalConfig where
  required : Bool := false
  prompt : String := ""
  timeout : Int := 0
  default : String := "deny"
deriving DecidableEq, Repr

/-- Model of `models.Step` (all dataclass fields, with Python `str`
options as `Option String`, dict-valued fields as key/value lists, and
the dynamic `retry` dict as a `JsonO`). -/
structure Step where
  id : String
  agent : Option String := none
  prompt : Option String := none
  mode : Option String := none
  agent_config : Option JsonO := none
  type : String := "agent"
  recipe : Option String := none
  step_context : Option JsonO := none
  command : Option String := none
  cwd : Option String := none
  env : Option (List (String × String)) := none
  output_exit_code : Option String := none
  output : Option String := none
  condition : Option String := none
  foreach : Option String := none
  as_var : Option String := none
  collect : Option String := none
  parallel : PyBoolInt := .pybool false
  max_iterations : Int := 100
  timeout : Int := 600
  retry : Option JsonO := none
  on_error : String := "fail"
  depends_on : List String := []
  parse_json : Bool := false
  recursion : Option RecursionConfig := none
deriving DecidableEq, Repr

/-- Model of `models.Stage`. -/
structure Stage where
  name : String
  steps : List Step
  approval : Option ApprovalConfig := none
deriving DecidableEq, Repr

/-- Model of `models.BackoffConfig` (the float `multiplier` is modelled
as a rational). -/
structure BackoffConfig where
  enabled : Bool := true
  initial_delay_ms : Int := 1000
  max_delay_ms : Int := 60000
  multiplier : Rat := 2
  reset_after_success : Int := 3
deriving DecidableEq, Repr

/-- Model of `models.RateLimitingConfig`. -/
structure RateLimitingConfig where
  max_concurrent_llm : Option Int := none
  min_delay_ms : Int := 0
  backoff : BackoffConfig := {}
deriving DecidableEq, Repr

/-- Model of `models.OrchestratorConfig`. -/
structure OrchestratorConfig where
  config : JsonO := .nil
deriving DecidableEq, Repr

/-- Model of `models.Recipe` (the YAML-parsing classmethods are not
modelled; recipes enter the model already parsed). -/
structure Recipe where
  name : String
  description : String
  version : String
  steps : List Step := []
  stages : List Stage := []
  author : Option String := none
  created : Option String := none
  updated : Option String := none
  tags : List String := []
  context : List (String × Json) := []
  recursion : Option RecursionConfig := none
  rate_limiting : Option RateLimitingConfig := none
  orchestrator : Option OrchestratorConfig := none
deriving DecidableEq, Repr

/-- Model of `Recipe.is_staged`. -/
def Recipe.is_staged (r : Recipe) : Bool := r.stages.length > 0

/-- Model of `Recipe.get_all_steps`. -/
def Recipe.get_all_steps (r : Recipe) : List Step :=
  if r.is_staged then (r.stages.map Stage.steps).flatten else r.steps

/-- Execution context: a Python `dict[str, Any]` as an insertion-ordered
association list with unique keys (updates replace in place, new keys
are appended, deletion removes the key). -/
abbrev Ctx := List (String × Json)

/-- Model of `context[key]` read (`None` when absent). -/
def Ctx.lookup (ctx : Ctx) (key : String) : Option Json :=
  match ctx with
  | [] => none
  | (k, v) :: rest => if k = key then some v else Ctx.lookup rest key

/-- Model of `key in context`. -/
def Ctx.hasKey (ctx : Ctx) (key : String) : Bool :=
  (Ctx.lookup ctx key).isSome

/-- Model of `context[key] = value` (dict update: replace in place if
present, else append). -/
def Ctx.set (ctx : Ctx) (key : String) (v : Json) : Ctx :=
  match ctx with
  | [] => [(key, v)]
  | (k, w) :: rest =>
    if k = key then (k, v) :: rest else (k, w) :: Ctx.set rest key v

/-- Model of `del context[key]`. -/
def Ctx.erase (ctx : Ctx) (key : String) : Ctx :=
  match ctx with
  | [] => []
  | (k, w) :: rest => if k = key then rest else (k, w) :: Ctx.erase rest key

/-- Model of `{**a, **b}` (b wins on clashes, insertion order of a kept). -/
def Ctx.merge (a b : Ctx) : Ctx :=
  match b with
  | [] => a
  | (k, v) :: rest => Ctx.merge (a.set k v) rest

/-- Backtick character (code 96). -/
def btick : Char := Char.ofNat 96

/-- True when, after skipping `\s*`, the input starts with three
backticks.  Because no whitespace character is a backtick, the regex
engine backtracking over `\s*` followed by the closing fence is
equivalent to this deterministic skip-then-match. -/
def fenceAfter (cs : List Char) : Bool :=
  match dropLeadingWs cs with
  | c1 :: c2 :: c3 :: _ => c1 = btick ∧ c2 = btick ∧ c3 = btick
  | _ => false

/-- Body scan of the non-greedy group `\{.*?\}` (or brackets) with
`re.DOTALL`: the body ends at the first closing character that is
followed by `\s*` and a closing fence; closing characters without that
continuation stay inside the body. -/
def bodyScan (close : Char) : List Char → Option (List Char)
  | [] => none
  | c :: rest =>
    if c = close ∧ fenceAfter rest then some []
    else (bodyScan close rest).map (fun b => c :: b)

/-- Match of the fenced-block pattern at one fixed starting position
(chars after this position).  Models one anchored attempt of
`re.search(r'```(?:json)?\s*(\{.*?\}|\[.*?\])\s*```', s, re.DOTALL)`:
the optional literal `json` is consumed exactly when present (the other
branch of `(?:json)?` then necessarily fails, so no further
backtracking arises), whitespace is skipped, and the non-greedy body
runs to the first valid close.  Returns the text of capture group 1. -/
def fenceAt (cs : List Char) : Option (List Char) :=
  match cs with
  | c1 :: c2 :: c3 :: rest =>
    if c1 = btick ∧ c2 = btick ∧ c3 = btick then
      let rest2 :=
        match rest with
        | 'j' :: 's' :: 'o' :: 'n' :: r => r
        | r => r
      match dropLeadingWs rest2 with
      | c :: r =>
        if c = '{' then (bodyScan '}' r).map (fun b => '{' :: b ++ ['}'])
        else if c = '[' then (bodyScan ']' r).map (fun b => '[' :: b ++ [']'])
        else none
      | [] => none
    else none
  | _ => none

/-- Leftmost match of the fenced-block pattern (model of `re.search`,
which tries successive start positions left to right). -/
def fenceSearch : List Char → Option (List Char)
  | [] => none
  | c :: rest =>
    match fenceAt (c :: rest) with
    | some g => some g
    | none => fenceSearch rest

/-- Strategy 3 scan for one start character: at each occurrence of
`c0`, left to right, attempt `raw_decode` there and return the first
successful parse (model of the `while idx != -1` loop in
`_extract_json_aggressively`). -/
def scanDecode (c0 : Char) : List Char → Option Json
  | [] => none
  | c :: rest =>
    if c = c0 then
      match rawDecode (c :: rest) with
      | some (v, _) => some v
      | none => scanDecode c0 rest
    else scanDecode c0 rest

/-- Model of `RecipeExecutor._extract_json_aggressively`.  The original
string is returned (as a `Json.str`) when every strategy fails. -/
def extract_json_aggressively (output : String) : Json :=
  let st := pyStrip output
  if st.data = [] then .str output
  else
    match loads st with
    | some v => v
    | none =>
      match
        (match fenceSearch st.data with
         | some g => loads (String.mk g)
         | none => none) with
      | some v => v
      | none =>
        match scanDecode '{' st.data with
        | some v => v
        | none =>
          match scanDecode '[' st.data with
          | some v => v
          | none => .str output

/-- Unwrap of a `spawn()` result: a dict carrying an `output` key is
replaced by that value (first half of `_process_step_result`). -/
def unwrapOutput (result : Json) : Json :=
  match result with
  | .obj kvs =>
    match kvs.lookup "output" with
    | some v => v
    | none => .obj kvs
  | r => r

/-- Model of `RecipeExecutor._process_step_result`: unwrap, then either
aggressive extraction (`parse_json` set) or the conservative default
(whole-string strict parse, with the aggressive fallback for bash
steps when its result differs from the original string). -/
def process_step_result (result : Json) (step : Step) : Json :=
  let output := unwrapOutput result
  match output with
  | .str s =>
    if step.parse_json then extract_json_aggressively s
    else
      let st := pyStrip s
      if st.data ≠ [] then
        match loads st with
        | some v => v
        | none =>
          if step.type = "bash" then
            let extracted := extract_json_aggressively s
            if extracted ≠ .str s then extracted else .str s
          else .str s
      else .str s
  | o => o

/-- Outcome of one `execute_step` attempt inside the retry loop
(abstracted: an attempt either returns a value or raises). -/
inductive AttemptRes where
  | ok (v : Json)
  | exn (msg : String)
deriving DecidableEq, Repr

/-- Outcome of `execute_step_with_retry`: a value, a `None` return (the
`on_error="continue"` path), a re-raised error, the `SkipRemainingError`
sentinel, or a `CancellationRequestedError`. -/
inductive RetryOut where
  | ok (v : Json)
  | retNone
  | raised (msg : String)
  | skipRem
  | cancelled
deriving DecidableEq, Repr

/-- Observable events of the retry loop: attempt invocations and the
sleeps between attempts (`await asyncio.sleep(min(delay, max_delay))`). -/
inductive RetryEv where
  | call (attempt : Nat)
  | sleep (amount : Int)
deriving DecidableEq, Repr

/-- Read an int entry of the `retry` config dict with a default (model
of `retry_config.get(key, default)`; non-int values are outside the
validated domain and fall back to the default). -/
def retryGetInt (r : Option JsonO) (key : String) (dflt : Int) : Int :=
  match r with
  | none => dflt
  | some d =>
    match d.lookup key with
    | some (.int n) => n
    | _ => dflt

/-- Read a string entry of the `retry` config dict with a default. -/
def retryGetStr (r : Option JsonO) (key : String) (dflt : String) : String :=
  match r with
  | none => dflt
  | some d =>
    match d.lookup key with
    | some (.str s) => s
    | _ => dflt

/-- Core of `RecipeExecutor.execute_step_with_retry` (specialized to
`rate_limiter=None`, whose branches are then all no-ops): iterate the
remaining attempts, checking the cancellation oracle before each one;
on an attempt exception at the final attempt apply `on_error`, otherwise
sleep `min(delay, max_delay)` and double the delay under exponential
backoff.  Returns the outcome together with the event trace. -/
def retryLoop (onError backoff : String) (maxDelay : Int)
    (attemptO : Nat → AttemptRes) (cancelO : Nat → Bool) :
    Nat → Nat → Int → Option String → RetryOut × List RetryEv
  | 0, _, _, lastErr =>
    (if onError = "fail" then
       match lastErr with
       | some e => .raised e
       | none => .retNone
     else .retNone, [])
  | m + 1, k, d, _ =>
    if cancelO k then (.cancelled, [])
    else
      match attemptO k with
      | .ok v => (.ok v, [.call k])
      | .exn e =>
        if m = 0 ∧ onError = "fail" then (.raised e, [.call k])
        else if m = 0 ∧ onError = "continue" then (.retNone, [.call k])
        else if m = 0 ∧ onError = "skip_remaining" then (.skipRem, [.call k])
        else
          let d2 := if backoff = "exponential" then d * 2 else d
          let next := retryLoop onError backoff maxDelay attemptO cancelO m (k + 1) d2 (some e)
          (next.1, .call k :: .sleep (min d maxDelay) :: next.2)

/-- Model of `RecipeExecutor.execute_step_with_retry`: extract the
retry configuration with its defaults and run the loop over
`range(max_attempts)`. -/
def execute_step_with_retry (step : Step) (attemptO : Nat → AttemptRes)
    (cancelO : Nat → Bool) : RetryOut × List RetryEv :=
  let maxAttempts := retryGetInt step.retry "max_attempts" 1
  let backoff := retryGetStr step.retry "backoff" "exponential"
  let delay := retryGetInt step.retry "initial_delay" 5
  let maxDelay := retryGetInt step.retry "max_delay" 300
  retryLoop step.on_error backoff maxDelay attemptO cancelO maxAttempts.toNat 0 delay none

/-- Model of `executor.RecursionState`. -/
structure RecursionState where
  current_depth : Nat := 0
  total_steps : Nat := 0
  max_depth : Int := 5
  max_total_steps : Int := 100
  recipe_stack : List String := []
deriving DecidableEq, Repr

/-- Model of `RecursionState.check_depth`. -/
def RecursionState.check_depth (rs : RecursionState) : Except String Unit :=
  if (rs.current_depth : Int) ≥ rs.max_depth then
    .error ("Recipe recursion depth " ++ String.mk (natChars rs.current_depth) ++
      " exceeds limit " ++ String.mk (intChars rs.max_depth) ++ ". " ++
      "Stack: " ++ String.intercalate " -> " rs.recipe_stack)
  else .ok ()

/-- Model of `RecursionState.check_total_steps`. -/
def RecursionState.check_total_steps (rs : RecursionState) : Except String Unit :=
  if (rs.total_steps : Int) ≥ rs.max_total_steps then
    .error ("Total steps " ++ String.mk (natChars rs.total_steps) ++
      " exceeds limit " ++ String.mk (intChars rs.max_total_steps))
  else .ok ()

/-- Model of `RecursionState.increment_steps`: bump `total_steps`, then
check the limit.  The mutation persists even when the check raises, so
the new state is returned alongside the check outcome. -/
def RecursionState.increment_steps (rs : RecursionState) :
    RecursionState × Except String Unit :=
  let rs2 := { rs with total_steps := rs.total_steps + 1 }
  (rs2, rs2.check_total_steps)

/-- Model of `RecursionState.enter_recipe`: child state at depth+1 with
the recipe name pushed; a per-step override replaces the limits, and the
cumulative step counter is inherited. -/
def RecursionState.enter_recipe (rs : RecursionState) (recipe_name : String)
    (override_config : Option RecursionConfig) : RecursionState :=
  { current_depth := rs.current_depth + 1
    total_steps := rs.total_steps
    max_depth := match override_config with
      | some c => c.max_depth
      | none => rs.max_depth
    max_total_steps := match override_config with
      | some c => c.max_total_steps
      | none => rs.max_total_steps
    recipe_stack := rs.recipe_stack ++ [recipe_name] }

/-- Exceptions that cross step boundaries in the executor: the
`SkipRemainingError` sentinel, `CancellationRequestedError`, and
ordinary errors carrying a message. -/
inductive StepExn where
  | skipRem
  | cancelled
  | err (msg : String)
deriving DecidableEq, Repr

/-- Model of `executor.BashResult`. -/
structure BashResultM where
  stdout : String
  stderr : String
  exit_code : Int
deriving DecidableEq, Repr

/-- Python `type(v).__name__` on the modelled values. -/
def pyTypeName : Json → String
  | .null => "NoneType"
  | .bool _ => "bool"
  | .int _ => "int"
  | .str _ => "str"
  | .arr _ => "list"
  | .obj _ => "dict"

/-- Word character of the (ASCII-modelled) regex class `\w`. -/
def isWordChar (c : Char) : Bool := c.isAlphanum || c = '_'

/-- Maximal `\w*` prefix. -/
def takeWord : List Char → List Char × List Char
  | [] => ([], [])
  | c :: cs =>
    if isWordChar c then
      let (w, r) := takeWord cs
      (c :: w, r)
    else ([], c :: cs)

/-- Parse `\w+(\.\w+)*`: one or more dot-separated identifier segments.
The regex is greedy, but a `.` is consumed only when a word character
follows, which is exactly what backtracking over `(\.\w+)*` yields. -/
def matchDotPathGo : Nat → List Char → List String →
    Option (List String × List Char)
  | 0, rest, acc => some (acc, rest)
  | fuel + 1, '.' :: c :: cs, acc =>
    if isWordChar c then
      let (w, r) := takeWord (c :: cs)
      matchDotPathGo fuel r (acc ++ [String.mk w])
    else some (acc, '.' :: c :: cs)
  | _ + 1, rest, acc => some (acc, rest)

def matchDotPath (cs : List Char) : Option (List String × List Char) :=
  match takeWord cs with
  | ([], _) => none
  | (w, rest) => matchDotPathGo rest.length rest [String.mk w]

/-- Parse the tail of `\{\{(\w+(\.\w+)*)\}\}` starting after the two
opening braces: the dotted path followed by two closing braces.
Returns the path segments and the input after the match. -/
def matchVarRef (cs : List Char) : Option (List String × List Char) :=
  match matchDotPath cs with
  | none => none
  | some (segs, rest) =>
    match rest with
    | '}' :: '}' :: r => some (segs, r)
    | _ => none

/-- Walk a dotted path through nested dicts (each hop requires a dict
containing the key, as in the `isinstance(value, dict) and part in
value` walk). -/
def jsonPath : Json → List String → Option Json
  | v, [] => some v
  | .obj kvs, p :: rest =>
    match kvs.lookup p with
    | some v => jsonPath v rest
    | none => none
  | _, _ :: _ => none

/-- The context viewed as a dict value, for dotted-path walks that
start at the context itself. -/
def ctxToObj (ctx : Ctx) : Json := .obj (JsonO.ofList ctx)

/-- Model of `RecipeExecutor._resolve_foreach_variable`: `re.match` of
the `{{var.path}}` pattern against the stripped expression (a prefix
match — trailing text is ignored), then a dotted-path walk. -/
def resolve_foreach_variable (foreach : String) (ctx : Ctx) :
    Except String Json :=
  match (pyStrip foreach).data with
  | '{' :: '{' :: cs =>
    match matchVarRef cs with
    | none => .error ("Invalid foreach syntax: " ++ foreach)
    | some (segs, _) =>
      match jsonPath (ctxToObj ctx) segs with
      | some v => .ok v
      | none => .error ("Undefined variable in foreach: " ++ foreach)
  | _ => .error ("Invalid foreach syntax: " ++ foreach)

/-- Append one element to an array spine. -/
def JsonA.append : JsonA → Json → JsonA
  | .nil, v => .cons v .nil
  | .cons x xs, v => .cons x (xs.append v)

/-- Record a step id in the `_skipped_steps` context list (model of the
`context.get("_skipped_steps", []) … append … store` sequence; a
non-list value under that key, which would raise in Python, is outside
the modelled domain and treated as absent). -/
def appendSkipped (ctx : Ctx) (id : String) : Ctx :=
  let cur := match ctx.lookup "_skipped_steps" with
    | some (.arr a) => a
    | _ => .nil
  ctx.set "_skipped_steps" (.arr (cur.append (.str id)))

/-- External effects of one loop iteration (or of one non-foreach step
body): the iteration-boundary cancellation poll, the sub-recipe result
(with the child's final cumulative step count), the bash subprocess
outcome (everything up to the exit-code check), and the per-attempt
agent results with the retry loop's cancellation polls. -/
structure IterO where
  cancel : Bool := false
  recipeRes : Except StepExn (Json × Nat) := .error (.err "unused")
  bashProc : Except String BashResultM := .error "unused"
  attempts : Nat → AttemptRes := fun _ => .exn "unused"
  attemptCancel : Nat → Bool := fun _ => false

/-- Model of `RecipeExecutor._execute_bash_step` given the subprocess
outcome: a non-zero exit code raises when `on_error="fail"` (with the
stderr tail appended to the message), otherwise the result is
returned.  Variable substitution and the timeout kill are folded into
the subprocess oracle. -/
def execute_bash_step (step : Step) (procO : Except String BashResultM) :
    Except String BashResultM :=
  match procO with
  | .error e => .error e
  | .ok r =>
    if r.exit_code ≠ 0 ∧ step.on_error = "fail" then
      .error ("Step " ++ quo ++ step.id ++ quo ++ ": command failed with exit code " ++
        String.mk (intChars r.exit_code) ++
        (if pyStrip r.stderr ≠ "" then "\nstderr: " ++ pyStrip r.stderr else ""))
    else .ok r

/-- Dispatch of one (non-foreach) step body by step type, threading the
context (bash exit-code store) and the recursion state (agent step
counting).  This block appears verbatim in `execute_recipe` (flat),
`_execute_staged_recipe` and `_execute_loop_sequential`; it is modelled
once.  Returns the raw result before `_process_step_result`. -/
def stepBody (step : Step) (ctx : Ctx) (rs : RecursionState) (o : IterO) :
    Except StepExn Json × Ctx × RecursionState :=
  if step.type = "recipe" then
    match o.recipeRes with
    | .error e => (.error e, ctx, rs)
    | .ok (res, newTotal) => (.ok res, ctx, { rs with total_steps := newTotal })
  else if step.type = "bash" then
    match execute_bash_step step o.bashProc with
    | .error e => (.error (.err e), ctx, rs)
    | .ok br =>
      let ctx2 := match step.output_exit_code with
        | some v => if v ≠ "" then ctx.set v (.str (String.mk (intChars br.exit_code))) else ctx
        | none => ctx
      (.ok (.str br.stdout), ctx2, rs)
  else
    let (rs2, chk) := rs.increment_steps
    match chk with
    | .error e => (.error (.err e), ctx, rs2)
    | .ok _ =>
      match (execute_step_with_retry step o.attempts o.attemptCancel).1 with
      | .ok v => (.ok v, ctx, rs2)
      | .retNone => (.ok .null, ctx, rs2)
      | .raised e => (.error (.err e), ctx, rs2)
      | .skipRem => (.error .skipRem, ctx, rs2)
      | .cancelled => (.error .cancelled, ctx, rs2)

/-- Wrap of a generic iteration failure into the structured message
`Step '<id>' iteration <idx> failed: <e>`; the sentinel and the
cancellation signal propagate unchanged. -/
def wrapIterExn (stepId : String) (idx : Nat) : StepExn → StepExn
  | .skipRem => .skipRem
  | .cancelled => .cancelled
  | .err e =>
    .err ("Step " ++ quo ++ stepId ++ quo ++ " iteration " ++
      String.mk (natChars idx) ++ " failed: " ++ e)

/-- Model of `RecipeExecutor._execute_loop_sequential`: per item, poll
cancellation, set the loop variable, run the body, process the result,
and delete the loop variable on every exit path (the `finally`). -/
def execute_loop_sequential (step : Step) (loop_var : String)
    (iterO : Nat → IterO) :
    List Json → Nat → Ctx → RecursionState → List Json →
    Except StepExn (List Json) × Ctx × RecursionState
  | [], _, ctx, rs, acc => (.ok acc, ctx, rs)
  | item :: restItems, idx, ctx, rs, acc =>
    let o := iterO idx
    if o.cancel then (.error .cancelled, ctx, rs)
    else
      let ctx1 := ctx.set loop_var item
      match stepBody step ctx1 rs o with
      | (.ok raw, ctx2, rs2) =>
        let r := process_step_result raw step
        execute_loop_sequential step loop_var iterO restItems (idx + 1)
          (ctx2.erase loop_var) rs2 (acc ++ [r])
      | (.error e, ctx2, rs2) =>
        (.error (wrapIterExn step.id idx e), ctx2.erase loop_var, rs2)

/-- Interior of one parallel iteration (`execute_iteration` in
`_execute_loop_parallel`): runs on its own shallow copy of the context
with the loop variable overlaid; agent steps are not individually
counted (the whole batch was pre-reserved); the processed result is
returned and the iteration context is discarded. -/
def parIterBody (step : Step) (iterCtx : Ctx) (o : IterO) (idx : Nat) :
    Except StepExn Json :=
  let body : Except StepExn Json :=
    if step.type = "recipe" then
      match o.recipeRes with
      | .error e => .error e
      | .ok (res, _) => .ok (process_step_result res step)
    else if step.type = "bash" then
      match execute_bash_step step o.bashProc with
      | .error e => .error (.err e)
      | .ok br =>
        let _ := match step.output_exit_code with
          | some v => if v ≠ "" then iterCtx.set v (.str (String.mk (intChars br.exit_code))) else iterCtx
          | none => iterCtx
        .ok (process_step_result (.str br.stdout) step)
    else
      match (execute_step_with_retry step o.attempts o.attemptCancel).1 with
      | .ok v => .ok (process_step_result v step)
      | .retNone => .ok (process_step_result .null step)
      | .raised e => .error (.err e)
      | .skipRem => .error .skipRem
      | .cancelled => .error .cancelled
  match body with
  | .ok r => .ok r
  | .error e => .error (wrapIterExn step.id idx e)

/-- Fail-fast join of the parallel iterations.  `asyncio.gather`
surfaces the first exception to occur in wall-clock time and preserves
result order; completion timing is outside the model, which surfaces
the least-index error. -/
def gatherResults (step : Step) (loop_var : String) (ctx : Ctx)
    (iterO : Nat → IterO) :
    List Json → Nat → List Json → Except StepExn (List Json)
  | [], _, acc => .ok acc
  | item :: restItems, idx, acc =>
    let iterCtx := ctx.set loop_var item
    match parIterBody step iterCtx (iterO idx) idx with
    | .ok r => gatherResults step loop_var ctx iterO restItems (idx + 1) (acc ++ [r])
    | .error e => .error e

/-- Model of `RecipeExecutor._execute_loop_parallel`: poll cancellation
before fan-out, pre-reserve the whole batch against the cumulative
agent-step limit, then run every iteration on its own context copy and
join fail-fast.  The parent context is never written. -/
def execute_loop_parallel (step : Step) (loop_var : String)
    (items : List Json) (preCancel : Bool) (iterO : Nat → IterO)
    (ctx : Ctx) (rs : RecursionState) :
    Except StepExn (List Json) × Ctx × RecursionState :=
  if preCancel then (.error .cancelled, ctx, rs)
  else if step.type = "agent" ∧
      (rs.total_steps + items.length : Int) > rs.max_total_steps then
    (.error (.err ("Parallel loop would exceed max_total_steps (" ++
      String.mk (natChars rs.total_steps) ++ " + " ++
      String.mk (natChars items.length) ++ " > " ++
      String.mk (intChars rs.max_total_steps) ++ ")")), ctx, rs)
  else
    let rs2 := if step.type = "agent" then
        { rs with total_steps := rs.total_steps + items.length }
      else rs
    (gatherResults step loop_var ctx iterO items 0 [], ctx, rs2)

/-- Model of `RecipeExecutor._execute_loop`: resolve the foreach
expression (must be a list), handle the empty list (mark skipped, store
an empty `collect` list, return), enforce `max_iterations`, run the
iterations sequentially or in parallel, and store the collected
results (or the last result under `output`). -/
def execute_loop (step : Step) (ctx : Ctx) (rs : RecursionState)
    (preCancel : Bool) (iterO : Nat → IterO) :
    Except StepExn Unit × Ctx × RecursionState :=
  match resolve_foreach_variable (step.foreach.getD "") ctx with
  | .error e => (.error (.err e), ctx, rs)
  | .ok itemsVal =>
    match itemsVal with
    | .arr itemsA =>
      let items := itemsA.toList
      if items = [] then
        let ctx1 := appendSkipped ctx step.id
        let ctx2 := match step.collect with
          | some c => if c ≠ "" then ctx1.set c (.arr .nil) else ctx1
          | none => ctx1
        (.ok (), ctx2, rs)
      else if (items.length : Int) > step.max_iterations then
        (.error (.err ("Step " ++ quo ++ step.id ++ quo ++
          ": foreach exceeds max_iterations (" ++
          String.mk (natChars items.length) ++ " > " ++
          String.mk (intChars step.max_iterations) ++ ")")), ctx, rs)
      else
        let loop_var := match step.as_var with
          | some v => if v ≠ "" then v else "item"
          | none => "item"
        let (res, ctx2, rs2) :=
          if step.parallel.truthy then
            execute_loop_parallel step loop_var items preCancel iterO ctx rs
          else
            execute_loop_sequential step loop_var iterO items 0 ctx rs []
        match res with
        | .error e => (.error e, ctx2, rs2)
        | .ok results =>
          let ctx3 :=
            if truthyS step.collect then
              ctx2.set (step.collect.getD "") (.arr (JsonA.ofList results))
            else if truthyS step.output ∧ results ≠ [] then
              ctx2.set (step.output.getD "") (results.getLastD .null)
            else ctx2
          (.ok (), ctx3, rs2)
    | v =>
      (.error (.err ("Step " ++ quo ++ step.id ++ quo ++
        ": foreach variable must be a list, got " ++ pyTypeName v)), ctx, rs)

/-- State document written by `save_state` for a flat recipe (the dict
built at the checkpoint sites of `execute_recipe`). -/
structure FlatSave where
  session_id : String
  recipe_name : String
  recipe_version : String
  started : String
  current_step_index : Nat
  context : Ctx
  completed_steps : List String
  project_path : String
deriving Repr

/-- Observable events of a flat execution, in program order:
`completed_steps.append`, `save_state`, and `mark_cancelled` calls. -/
inductive FlatEv where
  | completedAppend (i : Nat) (id : String)
  | save (s : FlatSave)
  | markCancelled
deriving Repr

/-- Result of a flat execution: normal completion with the final
context, a `CancellationRequestedError`, or another exception. -/
inductive FlatResult where
  | completed (ctx : Ctx)
  | cancelled
  | errored (msg : String)
deriving Repr

/-- External effects of one step of the executor loop: the pre-step
cancellation poll, the condition evaluation, the non-foreach body
effects, and (for foreach steps) the fan-out poll and per-iteration
effects. -/
structure StepO where
  preCancel : Bool := false
  cond : Except String Bool := .ok true
  body : IterO := {}
  loopPreCancel : Bool := false
  iters : Nat → IterO := fun _ => {}

/-- Events and result of the `CancellationRequestedError` handler of
`execute_recipe`: `mark_cancelled`, then `save_state` of the last
checkpoint when one exists. -/
def flatCancelFinish (lastState : Option FlatSave) : FlatResult × List FlatEv :=
  (.cancelled, .markCancelled :: (match lastState with
    | some s => [.save s]
    | none => []))

/-- Events and result of the generic exception handler of
`execute_recipe`: `save_state` of the last checkpoint when one exists. -/
def flatErrFinish (lastState : Option FlatSave) (msg : String) :
    FlatResult × List FlatEv :=
  (.errored msg, match lastState with
    | some s => [.save s]
    | none => [])

/-- Step loop of `execute_recipe` in flat mode (fresh session, so the
loop starts at index 0 and runs over the whole step list; the list
argument is the remaining steps, `i` the index of its head).  Carries
the context, the completed-step list, the recursion state and the last
constructed state document, and returns the result together with the
trace of session-store events. -/
def flatLoop (sid rname rver started ppath : String) (stepO : Nat → StepO) :
    List Step → Nat → Ctx → List String → RecursionState →
    Option FlatSave → FlatResult × List FlatEv
  | [], _, ctx, _, _, _ => (.completed ctx, [])
  | step :: rest, i, ctx, completed, rs, lastState =>
    let o := stepO i
    if o.preCancel then flatCancelFinish lastState
    else
      let ctx0 := ctx.set "step"
        (.obj (.cons "id" (.str step.id) (.cons "index" (.int i) .nil)))
      let runStep : FlatResult × List FlatEv :=
        if truthyS step.foreach then
          match execute_loop step ctx0 rs o.loopPreCancel o.iters with
          | (.ok _, ctx1, rs1) =>
            let completed2 := completed ++ [step.id]
            let st : FlatSave :=
              { session_id := sid, recipe_name := rname, recipe_version := rver
                started := started, current_step_index := i + 1
                context := ctx1, completed_steps := completed2
                project_path := ppath }
            let next := flatLoop sid rname rver started ppath stepO rest
              (i + 1) ctx1 completed2 rs1 (some st)
            (next.1, .completedAppend i step.id :: .save st :: next.2)
          | (.error .skipRem, ctx1, _) => (.completed ctx1, [])
          | (.error .cancelled, _, _) => flatCancelFinish lastState
          | (.error (.err e), _, _) => flatErrFinish lastState e
        else
          match stepBody step ctx0 rs o.body with
          | (.ok raw, ctx1, rs1) =>
            let result := process_step_result raw step
            let ctx2 := if truthyS step.output then
                ctx1.set (step.output.getD "") result
              else ctx1
            let completed2 := completed ++ [step.id]
            let st : FlatSave :=
              { session_id := sid, recipe_name := rname, recipe_version := rver
                started := started, current_step_index := i + 1
                context := ctx2, completed_steps := completed2
                project_path := ppath }
            let next := flatLoop sid rname rver started ppath stepO rest
              (i + 1) ctx2 completed2 rs1 (some st)
            (next.1, .completedAppend i step.id :: .save st :: next.2)
          | (.error .skipRem, ctx1, _) => (.completed ctx1, [])
          | (.error .cancelled, _, _) => flatCancelFinish lastState
          | (.error (.err e), _, _) => flatErrFinish lastState e
      if truthyS step.condition then
        match o.cond with
        | .error e =>
          flatErrFinish lastState
            ("Step " ++ quo ++ step.id ++ quo ++ ": condition error: " ++ e)
        | .ok false =>
          flatLoop sid rname rver started ppath stepO rest (i + 1)
            (appendSkipped ctx0 step.id) completed rs lastState
        | .ok true => runStep
      else runStep

/-- Model of `RecipeExecutor.execute_recipe` on a flat recipe with a
fresh session: merge the recipe context with the caller variables,
inject the `recipe` and `session` metadata, and run the step loop. -/
def execute_recipe_flat (recipe : Recipe) (context_vars : Ctx)
    (session_id started project_path : String) (rs : RecursionState)
    (stepO : Nat → StepO) : FlatResult × List FlatEv :=
  let ctx0 := Ctx.merge recipe.context context_vars
  let ctx1 := ctx0.set "recipe"
    (.obj (.cons "name" (.str recipe.name)
      (.cons "version" (.str recipe.version)
        (.cons "description" (.str recipe.description) .nil))))
  let ctx2 := ctx1.set "session"
    (.obj (.cons "id" (.str session_id)
      (.cons "started" (.str started)
        (.cons "project" (.str project_path) .nil))))
  flatLoop session_id recipe.name recipe.version started project_path stepO
    recipe.steps 0 ctx2 [] rs none

/-- State document written by `_save_staged_state`. -/
structure StagedSave where
  session_id : String
  recipe_name : String
  recipe_version : String
  started : String
  current_stage_index : Nat
  current_step_in_stage : Nat
  context : Ctx
  completed_stages : List String
  completed_steps : List String
  project_path : String
  is_staged : Bool := true
deriving Repr

/-- Observable events of a staged execution, in program order:
`completed_steps.append`, `_save_staged_state`, `set_pending_approval`,
the `ApprovalGatePausedError` raise, and `mark_cancelled`. -/
inductive StgEv where
  | completedAppend (stageIdx stepIdx : Nat) (id : String)
  | save (s : StagedSave)
  | setPending (stage_name prompt : String) (timeout : Int) (dflt : String)
  | raisePaused (session_id stage_name prompt : String)
  | markCancelled
deriving Repr

/-- Result of a staged execution. -/
inductive StagedResult where
  | completed (ctx : Ctx)
  | paused (session_id stage_name prompt : String)
  | cancelled
  | errored (msg : String)
deriving Repr

/-- The state document `_save_staged_state` builds and saves. -/
def mkStagedSave (sid rname rver started ppath : String) (ctx : Ctx)
    (stageIdx stepInStage : Nat) (cstages csteps : List String) :
    StagedSave :=
  { session_id := sid, recipe_name := rname, recipe_version := rver
    started := started, current_stage_index := stageIdx
    current_step_in_stage := stepInStage, context := ctx
    completed_stages := cstages, completed_steps := csteps
    project_path := ppath }

/-- Outcome of the step loop inside one stage: the stage's steps ran to
the end (also after a `SkipRemainingError` break), or an exception is
propagating.  Carries the context, recursion state and completed-step
list as they stand. -/
inductive StageStepsOut where
  | done (ctx : Ctx) (rs : RecursionState) (csteps : List String)
  | cancelled (ctx : Ctx) (rs : RecursionState) (csteps : List String)
  | errored (msg : String) (ctx : Ctx) (rs : RecursionState) (csteps : List String)
deriving Repr

/-- Step loop of `_execute_staged_recipe` inside the stage at index
`stageIdx` (fresh session: the loop starts at step 0). -/
def stagedStepLoop (sid rname rver started ppath stageName : String)
    (stageIdx : Nat) (stepO : Nat → StepO) (cstages : List String) :
    List Step → Nat → Ctx → List String → RecursionState →
    StageStepsOut × List StgEv
  | [], _, ctx, csteps, rs => (.done ctx rs csteps, [])
  | step :: rest, stepIdx, ctx, csteps, rs =>
    let o := stepO stepIdx
    if o.preCancel then (.cancelled ctx rs csteps, [])
    else
      let ctx0 := ctx.set "step"
        (.obj (.cons "id" (.str step.id)
          (.cons "index" (.int stepIdx)
            (.cons "stage" (.str stageName) .nil))))
      let runStep : StageStepsOut × List StgEv :=
        if truthyS step.foreach then
          match execute_loop step ctx0 rs o.loopPreCancel o.iters with
          | (.ok _, ctx1, rs1) =>
            let csteps2 := csteps ++ [step.id]
            let st := mkStagedSave sid rname rver started ppath ctx1
              stageIdx (stepIdx + 1) cstages csteps2
            let next := stagedStepLoop sid rname rver started ppath stageName
              stageIdx stepO cstages rest (stepIdx + 1) ctx1 csteps2 rs1
            (next.1, .completedAppend stageIdx stepIdx step.id :: .save st :: next.2)
          | (.error .skipRem, ctx1, rs1) => (.done ctx1 rs1 csteps, [])
          | (.error .cancelled, ctx1, rs1) => (.cancelled ctx1 rs1 csteps, [])
          | (.error (.err e), ctx1, rs1) => (.errored e ctx1 rs1 csteps, [])
        else
          match stepBody step ctx0 rs o.body with
          | (.ok raw, ctx1, rs1) =>
            let result := process_step_result raw step
            let ctx2 := if truthyS step.output then
                ctx1.set (step.output.getD "") result
              else ctx1
            let csteps2 := csteps ++ [step.id]
            let st := mkStagedSave sid rname rver started ppath ctx2
              stageIdx (stepIdx + 1) cstages csteps2
            let next := stagedStepLoop sid rname rver started ppath stageName
              stageIdx stepO cstages rest (stepIdx + 1) ctx2 csteps2 rs1
            (next.1, .completedAppend stageIdx stepIdx step.id :: .save st :: next.2)
          | (.error .skipRem, ctx1, rs1) => (.done ctx1 rs1 csteps, [])
          | (.error .cancelled, ctx1, rs1) => (.cancelled ctx1 rs1 csteps, [])
          | (.error (.err e), ctx1, rs1) => (.errored e ctx1 rs1 csteps, [])
      if truthyS step.condition then
        match o.cond with
        | .error e =>
          (.errored ("Step " ++ quo ++ step.id ++ quo ++ ": condition error: " ++ e)
            ctx0 rs csteps, [])
        | .ok false =>
          stagedStepLoop sid rname rver started ppath stageName stageIdx stepO
            cstages rest (stepIdx + 1) (appendSkipped ctx0 step.id) csteps rs
        | .ok true => runStep
      else runStep

/-- Default approval prompt `Approve completion of stage '<name>'?`. -/
def defaultApprovalPrompt (stageName : String) : String :=
  "Approve completion of stage " ++ quo ++ stageName ++ quo ++ "?"

/-- Stage loop of `_execute_staged_recipe` (fresh session, so the
exception handlers save with the initial position `(0, 0)`, which is
what the unreassigned `current_stage_index` / `current_step_in_stage`
variables hold).  On a finished stage with a required approval gate:
append the stage to `completed_stages`, save the state advanced to
`(stage_idx + 1, 0)`, set the pending-approval marker, then raise
`ApprovalGatePausedError`. -/
def stagedStageLoop (sid rname rver started ppath : String)
    (stgO : Nat → Nat → StepO) (stageCancel : Nat → Bool) :
    List Stage → Nat → Ctx → List String → List String → RecursionState →
    StagedResult × List StgEv
  | [], _, ctx, _, _, _ => (.completed ctx, [])
  | stage :: rest, stageIdx, ctx, cstages, csteps, rs =>
    if stageCancel stageIdx then
      (.cancelled, [.markCancelled,
        .save (mkStagedSave sid rname rver started ppath ctx 0 0 cstages csteps)])
    else
      let ctx0 := ctx.set "stage"
        (.obj (.cons "name" (.str stage.name)
          (.cons "index" (.int stageIdx) .nil)))
      match stagedStepLoop sid rname rver started ppath stage.name stageIdx
          (stgO stageIdx) cstages stage.steps 0 ctx0 csteps rs with
      | (.cancelled ctx1 _ csteps1, tr) =>
        (.cancelled, tr ++ [.markCancelled,
          .save (mkStagedSave sid rname rver started ppath ctx1 0 0 cstages csteps1)])
      | (.errored e ctx1 _ csteps1, tr) =>
        (.errored e, tr ++
          [.save (mkStagedSave sid rname rver started ppath ctx1 0 0 cstages csteps1)])
      | (.done ctx1 rs1 csteps1, tr) =>
        let cstages2 := cstages ++ [stage.name]
        let approvalRequired := match stage.approval with
          | some ap => ap.required
          | none => false
        if approvalRequired then
          let ap := stage.approval.getD {}
          let prompt := if ap.prompt ≠ "" then ap.prompt
            else defaultApprovalPrompt stage.name
          let st := mkStagedSave sid rname rver started ppath ctx1
            (stageIdx + 1) 0 cstages2 csteps1
          (.paused sid stage.name prompt, tr ++
            [.save st, .setPending stage.name prompt ap.timeout ap.default,
             .raisePaused sid stage.name prompt])
        else
          let st := mkStagedSave sid rname rver started ppath ctx1
            (stageIdx + 1) 0 cstages2 csteps1
          let next := stagedStageLoop sid rname rver started ppath stgO
            stageCancel rest (stageIdx + 1) ctx1 cstages2 csteps1 rs1
          (next.1, tr ++ .save st :: next.2)

/-- Model of `RecipeExecutor.execute_recipe` routed to
`_execute_staged_recipe` on a staged recipe with a fresh session:
merge contexts, inject the `recipe` and `session` metadata, then run
the stage loop from `(0, 0)`. -/
def execute_recipe_staged (recipe : Recipe) (context_vars : Ctx)
    (session_id started project_path : String) (rs : RecursionState)
    (stgO : Nat → Nat → StepO) (stageCancel : Nat → Bool) :
    StagedResult × List StgEv :=
  let ctx0 := Ctx.merge recipe.context context_vars
  let ctx1 := ctx0.set "recipe"
    (.obj (.cons "name" (.str recipe.name)
      (.cons "version" (.str recipe.version)
        (.cons "description" (.str recipe.description) .nil))))
  let ctx2 := ctx1.set "session"
    (.obj (.cons "id" (.str session_id)
      (.cons "started" (.str started)
        (.cons "project" (.str project_path) .nil))))
  stagedStageLoop session_id recipe.name recipe.version started project_path
    stgO stageCancel recipe.stages 0 ctx2 [] [] rs

/-- Python `s.replace(old, "")` for a single character: remove all
occurrences. -/
def removeChar (c : Char) (cs : List Char) : List Char :=
  cs.filter (fun x => x ≠ c)

/-- Python `s.isalnum()` (ASCII model): non-empty and all alphanumeric. -/
def pyIsAlnumL (cs : List Char) : Bool :=
  cs ≠ [] ∧ cs.all Char.isAlphanum

/-- Python `name.replace("-", "").replace("_", "").isalnum()`. -/
def nameAlnumOk (s : String) : Bool :=
  pyIsAlnumL (removeChar '_' (removeChar '-' s.data))

/-- Python `name.replace("-","").replace("_","").replace(" ","").isalnum()`
(stage names also allow spaces). -/
def stageNameAlnumOk (s : String) : Bool :=
  pyIsAlnumL (removeChar ' ' (removeChar '_' (removeChar '-' s.data)))

/-- Python `s.replace("_", "").isalnum()` (output-variable names). -/
def varNameAlnumOk (s : String) : Bool :=
  pyIsAlnumL (removeChar '_' s.data)

/-- True when the string contains the substring `{{`. -/
def hasOpenBraces : List Char → Bool
  | '{' :: '{' :: _ => true
  | _ :: rest => hasOpenBraces rest
  | [] => false

/-- Keep the first occurrence of each element (model of the
`set(duplicates)` in the duplicate-id messages; Python set iteration
order is unspecified, the model uses first-occurrence order). -/
def dedupKeepFirst (l : List String) : List String :=
  l.foldl (fun acc x => if acc.contains x then acc else acc ++ [x]) []

/-- Message prefix `Step '<id>': `. -/
def stepMsg (id rest : String) : String :=
  "Step " ++ quo ++ id ++ quo ++ ": " ++ rest

/-- Model of `RecursionConfig.validate`. -/
def RecursionConfig.validate (c : RecursionConfig) : List String :=
  (if ¬ (1 ≤ c.max_depth ∧ c.max_depth ≤ 20) then
    ["recursion.max_depth must be 1-20, got " ++ String.mk (intChars c.max_depth)]
  else []) ++
  (if ¬ (1 ≤ c.max_total_steps ∧ c.max_total_steps ≤ 1000) then
    ["recursion.max_total_steps must be 1-1000, got " ++
      String.mk (intChars c.max_total_steps)]
  else [])

/-- Model of `BackoffConfig.validate` (the float `multiplier` is
rendered through `Rat`'s printer in the unclaimed message text). -/
def BackoffConfig.validate (c : BackoffConfig) : List String :=
  (if c.initial_delay_ms < 100 then
    ["backoff.initial_delay_ms must be >= 100, got " ++
      String.mk (intChars c.initial_delay_ms)]
  else []) ++
  (if c.max_delay_ms < c.initial_delay_ms then
    ["backoff.max_delay_ms must be >= initial_delay_ms, got " ++
      String.mk (intChars c.max_delay_ms) ++ " < " ++
      String.mk (intChars c.initial_delay_ms)]
  else []) ++
  (if c.multiplier < 1 then
    ["backoff.multiplier must be >= 1.0, got " ++ toString c.multiplier]
  else []) ++
  (if c.reset_after_success < 1 then
    ["backoff.reset_after_success must be >= 1, got " ++
      String.mk (intChars c.reset_after_success)]
  else [])

/-- Model of `RateLimitingConfig.validate`. -/
def RateLimitingConfig.validate (c : RateLimitingConfig) : List String :=
  (match c.max_concurrent_llm with
   | none => []
   | some m =>
     (if m < 1 then
       ["rate_limiting.max_concurrent_llm must be >= 1, got " ++
         String.mk (intChars m)]
     else []) ++
     (if m > 100 then
       ["rate_limiting.max_concurrent_llm unusually high (" ++
         String.mk (intChars m) ++ "), consider a lower value"]
     else [])) ++
  (if c.min_delay_ms < 0 then
    ["rate_limiting.min_delay_ms must be >= 0, got " ++
      String.mk (intChars c.min_delay_ms)]
  else []) ++
  (if c.min_delay_ms > 60000 then
    ["rate_limiting.min_delay_ms unusually high (" ++
      String.mk (intChars c.min_delay_ms) ++ "ms), consider a lower value"]
  else []) ++
  c.backoff.validate

/-- Model of `OrchestratorConfig.validate` (non-int config values are
reported; the message renders the offending value through the scalar
renderer). -/
def OrchestratorConfig.validate (c : OrchestratorConfig) : List String :=
  match c.config.lookup "min_delay_between_calls_ms" with
  | none => []
  | some (.int n) =>
    if n < 0 then
      ["orchestrator.config.min_delay_between_calls_ms must be non-negative int, got " ++
        String.mk (intChars n)]
    else []
  | some v =>
    ["orchestrator.config.min_delay_between_calls_ms must be non-negative int, got " ++
      renderValue v]

/-- Model of `models.ApprovalConfig.validate`. -/
def ApprovalConfig.validate (c : ApprovalConfig) : List String :=
  (if c.timeout < 0 then ["approval.timeout must be non-negative"] else []) ++
  (if c.default ≠ "deny" ∧ c.default ≠ "approve" then
    ["approval.default must be " ++ quo ++ "deny" ++ quo ++ " or " ++ quo ++
      "approve" ++ quo ++ ", got " ++ quo ++ c.default ++ quo]
  else []) ++
  (if c.required ∧ c.prompt = "" then
    ["approval.prompt is required when approval.required is true"]
  else [])

/-- Model of `models.Step.validate` (the structural rules, in source
order). -/
def Step.validate (s : Step) : List String :=
  (if s.id = "" then ["Step missing required field: id"] else []) ++
  (if s.type = "agent" then
    (if ¬ truthyS s.agent then
      [stepMsg s.id ("agent steps require " ++ quo ++ "agent" ++ quo ++ " field")]
    else []) ++
    (if ¬ truthyS s.prompt then
      [stepMsg s.id ("agent steps require " ++ quo ++ "prompt" ++ quo ++ " field")]
    else []) ++
    (if truthyS s.recipe then
      [stepMsg s.id ("agent steps cannot have " ++ quo ++ "recipe" ++ quo ++ " field")]
    else []) ++
    (if truthyO s.step_context then
      [stepMsg s.id ("agent steps cannot have " ++ quo ++ "context" ++ quo ++ " field")]
    else []) ++
    (if truthyS s.command then
      [stepMsg s.id ("agent steps cannot have " ++ quo ++ "command" ++ quo ++ " field")]
    else [])
  else if s.type = "recipe" then
    (if ¬ truthyS s.recipe then
      [stepMsg s.id ("recipe steps require " ++ quo ++ "recipe" ++ quo ++ " field")]
    else []) ++
    (if truthyS s.agent then
      [stepMsg s.id ("recipe steps cannot have " ++ quo ++ "agent" ++ quo ++ " field")]
    else []) ++
    (if truthyS s.prompt then
      [stepMsg s.id ("recipe steps cannot have " ++ quo ++ "prompt" ++ quo ++ " field")]
    else []) ++
    (if truthyS s.mode then
      [stepMsg s.id ("recipe steps cannot have " ++ quo ++ "mode" ++ quo ++ " field")]
    else []) ++
    (if truthyS s.command then
      [stepMsg s.id ("recipe steps cannot have " ++ quo ++ "command" ++ quo ++ " field")]
    else []) ++
    (match s.recursion with
     | some rc => rc.validate
     | none => [])
  else if s.type = "bash" then
    (if ¬ truthyS s.command then
      [stepMsg s.id ("bash steps require " ++ quo ++ "command" ++ quo ++ " field")]
    else if pyStrip (s.command.getD "") = "" then
      [stepMsg s.id "bash command cannot be empty or whitespace"]
    else []) ++
    (if truthyS s.agent then
      [stepMsg s.id ("bash steps cannot have " ++ quo ++ "agent" ++ quo ++ " field")]
    else []) ++
    (if truthyS s.prompt then
      [stepMsg s.id ("bash steps cannot have " ++ quo ++ "prompt" ++ quo ++ " field")]
    else []) ++
    (if truthyS s.mode then
      [stepMsg s.id ("bash steps cannot have " ++ quo ++ "mode" ++ quo ++ " field")]
    else []) ++
    (if truthyO s.agent_config then
      [stepMsg s.id ("bash steps cannot have " ++ quo ++ "agent_config" ++ quo ++ " field")]
    else []) ++
    (if truthyS s.recipe then
      [stepMsg s.id ("bash steps cannot have " ++ quo ++ "recipe" ++ quo ++ " field")]
    else []) ++
    (if truthyO s.step_context then
      [stepMsg s.id ("bash steps cannot have " ++ quo ++ "context" ++ quo ++ " field")]
    else []) ++
    (if s.recursion.isSome then
      [stepMsg s.id ("bash steps cannot have " ++ quo ++ "recursion" ++ quo ++ " field")]
    else []) ++
    (match s.output_exit_code with
     | some oec =>
       if oec ≠ "" then
         (if ¬ varNameAlnumOk oec then
           [stepMsg s.id "output_exit_code must be alphanumeric with underscores"]
         else []) ++
         (if oec = "recipe" ∨ oec = "session" ∨ oec = "step" then
           [stepMsg s.id ("output_exit_code " ++ quo ++ oec ++ quo ++ " is reserved")]
         else [])
       else []
     | none => [])
  else
    [stepMsg s.id ("type must be " ++ quo ++ "agent" ++ quo ++ ", " ++ quo ++
      "recipe" ++ quo ++ ", or " ++ quo ++ "bash" ++ quo ++ ", got " ++ quo ++
      s.type ++ quo)]) ++
  (if s.timeout ≤ 0 then [stepMsg s.id "timeout must be positive"] else []) ++
  (if s.on_error ≠ "fail" ∧ s.on_error ≠ "continue" ∧ s.on_error ≠ "skip_remaining" then
    [stepMsg s.id ("on_error must be " ++ quo ++ "fail" ++ quo ++ ", " ++ quo ++
      "continue" ++ quo ++ ", or " ++ quo ++ "skip_remaining" ++ quo)]
  else []) ++
  (match s.output with
   | some out =>
     if out ≠ "" then
       (if ¬ varNameAlnumOk out then
         [stepMsg s.id "output name must be alphanumeric with underscores"]
       else []) ++
       (if out = "recipe" ∨ out = "session" ∨ out = "step" then
         [stepMsg s.id ("output name " ++ quo ++ out ++ quo ++ " is reserved")]
       else [])
     else []
   | none => []) ++
  (if truthyO s.retry then
    (match (s.retry.getD .nil).lookup "max_attempts" with
     | none => if (1 : Int) ≤ 0 then [stepMsg s.id "retry.max_attempts must be positive integer"] else []
     | some (.int n) =>
       if n ≤ 0 then [stepMsg s.id "retry.max_attempts must be positive integer"] else []
     | some (.bool b) =>
       if (if b then (1 : Int) else 0) ≤ 0 then
         [stepMsg s.id "retry.max_attempts must be positive integer"]
       else []
     | some _ => [stepMsg s.id "retry.max_attempts must be positive integer"]) ++
    (match (s.retry.getD .nil).lookup "backoff" with
     | none => []
     | some (.str b) =>
       if b ≠ "exponential" ∧ b ≠ "linear" then
         [stepMsg s.id ("retry.backoff must be " ++ quo ++ "exponential" ++ quo ++
           " or " ++ quo ++ "linear" ++ quo)]
       else []
     | some _ =>
       [stepMsg s.id ("retry.backoff must be " ++ quo ++ "exponential" ++ quo ++
         " or " ++ quo ++ "linear" ++ quo)])
  else []) ++
  (if truthyS s.foreach then
    (if ¬ hasOpenBraces (s.foreach.getD "").data then
      [stepMsg s.id ("foreach must contain a variable reference (e.g., " ++ quo ++
        "\x7b\x7bitems\x7d\x7d" ++ quo ++ ")")]
    else []) ++
    (if truthyS s.as_var ∧ ¬ varNameAlnumOk (s.as_var.getD "") then
      [stepMsg s.id (quo ++ "as" ++ quo ++ " must be a valid variable name")]
    else []) ++
    (if truthyS s.collect ∧ ¬ varNameAlnumOk (s.collect.getD "") then
      [stepMsg s.id (quo ++ "collect" ++ quo ++ " must be a valid variable name")]
    else []) ++
    (if s.max_iterations ≤ 0 then
      [stepMsg s.id "max_iterations must be positive"]
    else [])
  else []) ++
  (if s.parallel.truthy ∧ ¬ truthyS s.foreach then
    [stepMsg s.id "parallel requires foreach"]
  else []) ++
  (match s.parallel with
   | .pyint n =>
     if n < 1 then
       [stepMsg s.id ("parallel must be true, false, or a positive integer, got " ++
         String.mk (intChars n))]
     else []
   | .pybool _ => [])

/-- Model of `models.Stage.validate`. -/
def Stage.validate (st : Stage) : List String :=
  (if st.name = "" then ["Stage missing required field: name"] else []) ++
  (if ¬ stageNameAlnumOk st.name then
    ["Stage name must be alphanumeric with hyphens/underscores/spaces, got " ++
      quo ++ st.name ++ quo]
  else []) ++
  (if st.steps = [] then
    ["Stage " ++ quo ++ st.name ++ quo ++ ": must have at least one step"]
  else []) ++
  ((st.steps.map Step.validate).flatten.map
    (fun e => "Stage " ++ quo ++ st.name ++ quo ++ ": " ++ e)) ++
  (let ids := st.steps.map Step.id
   let dups := ids.filter (fun sid => ids.count sid > 1)
   if dups ≠ [] then
     ["Stage " ++ quo ++ st.name ++ quo ++ ": duplicate step IDs: " ++
       String.intercalate ", " (dedupKeepFirst dups)]
   else []) ++
  (match st.approval with
   | some ap => ap.validate.map
       (fun e => "Stage " ++ quo ++ st.name ++ quo ++ ": " ++ e)
   | none => [])

/-- Python `s.split(sep)` for a one-character separator: split on every
occurrence, preserving empty pieces (`""` gives `[""]`). -/
def splitOnChar (sep : Char) : List Char → List (List Char)
  | [] => [[]]
  | c :: rest =>
    match splitOnChar sep rest with
    | [] => if c = sep then [[], []] else [[c]]
    | h :: t => if c = sep then [] :: h :: t else (c :: h) :: t

/-- Version-format errors of `Recipe.validate` (strict
`MAJOR.MINOR.PATCH`). -/
def versionErrors (version : String) : List String :=
  if version = "" then []
  else if version.data.head? = some 'v' then
    ["Recipe version must follow semver format without " ++ quo ++ "v" ++ quo ++
      " prefix (use " ++ quo ++ "1.0.0" ++ quo ++ " not " ++ quo ++ "v1.0.0" ++
      quo ++ ")"]
  else if version.data.contains '-' ∨ version.data.contains '+' then
    ["Recipe version must follow simple semver format (MAJOR.MINOR.PATCH only, no pre-release tags)"]
  else
    let parts := (splitOnChar '.' version.data).map String.mk
    if parts.length ≠ 3 then
      ["Recipe version must follow semver format (MAJOR.MINOR.PATCH)"]
    else if ¬ parts.all (fun p => p.data ≠ [] ∧ p.data.all Char.isDigit) then
      ["Recipe version parts must be numeric (e.g., " ++ quo ++ "1.0.0" ++ quo ++
        " not " ++ quo ++ "1.a.0" ++ quo ++ ")"]
    else []

/-- Model of `Recipe._validate_flat_mode`. -/
def Recipe.validate_flat_mode (r : Recipe) : List String :=
  (r.steps.map Step.validate).flatten ++
  (let ids := r.steps.map Step.id
   let dups := ids.filter (fun sid => ids.count sid > 1)
   if dups ≠ [] then
     ["Duplicate step IDs: " ++ String.intercalate ", " (dedupKeepFirst dups)]
   else []) ++
  (let idSet := r.steps.map Step.id
   (r.steps.map (fun s =>
     (s.depends_on.filter (fun dep => ¬ idSet.contains dep)).map
       (fun dep => stepMsg s.id ("depends_on references unknown step " ++
         quo ++ dep ++ quo)))).flatten) ++
  ((r.steps.filter (fun s => s.depends_on.contains s.id)).map
    (fun s => stepMsg s.id "cannot depend on itself"))

/-- Model of `Recipe._validate_staged_mode`. -/
def Recipe.validate_staged_mode (r : Recipe) : List String :=
  (let names := r.stages.map Stage.name
   let dups := names.filter (fun n => names.count n > 1)
   if dups ≠ [] then
     ["Duplicate stage names: " ++ String.intercalate ", " (dedupKeepFirst dups)]
   else []) ++
  (r.stages.map Stage.validate).flatten ++
  (let ids := (r.stages.map (fun st => st.steps.map Step.id)).flatten
   let dups := ids.filter (fun sid => ids.count sid > 1)
   if dups ≠ [] then
     ["Duplicate step IDs across stages: " ++
       String.intercalate ", " (dedupKeepFirst dups)]
   else []) ++
  (let idSet := (r.stages.map (fun st => st.steps.map Step.id)).flatten
   (r.stages.map (fun st =>
     (st.steps.map (fun s =>
       (s.depends_on.filter (fun dep => ¬ idSet.contains dep)).map
         (fun dep => "Stage " ++ quo ++ st.name ++ quo ++ ", Step " ++ quo ++
           s.id ++ quo ++ ": depends_on references unknown step " ++
           quo ++ dep ++ quo))).flatten)).flatten) ++
  ((r.stages.map (fun st =>
    (st.steps.filter (fun s => s.depends_on.contains s.id)).map
      (fun s => "Stage " ++ quo ++ st.name ++ quo ++ ", Step " ++ quo ++
        s.id ++ quo ++ ": cannot depend on itself"))).flatten)

/-- Model of `models.Recipe.validate`. -/
def Recipe.validate (r : Recipe) : List String :=
  (if r.name = "" then ["Recipe missing required field: name"] else []) ++
  (if r.description = "" then ["Recipe missing required field: description"] else []) ++
  (if r.version = "" then ["Recipe missing required field: version"] else []) ++
  (if r.name ≠ "" ∧ ¬ nameAlnumOk r.name then
    ["Recipe name must be alphanumeric with hyphens/underscores"]
  else []) ++
  versionErrors r.version ++
  (if r.steps = [] ∧ r.stages = [] then
    ["Recipe must have at least one step or stage"]
  else []) ++
  (if r.is_staged then r.validate_staged_mode else r.validate_flat_mode) ++
  (match r.recursion with
   | some c => c.validate
   | none => []) ++
  (match r.rate_limiting with
   | some c => c.validate
   | none => []) ++
  (match r.orchestrator with
   | some c => c.validate
   | none => [])

/-- Keys of an object spine, in insertion order. -/
def JsonO.keys : JsonO → List String
  | .nil => []
  | .cons k _ rest => k :: rest.keys

/-- Python `sorted(keys)` (lexicographic code-point order). -/
def sortedKeys (l : List String) : List String :=
  l.mergeSort (fun a b => decide (a ≤ b))

/-- Keys of a context, in insertion order. -/
def ctxKeys (ctx : Ctx) : List String := ctx.map Prod.fst

/-- Dotted-path walk of the `replace` closure in `substitute_variables`
(the `"." in var_ref` branch), with its two error messages: an absent
key on a dict reports the missing key and its siblings; a non-dict
parent reports the type and the failed-JSON hint.  `soFar` is
`path_so_far[:-1]`, the segments already consumed. -/
def dottedWalk (varRef : String) : Json → List String → List String →
    Except String Json
  | v, [], _ => .ok v
  | v, part :: rest, soFar =>
    match v with
    | .obj kvs =>
      match kvs.lookup part with
      | some v2 => dottedWalk varRef v2 rest (soFar ++ [part])
      | none =>
        .error ("Undefined variable: \x7b\x7b" ++ varRef ++ "\x7d\x7d. " ++
          "Key " ++ quo ++ part ++ quo ++ " not found. " ++
          "Available keys at " ++ quo ++
          (let p := String.intercalate "." soFar
           if p = "" then "root" else p) ++ quo ++ ": " ++
          String.intercalate ", " (sortedKeys kvs.keys))
    | _ =>
      let parentPath := String.intercalate "." soFar
      .error ("Cannot access " ++ quo ++ part ++ quo ++ " on \x7b\x7b" ++
        parentPath ++ "\x7d\x7d - " ++
        "it" ++ quo ++ "s a " ++ pyTypeName v ++ ", not a dict. " ++
        "Hint: The step producing " ++ quo ++ parentPath ++ quo ++
        " may have failed to parse JSON. " ++
        "Check that the bash command outputs clean JSON or add " ++ quo ++
        "parse_json: true" ++ quo ++ ".")

/-- One replacement of the `replace` closure in `substitute_variables`:
dotted references walk the context, direct references look the key up
(raising with the sorted available keys when absent); dict and list
values render as `json.dumps`, scalars as `str(value)`. -/
def substReplace (segs : List String) (ctx : Ctx) : Except String String :=
  if segs.length ≥ 2 then
    match dottedWalk (String.intercalate "." segs) (ctxToObj ctx) segs [] with
    | .ok v => .ok (renderValue v)
    | .error e => .error e
  else
    match segs with
    | [seg] =>
      match Ctx.lookup ctx seg with
      | some v => .ok (renderValue v)
      | none =>
        .error ("Undefined variable: \x7b\x7b" ++ seg ++ "\x7d\x7d. " ++
          "Available variables: " ++
          String.intercalate ", " (sortedKeys (ctxKeys ctx)))
    | _ => .error "empty variable reference (unreachable: the pattern requires a segment)"

/-- Scan of `re.sub(pattern, replace, template)`: at each position try
the anchored pattern; on a match emit the replacement and continue
after the match, otherwise emit one character and move on.  `fuel`
bounds the recursion (callers pass the input length plus one, which
always suffices since every stage consumes at least one character). -/
def subVarsAux (ctx : Ctx) : Nat → List Char → Except String (List Char)
  | 0, cs => .ok cs
  | _ + 1, [] => .ok []
  | fuel + 1, c :: rest =>
    if c = '{' then
      match rest with
      | '{' :: rest2 =>
        match matchVarRef rest2 with
        | some (segs, after) =>
          match substReplace segs ctx with
          | .error e => .error e
          | .ok rep =>
            match subVarsAux ctx fuel after with
            | .error e => .error e
            | .ok tail => .ok (rep.data ++ tail)
        | none =>
          match subVarsAux ctx fuel rest with
          | .error e => .error e
          | .ok tail => .ok ('{' :: tail)
      | _ =>
        match subVarsAux ctx fuel rest with
        | .error e => .error e
        | .ok tail => .ok (c :: tail)
    else
      match subVarsAux ctx fuel rest with
      | .error e => .error e
      | .ok tail => .ok (c :: tail)

/-- Model of `RecipeExecutor.substitute_variables`. -/
def substitute_variables (template : String) (ctx : Ctx) :
    Except String String :=
  match subVarsAux ctx (template.data.length + 1) template.data with
  | .ok cs => .ok (String.mk cs)
  | .error e => .error e

/-- Entry into a sub-recipe as `_execute_recipe_step` performs it: build
the child state with `enter_recipe`, then `execute_recipe` immediately
runs `check_depth` on the child before any of its steps execute. -/
def enterRecipeChecked (rs : RecursionState) (name : String)
    (override : Option RecursionConfig) : Except String RecursionState :=
  let child := rs.enter_recipe name override
  match child.check_depth with
  | .error e => .error e
  | .ok _ => .ok child

/-- C6: the depth check performed at the attempt to enter a sub-recipe
raises exactly when the child state's depth (parent depth + 1) is at
least the applicable `max_depth`; in particular recipe `a` invoking `b`
invoking `a` under `max_depth = 2` enters `b` successfully and fails at
the re-entry of `a` with a message naming the stack `a -> b -> a`. -/
theorem recursion_depth_limit_fires_on_entry :
    (∀ (rs : RecursionState) (name : String) (ov : Option RecursionConfig),
      ((∃ e, enterRecipeChecked rs name ov = .error e) ↔
        ((rs.current_depth + 1 : Int) ≥ (rs.enter_recipe name ov).max_depth)) ∧
      (rs.enter_recipe name ov).current_depth = rs.current_depth + 1 ∧
      (rs.enter_recipe name ov).recipe_stack = rs.recipe_stack ++ [name]) ∧
    enterRecipeChecked
      { current_depth := 0, total_steps := 0, max_depth := 2,
        max_total_steps := 100, recipe_stack := ["a"] } "b" none =
      .ok { current_depth := 1, total_steps := 0, max_depth := 2,
            max_total_steps := 100, recipe_stack := ["a", "b"] } ∧
    enterRecipeChecked
      { current_depth := 1, total_steps := 0, max_depth := 2,
        max_total_steps := 100, recipe_stack := ["a", "b"] } "a" none =
      .error "Recipe recursion depth 2 exceeds limit 2. Stack: a -> b -> a" := by
  refine ⟨fun rs name ov => ⟨?_, rfl, rfl⟩, rfl, rfl⟩
  have hcd : (rs.enter_recipe name ov).current_depth = rs.current_depth + 1 := rfl
  have hcond : (((rs.enter_recipe name ov).current_depth : Int) ≥
      (rs.enter_recipe name ov).max_depth) ↔
      ((rs.current_depth + 1 : Int) ≥ (rs.enter_recipe name ov).max_depth) := by
    rw [hcd]
    push_cast
    exact Iff.rfl
  constructor
  · rintro ⟨e, he⟩
    rw [← hcond]
    by_contra hlt
    simp [enterRecipeChecked, RecursionState.check_depth, if_neg hlt] at he
  · intro hge
    have hrun : enterRecipeChecked rs name ov =
        .error ("Recipe recursion depth " ++
          String.mk (natChars (rs.enter_recipe name ov).current_depth) ++
          " exceeds limit " ++
          String.mk (intChars (rs.enter_recipe name ov).max_depth) ++ ". " ++
          "Stack: " ++
          String.intercalate " -> " (rs.enter_recipe name ov).recipe_stack) := by
      simp only [enterRecipeChecked, RecursionState.check_depth, if_pos (hcond.mpr hge)]
    exact ⟨_, hrun⟩

/-- Every sub-list of a flattened empty-lists structure is empty. -/
theorem step_validate_nil_of_recipe_valid {r : Recipe} (hv : r.validate = [])
    {s : Step} (hs : s ∈ r.get_all_steps) : s.validate = [] := by
  unfold Recipe.validate at hv
  rw [List.append_eq_nil, List.append_eq_nil, List.append_eq_nil,
    List.append_eq_nil, List.append_eq_nil, List.append_eq_nil,
    List.append_eq_nil, List.append_eq_nil, List.append_eq_nil] at hv
  have hmode := hv.1.1.1.2
  unfold Recipe.get_all_steps at hs
  by_cases hst : r.is_staged
  · rw [if_pos hst] at hmode hs
    unfold Recipe.validate_staged_mode at hmode
    rw [List.append_eq_nil, List.append_eq_nil, List.append_eq_nil,
      List.append_eq_nil] at hmode
    have hstages := hmode.1.1.1.2
    simp only [List.mem_flatten, List.mem_map] at hs
    obtain ⟨l, ⟨st, hstm, rfl⟩, hsl⟩ := hs
    have hstv : st.validate = [] := by
      have := List.flatten_eq_nil_iff.mp hstages
      exact this _ (List.mem_map_of_mem _ hstm)
    unfold Stage.validate at hstv
    rw [List.append_eq_nil, List.append_eq_nil, List.append_eq_nil,
      List.append_eq_nil, List.append_eq_nil] at hstv
    have hsteps := hstv.1.1.2
    rw [List.map_eq_nil_iff] at hsteps
    have := List.flatten_eq_nil_iff.mp hsteps
    exact this _ (List.mem_map_of_mem _ hsl)
  · rw [if_neg hst] at hmode hs
    unfold Recipe.validate_flat_mode at hmode
    rw [List.append_eq_nil, List.append_eq_nil, List.append_eq_nil] at hmode
    have := List.flatten_eq_nil_iff.mp hmode.1.1.1
    exact this _ (List.mem_map_of_mem _ hs)

/-- C10: structural validation reports `parallel requires foreach`
whenever `parallel` is truthy without a foreach clause, and rejects
non-bool integers below 1; consequently a recipe that validates cleanly
cannot contain a step whose `parallel` is truthy without a foreach
collection. -/
theorem parallel_requires_foreach_validation :
    (∀ s : Step, s.parallel.truthy → ¬ truthyS s.foreach →
      stepMsg s.id "parallel requires foreach" ∈ s.validate) ∧
    (∀ (s : Step) (n : Int), s.parallel = .pyint n → n < 1 →
      stepMsg s.id ("parallel must be true, false, or a positive integer, got " ++
        String.mk (intChars n)) ∈ s.validate) ∧
    (∀ (r : Recipe), r.validate = [] → ∀ s ∈ r.get_all_steps,
      ¬ (s.parallel.truthy ∧ ¬ truthyS s.foreach)) := by
  have hmem : ∀ s : Step, s.parallel.truthy → ¬ truthyS s.foreach →
      stepMsg s.id "parallel requires foreach" ∈ s.validate := by
    intro s hp hf
    unfold Step.validate
    refine List.mem_append_left _ (List.mem_append_right _ ?_)
    rw [if_pos ⟨hp, by simpa using hf⟩]
    exact List.mem_singleton.mpr rfl
  refine ⟨hmem, ?_, ?_⟩
  · intro s n hps hn
    unfold Step.validate
    refine List.mem_append_right _ ?_
    rw [hps]
    dsimp only
    rw [if_pos hn]
    exact List.mem_singleton.mpr rfl
  · intro r hv s hs ⟨hp, hf⟩
    have h0 := step_validate_nil_of_recipe_valid hv hs
    have := hmem s hp hf
    rw [h0] at this
    exact absurd this (List.not_mem_nil _)

/-- Plain agent step used in the validation witness. -/
def witnessAgentStep : Step := { id := "s1", agent := some "a", prompt := some "x" }

/-- Concrete instance of the parallel/foreach validation claim: a step
with `parallel: true` and no foreach gets the error, `parallel: 0`
gets the positive-integer error, and in a cleanly validating recipe no
step is parallel without foreach. -/
theorem parallel_requires_foreach_validation_witness :
    stepMsg "p" "parallel requires foreach" ∈
      Step.validate { id := "p", agent := some "a", prompt := some "x",
                      parallel := .pybool true } ∧
    stepMsg "p" ("parallel must be true, false, or a positive integer, got " ++
        String.mk (intChars 0)) ∈
      Step.validate { id := "p", agent := some "a", prompt := some "x",
                      parallel := .pyint 0,
                      foreach := some "\x7b\x7bitems\x7d\x7d" } ∧
    ¬ (witnessAgentStep.parallel.truthy ∧
        ¬ truthyS witnessAgentStep.foreach) :=
  ⟨parallel_requires_foreach_validation.1 _ (by decide) (by decide),
   parallel_requires_foreach_validation.2.1 _ 0 rfl (by decide),
   parallel_requires_foreach_validation.2.2
     { name := "r", description := "d", version := "1.0.0",
       steps := [witnessAgentStep] }
     (by decide) _ (by decide)⟩

/-- Number of attempt invocations in a retry trace. -/
def retryCalls (evs : List RetryEv) : Nat :=
  (evs.filter fun e => match e with
    | .call _ => true
    | _ => false).length

/-- The sleeps of a retry trace, in order. -/
def retrySleeps (evs : List RetryEv) : List Int :=
  evs.filterMap fun e => match e with
    | .sleep d => some d
    | _ => none

/-- Delay before the sleep following attempt `j` (doubling under
exponential backoff, constant under linear). -/
def backoffDelay (bk : String) (d0 : Int) (j : Nat) : Int :=
  if bk = "exponential" then d0 * 2 ^ j else d0

/-- The retry loop performs at most as many calls as it has remaining
attempts. -/
theorem retryLoop_calls_le (oe bk : String) (M : Int) (att : Nat → AttemptRes)
    (cO : Nat → Bool) :
    ∀ (m k : Nat) (d : Int) (le : Option String),
      retryCalls (retryLoop oe bk M att cO m k d le).2 ≤ m := by
  intro m
  induction m with
  | zero => intro k d le; simp [retryLoop, retryCalls]
  | succ m ih =>
    intro k d le
    rw [retryLoop]
    by_cases hc : cO k
    · simp [hc, retryCalls]
    · simp only [hc, Bool.false_eq_true, if_false]
      match hatt : att k with
      | .ok v => simp [retryCalls]
      | .exn e =>
        by_cases h1 : m = 0 ∧ oe = "fail"
        · simp [h1, retryCalls]
        · by_cases h2 : m = 0 ∧ oe = "continue"
          · simp [h1, h2, retryCalls]
          · by_cases h3 : m = 0 ∧ oe = "skip_remaining"
            · simp [h1, h2, h3, retryCalls]
            · simp only [h1, h2, h3, if_false]
              have := ih (k + 1) (if bk = "exponential" then d * 2 else d) (some e)
              simp only [retryCalls, List.filter, List.length_cons] at this ⊢
              omega

/-- Trace and outcome of the retry loop when no cancellation arrives
and every attempt fails: one call per remaining attempt, a sleep of
`min(delay, max_delay)` between consecutive attempts with the delay
doubling under exponential backoff (constant under linear), and the
final outcome dictated by `on_error`. -/
theorem retryLoop_allfail (oe bk : String) (M : Int) (att : Nat → AttemptRes)
    (cO : Nat → Bool) (err : Nat → String)
    (hc : ∀ j, cO j = false) (ha : ∀ j, att j = .exn (err j))
    (hoe : oe = "fail" ∨ oe = "continue" ∨ oe = "skip_remaining") :
    ∀ (m k : Nat) (d : Int) (le : Option String), 1 ≤ m →
      retrySleeps (retryLoop oe bk M att cO m k d le).2 =
        (List.range (m - 1)).map (fun j => min (backoffDelay bk d j) M) ∧
      retryCalls (retryLoop oe bk M att cO m k d le).2 = m ∧
      (retryLoop oe bk M att cO m k d le).1 =
        (if oe = "fail" then .raised (err (k + (m - 1)))
         else if oe = "continue" then .retNone
         else .skipRem) := by
  intro m
  induction m with
  | zero => intro k d le h; omega
  | succ m ih =>
    intro k d le _
    rw [retryLoop]
    simp only [hc k, Bool.false_eq_true, if_false, ha k]
    match m, ih with
    | 0, _ =>
      rcases hoe with h | h | h
      all_goals simp [h, retrySleeps, retryCalls]
    | m + 1, ih =>
      have hne1 : ¬ (m + 1 = 0 ∧ oe = "fail") := by simp
      have hne2 : ¬ (m + 1 = 0 ∧ oe = "continue") := by simp
      have hne3 : ¬ (m + 1 = 0 ∧ oe = "skip_remaining") := by simp
      simp only [hne1, hne2, hne3, if_false]
      obtain ⟨ihs, ihc, iho⟩ :=
        ih (k + 1) (if bk = "exponential" then d * 2 else d) (some (err k))
          (by omega)
      refine ⟨?_, ?_, ?_⟩
      · simp only [retrySleeps, List.filterMap] at ihs ⊢
        rw [ihs]
        simp only [Nat.add_sub_cancel]
        rw [List.range_succ_eq_map]
        simp only [List.map_cons, List.map_map]
        congr 1
        · simp [backoffDelay]
        · apply List.map_congr_left
          intro j _
          simp only [Function.comp]
          congr 1
          by_cases hbk : bk = "exponential"
          all_goals simp [backoffDelay, hbk, pow_succ]
          ring
      · simp only [retryCalls, List.filter] at ihc ⊢
        simp only [List.length_cons] at ihc ⊢
        omega
      · rw [iho]
        have : k + 1 + (m + 1 - 1) = k + (m + 1 + 1 - 1) := by omega
        rw [this]

/-- Retry configuration dict `{max_attempts, backoff, initial_delay,
max_delay}` as it appears on a step. -/
def mkRetryCfg (A d0 M : Int) (bk : String) : JsonO :=
  .cons "max_attempts" (.int A)
    (.cons "backoff" (.str bk)
      (.cons "initial_delay" (.int d0)
        (.cons "max_delay" (.int M) .nil)))

/-- C3: for an agent step with retry config `{max_attempts = A,
initial_delay = d0, max_delay = M, backoff}`, `execute_step_with_retry`
makes at most `A` calls; when every attempt fails (and no cancellation
arrives) it makes exactly `A` calls, sleeping `min(delay, max_delay)`
between consecutive attempts with the delay doubling under exponential
backoff and constant under linear, and the final failure obeys
`on_error` (`fail` re-raises, `continue` returns a null result,
`skip_remaining` raises the sentinel); with `max_attempts = 1` exactly
one call is made before `on_error` is applied. -/
theorem retry_semantics (id oe bk : String) (A : Nat) (d0 M : Int)
    (att : Nat → AttemptRes) (cO : Nat → Bool) (err : Nat → String) :
    retryCalls (execute_step_with_retry
      { id := id, on_error := oe, retry := some (mkRetryCfg A d0 M bk) }
      att cO).2 ≤ A ∧
    ((∀ j, cO j = false) → (∀ j, att j = .exn (err j)) → 1 ≤ A →
      (oe = "fail" ∨ oe = "continue" ∨ oe = "skip_remaining") →
      retrySleeps (execute_step_with_retry
          { id := id, on_error := oe, retry := some (mkRetryCfg A d0 M bk) }
          att cO).2 =
        (List.range (A - 1)).map (fun j => min (backoffDelay bk d0 j) M) ∧
      retryCalls (execute_step_with_retry
          { id := id, on_error := oe, retry := some (mkRetryCfg A d0 M bk) }
          att cO).2 = A ∧
      (oe = "fail" → (execute_step_with_retry
          { id := id, on_error := oe, retry := some (mkRetryCfg A d0 M bk) }
          att cO).1 = .raised (err (A - 1))) ∧
      (oe = "continue" → (execute_step_with_retry
          { id := id, on_error := oe, retry := some (mkRetryCfg A d0 M bk) }
          att cO).1 = .retNone) ∧
      (oe = "skip_remaining" → (execute_step_with_retry
          { id := id, on_error := oe, retry := some (mkRetryCfg A d0 M bk) }
          att cO).1 = .skipRem)) ∧
    (A = 1 → cO 0 = false →
      (oe = "fail" ∨ oe = "continue" ∨ oe = "skip_remaining") →
      (execute_step_with_retry
        { id := id, on_error := oe, retry := some (mkRetryCfg A d0 M bk) }
        att cO).2 = [.call 0] ∧
      (∀ v, att 0 = .ok v → (execute_step_with_retry
        { id := id, on_error := oe, retry := some (mkRetryCfg A d0 M bk) }
        att cO).1 = .ok v) ∧
      (∀ e, att 0 = .exn e →
        ((oe = "fail" → (execute_step_with_retry
          { id := id, on_error := oe, retry := some (mkRetryCfg A d0 M bk) }
          att cO).1 = .raised e) ∧
         (oe = "continue" → (execute_step_with_retry
          { id := id, on_error := oe, retry := some (mkRetryCfg A d0 M bk) }
          att cO).1 = .retNone) ∧
         (oe = "skip_remaining" → (execute_step_with_retry
          { id := id, on_error := oe, retry := some (mkRetryCfg A d0 M bk) }
          att cO).1 = .skipRem)))) := by
  have hbridge : execute_step_with_retry
      { id := id, on_error := oe, retry := some (mkRetryCfg A d0 M bk) }
      att cO = retryLoop oe bk M att cO A 0 d0 none := rfl
  rw [hbridge]
  refine ⟨retryLoop_calls_le oe bk M att cO A 0 d0 none, ?_, ?_⟩
  · intro hc ha hA hoe
    obtain ⟨hs, hcnt, ho⟩ := retryLoop_allfail oe bk M att cO err hc ha hoe A 0 d0 none hA
    refine ⟨hs, hcnt, ?_, ?_, ?_⟩
    · intro h
      rw [ho, if_pos h]
      simp
    · intro h
      rw [ho, if_neg (by simp [h]), if_pos h]
    · intro h
      rw [ho, if_neg (by simp [h]), if_neg (by simp [h])]
  · intro hA hc0 hoe
    subst hA
    rw [show retryLoop oe bk M att cO 1 0 d0 none =
      (if cO 0 then (.cancelled, [])
       else match att 0 with
       | .ok v => (.ok v, [.call 0])
       | .exn e =>
         if 0 = 0 ∧ oe = "fail" then (.raised e, [.call 0])
         else if 0 = 0 ∧ oe = "continue" then (.retNone, [.call 0])
         else if 0 = 0 ∧ oe = "skip_remaining" then (.skipRem, [.call 0])
         else
           let d2 := if bk = "exponential" then d0 * 2 else d0
           let next := retryLoop oe bk M att cO 0 1 d2 (some e)
           (next.1, .call 0 :: .sleep (min d0 M) :: next.2)) from rfl]
    rw [if_neg (by simp [hc0])]
    match hatt : att 0 with
    | .ok v => exact ⟨rfl, fun w hw => by simp_all, fun e he => by simp_all⟩
    | .exn e =>
      rcases hoe with h | h | h <;>
        simp [h]

/-- Concrete instance of the retry claim: two attempts that both fail
under `on_error="continue"`, `initial_delay=7`, `max_delay=5`,
exponential backoff: one sleep of `min(7,5) = 5`, two calls, and a
null (`None`) final result. -/
theorem retry_semantics_witness :
    (execute_step_with_retry
      { id := "s", on_error := "continue",
        retry := some (mkRetryCfg 2 7 5 "exponential") }
      (fun _ => .exn "E") (fun _ => false)).1 = .retNone ∧
    retrySleeps (execute_step_with_retry
      { id := "s", on_error := "continue",
        retry := some (mkRetryCfg 2 7 5 "exponential") }
      (fun _ => .exn "E") (fun _ => false)).2 = [5] ∧
    retryCalls (execute_step_with_retry
      { id := "s", on_error := "continue",
        retry := some (mkRetryCfg 2 7 5 "exponential") }
      (fun _ => .exn "E") (fun _ => false)).2 = 2 := by
  have h := (retry_semantics "s" "continue" "exponential" 2 7 5
    (fun _ => .exn "E") (fun _ => false) (fun _ => "E")).2.1
    (fun _ => rfl) (fun _ => rfl) (by omega) (Or.inr (Or.inl rfl))
  exact ⟨h.2.2.2.1 rfl, h.1.trans (by decide), h.2.1⟩

/-- Dict update then lookup: the updated key reads back the new value,
other keys are unchanged. -/
theorem Ctx.lookup_set (ctx : Ctx) (k k2 : String) (v : Json) :
    (ctx.set k v).lookup k2 = if k2 = k then some v else ctx.lookup k2 := by
  induction ctx with
  | nil =>
    simp only [Ctx.set, Ctx.lookup]
    split_ifs with h1 h2
    any_goals rfl
    all_goals simp_all
  | cons p rest ih =>
    obtain ⟨k3, w⟩ := p
    simp only [Ctx.set]
    by_cases h3 : k3 = k
    · subst h3
      simp only [if_pos rfl, Ctx.lookup]
      split_ifs with h1 h2
      any_goals rfl
      all_goals simp_all
    · simp only [if_neg h3, Ctx.lookup, ih]
      split_ifs with h1 h2
      any_goals rfl
      all_goals simp_all

/-- Number of entries of a context carrying a given key (0 or 1 under
the dict invariant). -/
def Ctx.keyCount : Ctx → String → Nat
  | [], _ => 0
  | (k3, _) :: rest, k => (if k3 = k then 1 else 0) + Ctx.keyCount rest k

theorem Ctx.lookup_eq_none_iff_keyCount (ctx : Ctx) (k : String) :
    ctx.lookup k = none ↔ Ctx.keyCount ctx k = 0 := by
  induction ctx with
  | nil => simp [Ctx.lookup, Ctx.keyCount]
  | cons p rest ih =>
    obtain ⟨k3, w⟩ := p
    by_cases h : k3 = k
    · simp [Ctx.lookup, Ctx.keyCount, h]
    · simp [Ctx.lookup, Ctx.keyCount, h, ih]

theorem Ctx.keyCount_set_self (ctx : Ctx) (k : String) (v : Json) :
    Ctx.keyCount (ctx.set k v) k = max (Ctx.keyCount ctx k) 1 := by
  induction ctx with
  | nil => simp [Ctx.set, Ctx.keyCount]
  | cons p rest ih =>
    obtain ⟨k3, w⟩ := p
    by_cases h : k3 = k
    · subst h
      simp [Ctx.set, Ctx.keyCount]
    · simp only [Ctx.set, if_neg h, Ctx.keyCount, if_neg h, ih]
      omega

theorem Ctx.keyCount_set_ne (ctx : Ctx) {k k2 : String} (v : Json)
    (h : k2 ≠ k) : Ctx.keyCount (ctx.set k2 v) k = Ctx.keyCount ctx k := by
  induction ctx with
  | nil => simp [Ctx.set, Ctx.keyCount, h]
  | cons p rest ih =>
    obtain ⟨k3, w⟩ := p
    by_cases h3 : k3 = k2
    · subst h3
      simp [Ctx.set, Ctx.keyCount]
    · simp only [Ctx.set, if_neg h3, Ctx.keyCount, ih]

theorem Ctx.keyCount_set_le (ctx : Ctx) (k k2 : String) (v : Json) :
    Ctx.keyCount (ctx.set k2 v) k ≤ max (Ctx.keyCount ctx k) 1 := by
  by_cases h : k2 = k
  · subst h
    rw [Ctx.keyCount_set_self]
  · rw [Ctx.keyCount_set_ne ctx v h]
    omega

theorem Ctx.keyCount_erase_self (ctx : Ctx) (k : String) :
    Ctx.keyCount (ctx.erase k) k = Ctx.keyCount ctx k - 1 := by
  induction ctx with
  | nil => simp [Ctx.erase, Ctx.keyCount]
  | cons p rest ih =>
    obtain ⟨k3, w⟩ := p
    by_cases h : k3 = k
    · subst h
      simp [Ctx.erase, Ctx.keyCount]
    · simp only [Ctx.erase, if_neg h, Ctx.keyCount, if_neg h, ih]
      omega

theorem Ctx.keyCount_eq_zero_of_not_mem {ctx : Ctx} {k : String}
    (h : k ∉ ctx.map Prod.fst) : Ctx.keyCount ctx k = 0 := by
  induction ctx with
  | nil => rfl
  | cons p rest ih =>
    obtain ⟨k3, w⟩ := p
    simp only [List.map_cons, List.mem_cons, not_or] at h
    simp only [Ctx.keyCount, if_neg (fun hh : k3 = k => h.1 hh.symm)]
    rw [ih h.2]

theorem Ctx.keyCount_le_one_of_nodup {ctx : Ctx} (h : (ctx.map Prod.fst).Nodup)
    (k : String) : Ctx.keyCount ctx k ≤ 1 := by
  induction ctx with
  | nil => simp [Ctx.keyCount]
  | cons p rest ih =>
    obtain ⟨k3, w⟩ := p
    simp only [List.map_cons, List.nodup_cons] at h
    obtain ⟨hnm, hnd⟩ := h
    by_cases hk : k3 = k
    · subst hk
      have hz := Ctx.keyCount_eq_zero_of_not_mem hnm
      simp [Ctx.keyCount, hz]
    · simp only [Ctx.keyCount, if_neg hk]
      have := ih hnd
      omega

/-- The step body either leaves the context untouched or performs one
dict update (the bash exit-code store). -/
theorem stepBody_ctx_shape (step : Step) (c : Ctx) (rs : RecursionState)
    (o : IterO) :
    (stepBody step c rs o).2.1 = c ∨
      ∃ k v, (stepBody step c rs o).2.1 = c.set k v := by
  by_cases h1 : step.type = "recipe"
  · rcases hR : o.recipeRes with e | ⟨res, t⟩ <;>
      exact Or.inl (by simp [stepBody, h1, hR])
  · by_cases h2 : step.type = "bash"
    · rcases hB : execute_bash_step step o.bashProc with e | br
      · exact Or.inl (by simp [stepBody, h1, h2, hB])
      · rcases hoec : step.output_exit_code with _ | v
        · exact Or.inl (by simp [stepBody, h1, h2, hB, hoec])
        · by_cases hv : v = ""
          · exact Or.inl (by simp [stepBody, h1, h2, hB, hoec, hv])
          · exact Or.inr ⟨v, .str (String.mk (intChars br.exit_code)),
              by simp [stepBody, h1, h2, hB, hoec, hv]⟩
    · left
      simp only [stepBody, h1, h2, if_false]
      rcases hI : rs.increment_steps with ⟨rs2, chk⟩
      rcases chk with e | u
      · rfl
      · rcases hr : (execute_step_with_retry step o.attempts o.attemptCancel).1 <;> rfl

/-- Context key-count bound through one step body. -/
theorem stepBody_keyCount (step : Step) (c : Ctx) (rs : RecursionState)
    (o : IterO) (lv : String) :
    Ctx.keyCount (stepBody step c rs o).2.1 lv ≤ max (Ctx.keyCount c lv) 1 := by
  rcases stepBody_ctx_shape step c rs o with h | ⟨k, v, h⟩
  · rw [h]; omega
  · rw [h]; exact Ctx.keyCount_set_le c lv k v

/-- Through the sequential loop, a loop variable absent at an iteration
boundary stays absent: every exit path of
`_execute_loop_sequential` leaves it with key count zero. -/
theorem seq_loop_keyCount_zero (step : Step) (lv : String)
    (iterO : Nat → IterO) :
    ∀ (items : List Json) (idx : Nat) (ctx : Ctx) (rs : RecursionState)
      (acc : List Json), Ctx.keyCount ctx lv = 0 →
      Ctx.keyCount (execute_loop_sequential step lv iterO items idx ctx rs acc).2.1 lv = 0 := by
  intro items
  induction items with
  | nil => intro idx ctx rs acc h0; simpa [execute_loop_sequential] using h0
  | cons item rest ih =>
    intro idx ctx rs acc h0
    rw [execute_loop_sequential]
    by_cases hc : (iterO idx).cancel
    · simpa [hc] using h0
    · simp only [hc, Bool.false_eq_true, if_false]
      have h1 : Ctx.keyCount (ctx.set lv item) lv ≤ 1 := by
        have := Ctx.keyCount_set_self ctx lv item
        omega
      rcases hB : stepBody step (ctx.set lv item) rs (iterO idx) with ⟨res, ctx2, rs2⟩
      have h2 := stepBody_keyCount step (ctx.set lv item) rs (iterO idx) lv
      rw [hB] at h2
      simp only at h2
      have h3 : Ctx.keyCount (ctx2.erase lv) lv = 0 := by
        have := Ctx.keyCount_erase_self ctx2 lv
        omega
      rcases res with e | raw
      · simpa using h3
      · exact ih (idx + 1) (ctx2.erase lv) rs2 (acc ++ [process_step_result raw step]) h3

/-- A sequential loop over a nonempty item list that returns normally
leaves the loop variable with key count zero, provided the parent
context respects the dict invariant (each key at most once). -/
theorem seq_loop_keyCount_ok (step : Step) (lv : String)
    (iterO : Nat → IterO) (item : Json) (rest : List Json) (idx : Nat)
    (ctx : Ctx) (rs : RecursionState) (acc : List Json)
    (hle : Ctx.keyCount ctx lv ≤ 1) (results : List Json)
    (hok : (execute_loop_sequential step lv iterO (item :: rest) idx ctx rs acc).1 = .ok results) :
    Ctx.keyCount (execute_loop_sequential step lv iterO (item :: rest) idx ctx rs acc).2.1 lv = 0 := by
  rw [execute_loop_sequential] at hok ⊢
  by_cases hc : (iterO idx).cancel
  · simp [hc] at hok
  · simp only [hc, Bool.false_eq_true, if_false] at hok ⊢
    have h1 : Ctx.keyCount (ctx.set lv item) lv ≤ 1 := by
      have := Ctx.keyCount_set_self ctx lv item
      omega
    rcases hB : stepBody step (ctx.set lv item) rs (iterO idx) with ⟨res, ctx2, rs2⟩
    rw [hB] at hok
    have h2 := stepBody_keyCount step (ctx.set lv item) rs (iterO idx) lv
    rw [hB] at h2
    simp only at h2
    have h3 : Ctx.keyCount (ctx2.erase lv) lv = 0 := by
      have := Ctx.keyCount_erase_self ctx2 lv
      omega
    rcases res with e | raw
    · exact absurd hok (fun h => Except.noConfusion h)
    · exact seq_loop_keyCount_zero step lv iterO rest (idx + 1) (ctx2.erase lv)
        rs2 (acc ++ [process_step_result raw step]) h3

/-- The loop-variable name: the step's `as` name when non-empty, else
`item` (Python `step.as_var or "item"`). -/
def loopVarName (step : Step) : String :=
  match step.as_var with
  | some v => if v ≠ "" then v else "item"
  | none => "item"

/-- The parallel loop runner never writes the parent context. -/
theorem execute_loop_parallel_ctx (step : Step) (lv : String)
    (items : List Json) (pc : Bool) (iterO : Nat → IterO) (ctx : Ctx)
    (rs : RecursionState) :
    (execute_loop_parallel step lv items pc iterO ctx rs).2.1 = ctx := by
  unfold execute_loop_parallel
  split_ifs <;> rfl

/-- The result store after a loop (collect, else last-result output)
preserves the absence of a key distinct from both target names. -/
theorem loop_store_lookup (step : Step) (ctx2 : Ctx) (results : List Json)
    (lv : String)
    (hcol : ∀ c, step.collect = some c → c ≠ lv)
    (hout : ∀ c, step.output = some c → c ≠ lv)
    (h : Ctx.lookup ctx2 lv = none) :
    Ctx.lookup
      (if truthyS step.collect then
        ctx2.set (step.collect.getD "") (.arr (JsonA.ofList results))
      else if truthyS step.output ∧ results ≠ [] then
        ctx2.set (step.output.getD "") (results.getLastD .null)
      else ctx2) lv = none := by
  by_cases hc : truthyS step.collect
  · rw [if_pos hc, Ctx.lookup_set]
    rcases hcs : step.collect with _ | c
    · rw [hcs] at hc; exact absurd hc (by simp [truthyS])
    · simp only [Option.getD_some]
      rw [if_neg (fun hh => (hcol c hcs) hh.symm)]
      exact h
  · rw [if_neg hc]
    by_cases ho : truthyS step.output ∧ results ≠ []
    · rw [if_pos ho, Ctx.lookup_set]
      rcases hos : step.output with _ | c
      · rw [hos] at ho; exact absurd ho.1 (by simp [truthyS])
      · simp only [Option.getD_some]
        rw [if_neg (fun hh => (hout c hos) hh.symm)]
        exact h
    · rw [if_neg ho]
      exact h

/-- Branch equation for `_execute_loop`: an empty resolved collection
takes the skip path (append the step id to skipped steps, bind a named
`collect` to the empty list). -/
theorem execute_loop_eq_empty (step : Step) (ctx : Ctx) (rs : RecursionState)
    (pc : Bool) (iterO : Nat → IterO) (itemsA : JsonA)
    (hres : resolve_foreach_variable (step.foreach.getD "") ctx = .ok (.arr itemsA))
    (hE : JsonA.toList itemsA = []) :
    execute_loop step ctx rs pc iterO =
      (.ok (), (match step.collect with
        | some c => if c ≠ "" then (appendSkipped ctx step.id).set c (.arr .nil)
            else appendSkipped ctx step.id
        | none => appendSkipped ctx step.id), rs) := by
  unfold execute_loop
  rw [hres]
  dsimp only
  rw [if_pos hE]

/-- Branch equation for `_execute_loop`: a nonempty collection within
the iteration cap, with `parallel` falsy, runs the sequential loop and
then the collect/output store. -/
theorem execute_loop_eq_seq (step : Step) (ctx : Ctx) (rs : RecursionState)
    (pc : Bool) (iterO : Nat → IterO) (itemsA : JsonA)
    (hres : resolve_foreach_variable (step.foreach.getD "") ctx = .ok (.arr itemsA))
    (hE : ¬ JsonA.toList itemsA = [])
    (hmax : ¬ ((JsonA.toList itemsA).length : Int) > step.max_iterations)
    (hp : step.parallel.truthy = false) :
    execute_loop step ctx rs pc iterO =
      (match execute_loop_sequential step (loopVarName step) iterO
          (JsonA.toList itemsA) 0 ctx rs [] with
       | (res, ctx2, rs2) =>
         match res with
         | .error e => (.error e, ctx2, rs2)
         | .ok results =>
           (.ok (), (if truthyS step.collect then
               ctx2.set (step.collect.getD "") (.arr (JsonA.ofList results))
             else if truthyS step.output ∧ results ≠ [] then
               ctx2.set (step.output.getD "") (results.getLastD .null)
             else ctx2), rs2)) := by
  have hlv : (match step.as_var with
      | some v => if v ≠ "" then v else "item"
      | none => "item") = loopVarName step := rfl
  unfold execute_loop
  rw [hres]
  dsimp only
  rw [if_neg hE, if_neg hmax, hp, if_neg (fun h => Bool.noConfusion h), hlv]

/-- Branch equation for `_execute_loop`: a nonempty collection within
the iteration cap, with `parallel` truthy, runs the parallel loop and
then the collect/output store. -/
theorem execute_loop_eq_par (step : Step) (ctx : Ctx) (rs : RecursionState)
    (pc : Bool) (iterO : Nat → IterO) (itemsA : JsonA)
    (hres : resolve_foreach_variable (step.foreach.getD "") ctx = .ok (.arr itemsA))
    (hE : ¬ JsonA.toList itemsA = [])
    (hmax : ¬ ((JsonA.toList itemsA).length : Int) > step.max_iterations)
    (hp : step.parallel.truthy = true) :
    execute_loop step ctx rs pc iterO =
      (match execute_loop_parallel step (loopVarName step)
          (JsonA.toList itemsA) pc iterO ctx rs with
       | (res, ctx2, rs2) =>
         match res with
         | .error e => (.error e, ctx2, rs2)
         | .ok results =>
           (.ok (), (if truthyS step.collect then
               ctx2.set (step.collect.getD "") (.arr (JsonA.ofList results))
             else if truthyS step.output ∧ results ≠ [] then
               ctx2.set (step.output.getD "") (results.getLastD .null)
             else ctx2), rs2)) := by
  have hlv : (match step.as_var with
      | some v => if v ≠ "" then v else "item"
      | none => "item") = loopVarName step := rfl
  unfold execute_loop
  rw [hres]
  dsimp only
  rw [if_neg hE, if_neg hmax, if_pos hp, hlv]

/-- Branch equation for `_execute_loop`: a nonempty collection past the
iteration cap fails without touching the context. -/
theorem execute_loop_eq_max (step : Step) (ctx : Ctx) (rs : RecursionState)
    (pc : Bool) (iterO : Nat → IterO) (itemsA : JsonA)
    (hres : resolve_foreach_variable (step.foreach.getD "") ctx = .ok (.arr itemsA))
    (hE : ¬ JsonA.toList itemsA = [])
    (hmax : ((JsonA.toList itemsA).length : Int) > step.max_iterations) :
    ∃ e, execute_loop step ctx rs pc iterO = (.error e, ctx, rs) := by
  unfold execute_loop
  rw [hres]
  dsimp only
  rw [if_neg hE, if_pos hmax]
  exact ⟨_, rfl⟩

/-- C9 (amended): the loop runner never introduces the loop variable
into the parent context: (a) if the loop-variable name is absent before
the loop and distinct from the step's `collect`/`output` names and the
`_skipped_steps` key, it is absent afterwards on every exit path, in
sequential and parallel mode alike; (b) in sequential mode over a
nonempty collection that completes normally, the per-iteration delete
leaves it absent even when it was bound before the loop (under the dict
invariant of unique context keys). -/
theorem loop_variable_scoping (step : Step) (ctx : Ctx) (rs : RecursionState)
    (pc : Bool) (iterO : Nat → IterO)
    (hcol : ∀ c, step.collect = some c → c ≠ loopVarName step)
    (hout : ∀ c, step.output = some c → c ≠ loopVarName step) :
    (Ctx.lookup ctx (loopVarName step) = none →
      loopVarName step ≠ "_skipped_steps" →
      Ctx.lookup ((execute_loop step ctx rs pc iterO).2.1) (loopVarName step) = none) ∧
    (∀ i0 restA,
      resolve_foreach_variable (step.foreach.getD "") ctx = .ok (.arr (.cons i0 restA)) →
      step.parallel.truthy = false →
      (ctx.map Prod.fst).Nodup →
      (execute_loop step ctx rs pc iterO).1 = .ok () →
      Ctx.lookup ((execute_loop step ctx rs pc iterO).2.1) (loopVarName step) = none) := by
  constructor
  · intro h0 hskip
    have h1 : Ctx.lookup (appendSkipped ctx step.id) (loopVarName step) = none := by
      unfold appendSkipped
      rw [Ctx.lookup_set, if_neg hskip]
      exact h0
    rcases hres : resolve_foreach_variable (step.foreach.getD "") ctx with e | v
    · unfold execute_loop
      rw [hres]
      exact h0
    · rcases v with _ | b | n | s | xsA | kvs
      · unfold execute_loop; rw [hres]; exact h0
      · unfold execute_loop; rw [hres]; exact h0
      · unfold execute_loop; rw [hres]; exact h0
      · unfold execute_loop; rw [hres]; exact h0
      · by_cases hE : JsonA.toList xsA = []
        · rw [execute_loop_eq_empty step ctx rs pc iterO xsA hres hE]
          rcases hcs : step.collect with _ | c
          · exact h1
          · dsimp only
            by_cases hce : c = ""
            · rw [if_neg (fun h => h hce)]
              exact h1
            · rw [if_pos hce, Ctx.lookup_set,
                if_neg (fun hh => (hcol c hcs) hh.symm)]
              exact h1
        · by_cases hmax : ((JsonA.toList xsA).length : Int) > step.max_iterations
          · rcases execute_loop_eq_max step ctx rs pc iterO xsA hres hE hmax
              with ⟨e, hEq⟩
            rw [hEq]
            exact h0
          · by_cases hpar : step.parallel.truthy
            · rw [execute_loop_eq_par step ctx rs pc iterO xsA hres hE hmax hpar]
              rcases hP : execute_loop_parallel step (loopVarName step)
                  (JsonA.toList xsA) pc iterO ctx rs with ⟨res, ctx2, rs2⟩
              have hctx : ctx2 = ctx := by
                have h' := execute_loop_parallel_ctx step (loopVarName step)
                  (JsonA.toList xsA) pc iterO ctx rs
                rw [hP] at h'
                exact h'
              have h2 : Ctx.lookup ctx2 (loopVarName step) = none := by
                rw [hctx]; exact h0
              rcases res with e | results
              · exact h2
              · exact loop_store_lookup step ctx2 results (loopVarName step)
                  hcol hout h2
            · have hp : step.parallel.truthy = false := by
                simpa using hpar
              rw [execute_loop_eq_seq step ctx rs pc iterO xsA hres hE hmax hp]
              rcases hS : execute_loop_sequential step (loopVarName step) iterO
                  (JsonA.toList xsA) 0 ctx rs [] with ⟨res, ctx2, rs2⟩
              have hcnt : Ctx.keyCount ctx2 (loopVarName step) = 0 := by
                have h' := seq_loop_keyCount_zero step (loopVarName step) iterO
                  (JsonA.toList xsA) 0 ctx rs []
                  ((Ctx.lookup_eq_none_iff_keyCount ctx (loopVarName step)).mp h0)
                rw [hS] at h'
                exact h'
              have h2 : Ctx.lookup ctx2 (loopVarName step) = none :=
                (Ctx.lookup_eq_none_iff_keyCount ctx2 (loopVarName step)).mpr hcnt
              rcases res with e | results
              · exact h2
              · exact loop_store_lookup step ctx2 results (loopVarName step)
                  hcol hout h2
      · unfold execute_loop; rw [hres]; exact h0
  · intro i0 restA hres hp hnd hok
    have hE : ¬ JsonA.toList (JsonA.cons i0 restA) = [] :=
      fun h => List.noConfusion h
    by_cases hmax :
        ((JsonA.toList (JsonA.cons i0 restA)).length : Int) > step.max_iterations
    · rcases execute_loop_eq_max step ctx rs pc iterO (JsonA.cons i0 restA)
        hres hE hmax with ⟨e, hEq⟩
      rw [hEq] at hok
      exact absurd hok (fun h => Except.noConfusion h)
    · rw [execute_loop_eq_seq step ctx rs pc iterO (JsonA.cons i0 restA)
        hres hE hmax hp] at hok ⊢
      have hTL : JsonA.toList (JsonA.cons i0 restA) = i0 :: JsonA.toList restA := rfl
      rw [hTL] at hok ⊢
      rcases hS : execute_loop_sequential step (loopVarName step) iterO
          (i0 :: JsonA.toList restA) 0 ctx rs [] with ⟨res, ctx2, rs2⟩
      rw [hS] at hok
      rcases res with e | results
      · exact absurd hok (fun h => Except.noConfusion h)
      · have hle := Ctx.keyCount_le_one_of_nodup hnd (loopVarName step)
        have hcnt : Ctx.keyCount ctx2 (loopVarName step) = 0 := by
          have h' := seq_loop_keyCount_ok step (loopVarName step) iterO i0
            (JsonA.toList restA) 0 ctx rs [] hle results (by rw [hS])
          rw [hS] at h'
          exact h'
        exact loop_store_lookup step ctx2 results (loopVarName step) hcol hout
          ((Ctx.lookup_eq_none_iff_keyCount ctx2 (loopVarName step)).mpr hcnt)

/-- Foreach bash step that names its loop variable (`item`, the default)
as its `collect` target. -/
def c9Step : Step :=
  { id := "loop1", type := "bash", command := some "true",
    foreach := some "\x7b\x7bxs\x7d\x7d", collect := some "item" }

/-- Parent context binding `xs` to a one-element list. -/
def c9Ctx : Ctx := [("xs", Json.arr (JsonA.cons (Json.int 1) JsonA.nil))]

/-- Iteration oracle: the bash subprocess exits 0 printing `done`. -/
def c9IterO : Nat → IterO :=
  fun _ => { bashProc := Except.ok { stdout := "done", stderr := "", exit_code := 0 } }

/-- C9 counterexample to the literal claim: a foreach step whose
`collect` target is the loop-variable name completes normally, yet the
loop variable `item` is present in the parent context afterwards (bound
to the collected results by the post-loop store). -/
theorem loop_variable_scoping_counterexample :
    (execute_loop c9Step c9Ctx {} false c9IterO).1 = .ok () ∧
    loopVarName c9Step = "item" ∧
    Ctx.lookup ((execute_loop c9Step c9Ctx {} false c9IterO).2.1) "item" =
      some (.arr (.cons (.str "done") .nil)) :=
  ⟨rfl, rfl, rfl⟩

/-- Foreach bash step with loop variable `v` and `collect` target `out`,
distinct names as the amended claim requires. -/
def c9wStep : Step :=
  { id := "L2", type := "bash", command := some "true",
    foreach := some "\x7b\x7bxs\x7d\x7d", as_var := some "v", collect := some "out" }

/-- Concrete instance of the amended loop-scoping claim: over `xs = [1]`
the loop variable `v` is absent before the run, the run completes, and
`v` is absent from the resulting context. -/
theorem loop_variable_scoping_witness :
    Ctx.lookup c9Ctx (loopVarName c9wStep) = none ∧
    (c9Ctx.map Prod.fst).Nodup ∧
    (execute_loop c9wStep c9Ctx {} false c9IterO).1 = .ok () ∧
    Ctx.lookup ((execute_loop c9wStep c9Ctx {} false c9IterO).2.1) (loopVarName c9wStep) = none := by
  have h := loop_variable_scoping c9wStep c9Ctx {} false c9IterO
    (fun c hc => by rw [← Option.some_inj.mp hc]; decide)
    (fun c hc => Option.noConfusion hc)
  exact ⟨by decide, by decide, rfl,
    h.2 (.int 1) .nil rfl rfl (by decide) rfl⟩

/-- The spec's wording of the conservative default, for comparison with
`_process_step_result`: parse the whole trimmed string as strict JSON,
otherwise keep the original string, except that bash-kind steps fall
back to aggressive extraction, used only when its result differs from
the original string. -/
def conservative_spec (s : String) (isBash : Prop) [Decidable isBash] : Json :=
  match loads (pyStrip s) with
  | some v => v
  | none =>
    if isBash then
      if extract_json_aggressively s ≠ .str s then extract_json_aggressively s
      else .str s
    else .str s

/-- C4: conservative JSON post-processing: with `parse_json` unset and a
string unwrapped output, `_process_step_result` computes exactly the
spec's conservative function: the strict whole-trimmed-string parse when
it succeeds, else the original string, with the aggressive fallback
(kept only when it differs) for bash steps. -/
theorem conservative_json_processing (step : Step) (result : Json) (s : String)
    (hs : unwrapOutput result = .str s) (hpj : step.parse_json = false) :
    process_step_result result step = conservative_spec s (step.type = "bash") := by
  unfold process_step_result conservative_spec
  rw [hs]
  dsimp only
  rw [hpj, if_neg (fun h => Bool.noConfusion h)]
  by_cases hst : (pyStrip s).data = []
  · rw [if_neg (fun h => h hst)]
    have hps : pyStrip s = "" := String.ext hst
    have hex : extract_json_aggressively s = .str s := by
      unfold extract_json_aggressively
      dsimp only
      rw [hst, if_pos rfl]
    rw [hps, show loads "" = none from rfl]
    dsimp only
    by_cases hb : step.type = "bash"
    · rw [if_pos hb, hex, if_neg (fun h => h rfl)]
    · rw [if_neg hb]
  · rw [if_pos hst]

/-- Plain agent step with `parse_json` unset, for the conservative
post-processing instance. -/
def c4step : Step := { id := "s4", agent := some "a", prompt := some "p" }

/-- Spawn result wrapping a JSON object in its `output` field with
surrounding whitespace. -/
def c4res : Json := .obj (.cons "output" (.str " \x7b\"a\": 1\x7d ") .nil)

/-- Concrete instance of the conservative post-processing claim: a
whole-string-valid JSON output (after trimming) is parsed, and a plain
prose output is kept verbatim. -/
theorem conservative_json_processing_witness :
    process_step_result c4res c4step = .obj (.cons "a" (.int 1) .nil) ∧
    process_step_result (.str "no json here") c4step = .str "no json here" := by
  have h1 := conservative_json_processing c4step c4res " \x7b\"a\": 1\x7d " rfl rfl
  have h2 := conservative_json_processing c4step (.str "no json here")
    "no json here" rfl rfl
  exact ⟨h1.trans (by decide), h2.trans (by decide)⟩

/-- Positions (0-based) of a character in a character list, left to
right. -/
def indicesOf (c0 : Char) : List Char → List Nat
  | [] => []
  | c :: rest =>
    (if c = c0 then [0] else []) ++ (indicesOf c0 rest).map (· + 1)

/-- First successful `raw_decode` among a list of start positions, in
order. -/
def firstDecode (cs : List Char) : List Nat → Option Json
  | [] => none
  | p :: ps =>
    match rawDecode (cs.drop p) with
    | some (v, _) => some v
    | none => firstDecode cs ps

theorem firstDecode_map_succ (c : Char) (cs : List Char) (ps : List Nat) :
    firstDecode (c :: cs) (ps.map (· + 1)) = firstDecode cs ps := by
  induction ps with
  | nil => rfl
  | cons p ps ih =>
    rw [List.map_cons, firstDecode, firstDecode, List.drop_succ_cons]
    rcases rawDecode (cs.drop p) with _ | ⟨v, r⟩
    · exact ih
    · rfl

/-- The strategy-3 loop of `_extract_json_aggressively` for one start
character returns the first successful decode among the occurrences of
that character, left to right. -/
theorem scanDecode_eq (c0 : Char) (cs : List Char) :
    scanDecode c0 cs = firstDecode cs (indicesOf c0 cs) := by
  induction cs with
  | nil => rfl
  | cons c rest ih =>
    rw [scanDecode, indicesOf]
    by_cases hc : c = c0
    · rw [if_pos hc, if_pos hc]
      rw [List.singleton_append, firstDecode, List.drop_zero]
      rcases rawDecode (c :: rest) with _ | ⟨v, r⟩
      · rw [firstDecode_map_succ]
        exact ih
      · rfl
    · rw [if_neg hc, if_neg hc, List.nil_append, firstDecode_map_succ]
      exact ih

/-- C5 (amended): when whole-string parsing (strategy 1) and the fenced
block (strategy 2) both fail on the stripped input, strategy 3 of
`_extract_json_aggressively` returns the first successful stream-decode
among ALL brace positions, left to right, and only if every brace
position fails does it move on to the bracket positions — not the
decode at the first `\x7b`-or-`[` position of the claim; the original
string is returned when every position fails. -/
theorem aggressive_extraction_order (s : String)
    (h1 : loads (pyStrip s) = none)
    (h2 : (match fenceSearch (pyStrip s).data with
           | some g => loads (String.mk g)
           | none => none) = none)
    (hne : (pyStrip s).data ≠ []) :
    extract_json_aggressively s =
      match firstDecode (pyStrip s).data (indicesOf '{' (pyStrip s).data) with
      | some v => v
      | none =>
        match firstDecode (pyStrip s).data (indicesOf '[' (pyStrip s).data) with
        | some v => v
        | none => .str s := by
  unfold extract_json_aggressively
  dsimp only
  rw [if_neg hne, h1, h2, scanDecode_eq, scanDecode_eq]

/-- C5 counterexample to the literal strategy-3 order: in
`[1] \x7b"a": 2\x7d` the first top-level bracket (position 0)
stream-decodes successfully to `[1]`, yet extraction returns the later
object, because the code tries every `\x7b` before any `[`. -/
theorem aggressive_extraction_order_counterexample :
    (rawDecode ("[1] \x7b\"a\": 2\x7d").data).map Prod.fst =
      some (.arr (.cons (.int 1) .nil)) ∧
    extract_json_aggressively "[1] \x7b\"a\": 2\x7d" =
      .obj (.cons "a" (.int 2) .nil) := by
  exact ⟨by decide, by decide⟩

/-- Concrete instance of the amended extraction order: with every brace
position failing to decode, the bracket scan is reached and returns
`[2]`. -/
theorem aggressive_extraction_order_witness :
    loads (pyStrip "\x7b b [2]") = none ∧
    extract_json_aggressively "\x7b b [2]" = .arr (.cons (.int 2) .nil) := by
  have h := aggressive_extraction_order "\x7b b [2]" (by decide) (by decide)
    (by decide)
  exact ⟨by decide, h.trans (by decide)⟩

/-- Checkpoint discipline of a flat event trace: every
`completed_steps.append` of the step at index `i` is immediately
followed by a `save_state` whose document has `current_step_index =
i + 1` and carries the step's id in `completed_steps`. -/
def flatCheckpointOk : List FlatEv → Bool
  | [] => true
  | .completedAppend i id :: rest =>
    (match rest with
     | .save st :: _ =>
       (st.current_step_index == i + 1) && st.completed_steps.contains id
     | _ => false) && flatCheckpointOk rest
  | .save _ :: rest => flatCheckpointOk rest
  | .markCancelled :: rest => flatCheckpointOk rest

/-- Checkpoint discipline of a staged event trace: every
`completed_steps.append` of the step at in-stage index `i` is
immediately followed by a `_save_staged_state` whose document has
`current_step_in_stage = i + 1` and carries the step's id in
`completed_steps`. -/
def stagedCheckpointOk : List StgEv → Bool
  | [] => true
  | .completedAppend _ stepIdx id :: rest =>
    (match rest with
     | .save st :: _ =>
       (st.current_step_in_stage == stepIdx + 1) && st.completed_steps.contains id
     | _ => false) && stagedCheckpointOk rest
  | .save _ :: rest => stagedCheckpointOk rest
  | .setPending _ _ _ _ :: rest => stagedCheckpointOk rest
  | .raisePaused _ _ _ :: rest => stagedCheckpointOk rest
  | .markCancelled :: rest => stagedCheckpointOk rest

theorem contains_append_self (l : List String) (x : String) :
    (l ++ [x]).contains x = true := by
  simp

theorem flatCheckpointOk_cancelFinish (ls : Option FlatSave) :
    flatCheckpointOk (flatCancelFinish ls).2 = true := by
  rcases ls with _ | s
  · rfl
  · rfl

theorem flatCheckpointOk_errFinish (ls : Option FlatSave) (msg : String) :
    flatCheckpointOk (flatErrFinish ls msg).2 = true := by
  rcases ls with _ | s
  · rfl
  · rfl

/-- The flat step loop only emits checkpoint-disciplined traces. -/
theorem flatLoop_checkpointOk (sid rname rver started ppath : String)
    (stepO : Nat → StepO) :
    ∀ (steps : List Step) (i : Nat) (ctx : Ctx) (completed : List String)
      (rs : RecursionState) (ls : Option FlatSave),
      flatCheckpointOk
        (flatLoop sid rname rver started ppath stepO steps i ctx completed rs ls).2 = true := by
  intro steps
  induction steps with
  | nil => intro i ctx completed rs ls; rfl
  | cons step rest ih =>
    intro i ctx completed rs ls
    rw [flatLoop]
    dsimp only
    split
    · exact flatCheckpointOk_cancelFinish ls
    · split
      · split
        · exact flatCheckpointOk_errFinish ls _
        · exact ih _ _ _ _ _
        · split
          · split
            · simp [flatCheckpointOk, ih, contains_append_self]
            · rfl
            · exact flatCheckpointOk_cancelFinish ls
            · exact flatCheckpointOk_errFinish ls _
          · split
            · simp [flatCheckpointOk, ih, contains_append_self]
            · rfl
            · exact flatCheckpointOk_cancelFinish ls
            · exact flatCheckpointOk_errFinish ls _
      · split
        · split
          · simp [flatCheckpointOk, ih, contains_append_self]
          · rfl
          · exact flatCheckpointOk_cancelFinish ls
          · exact flatCheckpointOk_errFinish ls _
        · split
          · simp [flatCheckpointOk, ih, contains_append_self]
          · rfl
          · exact flatCheckpointOk_cancelFinish ls
          · exact flatCheckpointOk_errFinish ls _

/-- The staged step loop only prepends checkpoint-disciplined events to
any disciplined continuation. -/
theorem stagedStepLoop_checkpointOk (sid rname rver started ppath stageName : String)
    (stageIdx : Nat) (stepO : Nat → StepO) (cstages : List String) :
    ∀ (steps : List Step) (stepIdx : Nat) (ctx : Ctx) (csteps : List String)
      (rs : RecursionState) (b : List StgEv),
      stagedCheckpointOk b = true →
      stagedCheckpointOk
        ((stagedStepLoop sid rname rver started ppath stageName stageIdx stepO
          cstages steps stepIdx ctx csteps rs).2 ++ b) = true := by
  intro steps
  induction steps with
  | nil => intro stepIdx ctx csteps rs b hb; exact hb
  | cons step rest ih =>
    intro stepIdx ctx csteps rs b hb
    rw [stagedStepLoop]
    dsimp only
    split
    · exact hb
    · split
      · split
        · exact hb
        · exact ih _ _ _ _ _ hb
        · split
          · split
            · simp [stagedCheckpointOk, mkStagedSave, contains_append_self, ih _ _ _ _ _ hb]
            · exact hb
            · exact hb
            · exact hb
          · split
            · simp [stagedCheckpointOk, mkStagedSave, contains_append_self, ih _ _ _ _ _ hb]
            · exact hb
            · exact hb
            · exact hb
      · split
        · split
          · simp [stagedCheckpointOk, mkStagedSave, contains_append_self, ih _ _ _ _ _ hb]
          · exact hb
          · exact hb
          · exact hb
        · split
          · simp [stagedCheckpointOk, mkStagedSave, contains_append_self, ih _ _ _ _ _ hb]
          · exact hb
          · exact hb
          · exact hb

/-- The staged stage loop only emits checkpoint-disciplined traces. -/
theorem stagedStageLoop_checkpointOk (sid rname rver started ppath : String)
    (stgO : Nat → Nat → StepO) (stageCancel : Nat → Bool) :
    ∀ (stages : List Stage) (stageIdx : Nat) (ctx : Ctx)
      (cstages csteps : List String) (rs : RecursionState),
      stagedCheckpointOk
        (stagedStageLoop sid rname rver started ppath stgO stageCancel stages
          stageIdx ctx cstages csteps rs).2 = true := by
  intro stages
  induction stages with
  | nil => intro stageIdx ctx cstages csteps rs; rfl
  | cons stage rest ih =>
    intro stageIdx ctx cstages csteps rs
    rw [stagedStageLoop]
    dsimp only
    split
    · rfl
    · have hstep := stagedStepLoop_checkpointOk sid rname rver started ppath
        stage.name stageIdx (stgO stageIdx) cstages stage.steps 0
        (ctx.set "stage" (.obj (.cons "name" (.str stage.name)
          (.cons "index" (.int stageIdx) .nil)))) csteps rs
      rcases hSL : stagedStepLoop sid rname rver started ppath stage.name stageIdx
          (stgO stageIdx) cstages stage.steps 0
          (ctx.set "stage" (.obj (.cons "name" (.str stage.name)
            (.cons "index" (.int stageIdx) .nil)))) csteps rs with ⟨out, tr⟩
      rw [hSL] at hstep
      rcases out with ⟨ctx1, rs1, csteps1⟩ | ⟨ctx1, rs1, csteps1⟩ |
        ⟨e, ctx1, rs1, csteps1⟩
      · dsimp only
        split
        · refine hstep _ ?_
          rfl
        · refine hstep _ ?_
          exact ih _ _ _ _ _
      · refine hstep _ ?_
        rfl
      · refine hstep _ ?_
        rfl

/-- C1: checkpoint invariant: in every flat execution, each successful
step completion at index `i` is immediately followed by persisting a
state with `current_step_index = i + 1` whose `completed_steps` holds
the step's id; in every staged execution, each successful completion of
the step at in-stage index `i` is immediately followed by persisting a
state with `current_step_in_stage = i + 1` whose `completed_steps`
holds the step's id. -/
theorem checkpoint_invariant (recipe : Recipe) (context_vars : Ctx)
    (sid started ppath : String) (rs : RecursionState)
    (stepO : Nat → StepO) (stgO : Nat → Nat → StepO)
    (stageCancel : Nat → Bool) :
    flatCheckpointOk
      (execute_recipe_flat recipe context_vars sid started ppath rs stepO).2 = true ∧
    stagedCheckpointOk
      (execute_recipe_staged recipe context_vars sid started ppath rs stgO
        stageCancel).2 = true := by
  constructor
  · exact flatLoop_checkpointOk _ _ _ _ _ _ _ _ _ _ _ _
  · exact stagedStageLoop_checkpointOk _ _ _ _ _ _ _ _ _ _ _ _ _

/-- Shape of a paused staged run: a pause comes only from a finished
stage with a required approval gate, and the trace ends with exactly
the triple save (advanced to the next stage index, step 0, stage name
appended to completed stages), set-pending-approval, raise — in that
order. -/
theorem stagedStageLoop_paused_shape (sid rname rver started ppath : String)
    (stgO : Nat → Nat → StepO) (stageCancel : Nat → Bool) :
    ∀ (stages : List Stage) (stageIdx : Nat) (ctx : Ctx)
      (cstages csteps : List String) (rs : RecursionState)
      (psid pname pprompt : String),
      (stagedStageLoop sid rname rver started ppath stgO stageCancel stages
        stageIdx ctx cstages csteps rs).1 = .paused psid pname pprompt →
      ∃ (pre : List StgEv) (k : Nat) (stg : Stage) (ap : ApprovalConfig)
        (st : StagedSave),
        psid = sid ∧
        stages[k]? = some stg ∧
        stg.name = pname ∧
        stg.approval = some ap ∧
        ap.required = true ∧
        pprompt = (if ap.prompt ≠ "" then ap.prompt
          else defaultApprovalPrompt pname) ∧
        st.current_stage_index = stageIdx + k + 1 ∧
        st.current_step_in_stage = 0 ∧
        (∃ cs, st.completed_stages = cs ++ [pname]) ∧
        (stagedStageLoop sid rname rver started ppath stgO stageCancel stages
          stageIdx ctx cstages csteps rs).2 =
          pre ++ [.save st,
            .setPending pname pprompt ap.timeout ap.default,
            .raisePaused psid pname pprompt] := by
  intro stages
  induction stages with
  | nil =>
    intro stageIdx ctx cstages csteps rs psid pname pprompt hres
    exact absurd hres (fun h => StagedResult.noConfusion h)
  | cons stage rest ih =>
    intro stageIdx ctx cstages csteps rs psid pname pprompt hres
    rw [stagedStageLoop] at hres ⊢
    dsimp only at hres ⊢
    by_cases hcan : stageCancel stageIdx = true
    · rw [if_pos hcan] at hres
      exact absurd hres (fun h => StagedResult.noConfusion h)
    · rw [if_neg hcan] at hres ⊢
      rcases hSL : stagedStepLoop sid rname rver started ppath stage.name stageIdx
          (stgO stageIdx) cstages stage.steps 0
          (ctx.set "stage" (.obj (.cons "name" (.str stage.name)
            (.cons "index" (.int stageIdx) .nil)))) csteps rs with ⟨out, tr⟩
      rw [hSL] at hres
      rcases out with ⟨ctx1, rs1, csteps1⟩ | ⟨ctx1, rs1, csteps1⟩ |
        ⟨e, ctx1, rs1, csteps1⟩
      · dsimp only at hres ⊢
        by_cases hreq : (match stage.approval with
            | some ap => ap.required
            | none => false) = true
        · rw [if_pos hreq] at hres ⊢
          rcases hap : stage.approval with _ | ap
          · rw [hap] at hreq
            exact absurd hreq (fun h => Bool.noConfusion h)
          · obtain ⟨h1, h2, h3⟩ := StagedResult.paused.inj hres
            subst h1
            subst h2
            subst h3
            refine ⟨tr, 0, stage, ap, mkStagedSave sid rname rver started ppath
              ctx1 (stageIdx + 1) 0 (cstages ++ [stage.name]) csteps1,
              rfl, by simp, rfl, hap, ?_, ?_, by simp [mkStagedSave], rfl,
              ⟨cstages, rfl⟩, ?_⟩
            · rw [hap] at hreq
              exact hreq
            · simp [hap]
            · simp [hap, mkStagedSave]
        · rw [if_neg hreq] at hres ⊢
          dsimp only at hres ⊢
          obtain ⟨pre, k, stg, ap, st, hsid, hget, hname, hap, harq, hpr,
            hidx, hstep0, hcs, htr⟩ := ih _ _ _ _ _ psid pname pprompt hres
          refine ⟨tr ++ .save (mkStagedSave sid rname rver started ppath ctx1
              (stageIdx + 1) 0 (cstages ++ [stage.name]) csteps1) :: pre,
            k + 1, stg, ap, st, hsid, by simpa using hget, hname, hap, harq,
            hpr, by rw [hidx]; omega, hstep0, hcs, ?_⟩
          rw [htr]
          simp
      · exact absurd hres (fun h => StagedResult.noConfusion h)
      · exact absurd hres (fun h => StagedResult.noConfusion h)

/-- C2: approval gate ordering: a staged run pauses only when a stage
with a required approval gate finishes its steps, and then the event
trace ends with exactly the ordered triple: `_save_staged_state` of a
document advanced to stage index `stage_idx + 1` with step-in-stage 0
and the stage name appended to `completed_stages`, then
`set_pending_approval`, then the `ApprovalGatePausedError` raise
carrying the session id, stage name and approval prompt (the
configured prompt, or the default one when empty). -/
theorem approval_gate_ordering (recipe : Recipe) (context_vars : Ctx)
    (sid started ppath : String) (rs : RecursionState)
    (stgO : Nat → Nat → StepO) (stageCancel : Nat → Bool)
    (psid pname pprompt : String)
    (hres : (execute_recipe_staged recipe context_vars sid started ppath rs
      stgO stageCancel).1 = .paused psid pname pprompt) :
    ∃ (pre : List StgEv) (k : Nat) (stg : Stage) (ap : ApprovalConfig)
      (st : StagedSave),
      psid = sid ∧
      recipe.stages[k]? = some stg ∧
      stg.name = pname ∧
      stg.approval = some ap ∧
      ap.required = true ∧
      pprompt = (if ap.prompt ≠ "" then ap.prompt
        else defaultApprovalPrompt pname) ∧
      st.current_stage_index = k + 1 ∧
      st.current_step_in_stage = 0 ∧
      (∃ cs, st.completed_stages = cs ++ [pname]) ∧
      (execute_recipe_staged recipe context_vars sid started ppath rs stgO
        stageCancel).2 =
        pre ++ [.save st, .setPending pname pprompt ap.timeout ap.default,
          .raisePaused psid pname pprompt] := by
  obtain ⟨pre, k, stg, ap, st, hsid, hget, hname, hap, harq, hpr, hidx, hs0,
    hcs, htr⟩ := stagedStageLoop_paused_shape sid recipe.name recipe.version
      started ppath stgO stageCancel recipe.stages 0 _ [] [] rs psid pname
      pprompt hres
  exact ⟨pre, k, stg, ap, st, hsid, hget, hname, hap, harq, hpr,
    by rw [hidx]; omega, hs0, hcs, htr⟩

/-- Single-stage recipe whose stage has no steps and a required
approval gate with the default prompt. -/
def c2stage : Stage :=
  { name := "s1", steps := [], approval := some { required := true } }

def c2recipe : Recipe :=
  { name := "r", description := "d", version := "1.0.0",
    stages := [c2stage] }

/-- Concrete instance of the approval gate ordering: the run pauses at
stage `s1` with the default prompt and the trace ends with the
save / set-pending / raise triple. -/
theorem approval_gate_ordering_witness :
    (execute_recipe_staged c2recipe [] "S" "t0" "/p" {} (fun _ _ => {})
      (fun _ => false)).1 = .paused "S" "s1" (defaultApprovalPrompt "s1") ∧
    ∃ (pre : List StgEv) (ap : ApprovalConfig) (st : StagedSave),
      st.current_stage_index = 1 ∧ st.current_step_in_stage = 0 ∧
      (execute_recipe_staged c2recipe [] "S" "t0" "/p" {} (fun _ _ => {})
        (fun _ => false)).2 =
        pre ++ [.save st,
          .setPending "s1" (defaultApprovalPrompt "s1") ap.timeout ap.default,
          .raisePaused "S" "s1" (defaultApprovalPrompt "s1")] := by
  have h := approval_gate_ordering c2recipe [] "S" "t0" "/p" {}
    (fun _ _ => {}) (fun _ => false) "S" "s1" (defaultApprovalPrompt "s1") rfl
  obtain ⟨pre, k, stg, ap, st, hsid, hget, hname, hap, harq, hpr, hidx, hs0,
    hcs, htr⟩ := h
  refine ⟨rfl, pre, ap, st, ?_, hs0, htr⟩
  rw [hidx]
  have hk : k = 0 := by
    rcases k with _ | k2
    · rfl
    · rcases k2 with _ | k3 <;> simp [c2recipe] at hget
  rw [hk]

/-- Continuation heads legal after a serialized value: end of input or
a separator/closer.  Such heads are not digits, whitespace, or float
continuations, so number scanning stops exactly there. -/
def followOk : List Char → Prop
  | [] => True
  | c :: _ => c = ',' ∨ c = ']' ∨ c = '}'

theorem char_digit_toNat (m : Nat) (hm : m < 10) :
    (Char.ofNat (48 + m)).toNat = 48 + m := by
  interval_cases m <;> decide

theorem digitsLoop_stop (acc : Nat) (rest : List Char) (hr : followOk rest) :
    digitsLoop acc rest = (acc, rest) := by
  match rest with
  | [] => rfl
  | c :: cs =>
    rcases hr with h | h | h
    all_goals subst h
    all_goals rw [digitsLoop, if_neg (by decide)]

theorem digitsLoop_natDigits (fuel : Nat) :
    ∀ (n acc : Nat) (rest : List Char), n < 10 ^ fuel →
      digitsLoop acc (natDigits fuel n ++ rest) =
        digitsLoop (acc * 10 ^ (natDigits fuel n).length + n) rest := by
  induction fuel with
  | zero =>
    intro n acc rest hn
    interval_cases n
    simp [natDigits]
  | succ fuel ih =>
    intro n acc rest hn
    by_cases h10 : n < 10
    · rw [natDigits, if_pos h10, List.singleton_append, digitsLoop,
        char_digit_toNat n h10, if_pos (by omega)]
      have h1 : 48 + n - 48 = n := by omega
      have h2 : (10:Nat) ^ (List.length [Char.ofNat (48 + n)]) = 10 := by
        simp
      rw [h1, h2]
    · have hdiv : n / 10 < 10 ^ fuel := by
        have hp : (10:Nat) ^ (fuel + 1) = 10 ^ fuel * 10 := pow_succ 10 fuel
        omega
      have hmod : n % 10 < 10 := Nat.mod_lt n (by norm_num)
      rw [natDigits, if_neg h10, List.append_assoc, List.singleton_append,
        ih (n / 10) acc (Char.ofNat (48 + n % 10) :: rest) hdiv,
        digitsLoop, char_digit_toNat (n % 10) hmod, if_pos (by omega)]
      have hkey : (acc * 10 ^ (natDigits fuel (n / 10)).length + n / 10) * 10 +
          (48 + n % 10 - 48) =
          acc * 10 ^ (natDigits fuel (n / 10) ++
            [Char.ofNat (48 + n % 10)]).length + n := by
        have h1 : 48 + n % 10 - 48 = n % 10 := by omega
        rw [h1, List.length_append, List.length_singleton, pow_succ]
        calc (acc * 10 ^ (natDigits fuel (n / 10)).length + n / 10) * 10 + n % 10
            = acc * 10 ^ (natDigits fuel (n / 10)).length * 10 +
              (10 * (n / 10) + n % 10) := by ring
          _ = acc * 10 ^ (natDigits fuel (n / 10)).length * 10 + n := by
              rw [Nat.div_add_mod]
          _ = acc * (10 ^ (natDigits fuel (n / 10)).length * 10) + n := by ring
      rw [hkey]

theorem nat_lt_pow_succ (n : Nat) : n < 10 ^ (n + 1) := by
  calc n < 10 ^ n := Nat.lt_pow_self (by norm_num) n
  _ ≤ 10 ^ (n + 1) := Nat.pow_le_pow_right (by norm_num) (Nat.le_succ n)

theorem natDigits_head (fuel : Nat) :
    ∀ n : Nat, n < 10 ^ fuel → 0 < fuel →
      ∃ d ds, natDigits fuel n = Char.ofNat (48 + d) :: ds ∧ d ≤ 9 ∧
        (1 ≤ n → 1 ≤ d) := by
  induction fuel with
  | zero => intro n _ h0; omega
  | succ fuel ih =>
    intro n hn _
    by_cases h10 : n < 10
    · exact ⟨n, [], by rw [natDigits, if_pos h10], by omega, fun h => h⟩
    · have hdiv : n / 10 < 10 ^ fuel := by
        have hp : (10:Nat) ^ (fuel + 1) = 10 ^ fuel * 10 := pow_succ 10 fuel
        omega
      have hfuel : 0 < fuel := by
        rcases Nat.eq_zero_or_pos fuel with h | h
        · subst h; simp at hdiv; omega
        · exact h
      obtain ⟨d, ds, hnd, hd9, hd1⟩ := ih (n / 10) hdiv hfuel
      exact ⟨d, ds ++ [Char.ofNat (48 + n % 10)],
        by rw [natDigits, if_neg h10, hnd, List.cons_append], hd9,
        fun _ => hd1 (by omega)⟩

theorem parseUIntPart_digit (c : Char) (cs : List Char)
    (h1 : 49 ≤ c.toNat) (h2 : c.toNat ≤ 57) :
    parseUIntPart (c :: cs) = some (digitsLoop (c.toNat - 48) cs) := by
  unfold parseUIntPart
  split
  · rename_i heq
    injection heq with hc hcs
    subst hc
    exact absurd h1 (by decide)
  · rename_i c2 rest2 _ heq
    injection heq with hc hcs
    subst hc
    subst hcs
    rw [if_pos ⟨h1, h2⟩]
  · rename_i heq
    exact absurd heq (fun h => List.noConfusion h)

theorem parseUIntPart_natChars (n : Nat) (rest : List Char)
    (hr : followOk rest) :
    parseUIntPart (natChars n ++ rest) = some (n, rest) := by
  rcases Nat.eq_zero_or_pos n with h0 | h1
  · subst h0
    rfl
  · obtain ⟨d, ds, hnd, hd9, hd1⟩ :=
      natDigits_head (n + 1) n (nat_lt_pow_succ n) (by omega)
    have hdn := hd1 h1
    have htN : (Char.ofNat (48 + d)).toNat = 48 + d :=
      char_digit_toNat d (by omega)
    have hfull : digitsLoop 0 (natChars n ++ rest) = (n, rest) := by
      rw [natChars, digitsLoop_natDigits (n + 1) n 0 rest (nat_lt_pow_succ n),
        Nat.zero_mul, Nat.zero_add]
      exact digitsLoop_stop n rest hr
    have hstep : digitsLoop 0 (natChars n ++ rest) =
        digitsLoop d (ds ++ rest) := by
      rw [natChars, hnd, List.cons_append, digitsLoop, htN,
        if_pos (by omega)]
      have : 0 * 10 + (48 + d - 48) = d := by omega
      rw [this]
    have hcs : natChars n ++ rest = Char.ofNat (48 + d) :: (ds ++ rest) := by
      rw [natChars, hnd, List.cons_append]
    rw [hcs, parseUIntPart_digit (Char.ofNat (48 + d)) (ds ++ rest)
      (by omega) (by omega), htN]
    have : 48 + d - 48 = d := by omega
    rw [this, ← hstep, hfull]

theorem natChars_zero : natChars 0 = ['0'] := by
  rw [natChars, natDigits, if_pos (by norm_num)]

theorem floatFollow_followOk (rest : List Char) (hr : followOk rest) :
    floatFollow rest = false := by
  match rest with
  | [] => rfl
  | c :: cs =>
    rcases hr with h | h | h
    all_goals subst h
    all_goals rfl

theorem char_eq_of_toNat (c : Char) (n : Nat) (h : c.toNat = n) :
    c = Char.ofNat n := by
  rw [← h, Char.ofNat_toNat]

theorem hexVal_hexDigitChar (m : Nat) (hm : m < 16) :
    hexVal (hexDigitChar m) = some m := by
  interval_cases m <;> decide

theorem char_toNat_ofNat (n : Nat) (h : n < 1114112)
    (h2 : ¬(55296 ≤ n ∧ n < 57344)) : (Char.ofNat n).toNat = n := by
  rw [Char.ofNat, dif_pos]
  · rfl
  · unfold Nat.isValidChar
    omega

theorem char_valid_range (c : Char) :
    c.toNat < 55296 ∨ (57343 < c.toNat ∧ c.toNat < 1114112) := by
  have h := c.valid
  unfold Nat.isValidChar at h
  rcases h with h | h
  · left; exact h
  · right; exact h

/-- Reduction of `parseStringBody` on a `\uXXXX` escape of a
basic-multilingual-plane character (not a surrogate). -/
theorem parseStringBody_u_bmp (c1 c2 c3 c4 : Char) (r : List Char)
    (d1 d2 d3 d4 : Nat)
    (h1 : hexVal c1 = some d1) (h2 : hexVal c2 = some d2)
    (h3 : hexVal c3 = some d3) (h4 : hexVal c4 = some d4)
    (hns1 : ¬(55296 ≤ d1 * 4096 + d2 * 256 + d3 * 16 + d4 ∧
      d1 * 4096 + d2 * 256 + d3 * 16 + d4 < 56320))
    (hns2 : ¬(56320 ≤ d1 * 4096 + d2 * 256 + d3 * 16 + d4 ∧
      d1 * 4096 + d2 * 256 + d3 * 16 + d4 < 57344)) :
    parseStringBody ('\\' :: 'u' :: c1 :: c2 :: c3 :: c4 :: r) =
      (parseStringBody r).map (fun (cs, r2) =>
        (Char.ofNat (d1 * 4096 + d2 * 256 + d3 * 16 + d4) :: cs, r2)) := by
  conv_lhs => unfold parseStringBody
  split
  · rename_i heq
    exact absurd heq (fun h => List.noConfusion h)
  · rename_i heq
    injection heq with hc
    exact absurd hc (by decide)
  · rename_i rest heq
    injection heq with hc hrest
    subst hrest
    split
    · rename_i heq2
      injection heq2 with hc2
      exact absurd hc2 (by decide)
    · rename_i heq2
      injection heq2 with hc2
      exact absurd hc2 (by decide)
    · rename_i heq2
      injection heq2 with hc2
      exact absurd hc2 (by decide)
    · rename_i heq2
      injection heq2 with hc2
      exact absurd hc2 (by decide)
    · rename_i heq2
      injection heq2 with hc2
      exact absurd hc2 (by decide)
    · rename_i heq2
      injection heq2 with hc2
      exact absurd hc2 (by decide)
    · rename_i heq2
      injection heq2 with hc2
      exact absurd hc2 (by decide)
    · rename_i heq2
      injection heq2 with hc2
      exact absurd hc2 (by decide)
    · rename_i h1x h2x h3x h4x rx heq2
      injection heq2 with hu heq2
      injection heq2 with q1 heq2
      injection heq2 with q2 heq2
      injection heq2 with q3 heq2
      injection heq2 with q4 heq2
      subst q1
      subst q2
      subst q3
      subst q4
      subst heq2
      rw [h1, h2, h3, h4]
      dsimp only
      rw [if_neg hns1, if_neg hns2]
    · rename_i f1 f2 f3 f4 f5 f6 f7 f8 f9
      exact (f9 c1 c2 c3 c4 r rfl).elim
  · rename_i hqf hbf heq
    injection heq with hc hr
    exact (hbf hc.symm).elim

/-- Reduction of `parseStringBody` on a surrogate-pair escape
(astral-plane character). -/
theorem parseStringBody_u_pair (c1 c2 c3 c4 g1 g2 g3 g4 : Char)
    (r2 : List Char) (d1 d2 d3 d4 e1 e2 e3 e4 : Nat)
    (h1 : hexVal c1 = some d1) (h2 : hexVal c2 = some d2)
    (h3 : hexVal c3 = some d3) (h4 : hexVal c4 = some d4)
    (k1 : hexVal g1 = some e1) (k2 : hexVal g2 = some e2)
    (k3 : hexVal g3 = some e3) (k4 : hexVal g4 = some e4)
    (hs1 : 55296 ≤ d1 * 4096 + d2 * 256 + d3 * 16 + d4 ∧
      d1 * 4096 + d2 * 256 + d3 * 16 + d4 < 56320)
    (hs2 : 56320 ≤ e1 * 4096 + e2 * 256 + e3 * 16 + e4 ∧
      e1 * 4096 + e2 * 256 + e3 * 16 + e4 < 57344) :
    parseStringBody ('\\' :: 'u' :: c1 :: c2 :: c3 :: c4 ::
        '\\' :: 'u' :: g1 :: g2 :: g3 :: g4 :: r2) =
      (parseStringBody r2).map (fun (cs, r3) =>
        (Char.ofNat (65536 +
          (d1 * 4096 + d2 * 256 + d3 * 16 + d4 - 55296) * 1024 +
          (e1 * 4096 + e2 * 256 + e3 * 16 + e4 - 56320)) :: cs, r3)) := by
  conv_lhs => unfold parseStringBody
  split
  · rename_i heq
    exact absurd heq (fun h => List.noConfusion h)
  · rename_i heq
    injection heq with hc
    exact absurd hc (by decide)
  · rename_i rest heq
    injection heq with hc hrest
    subst hrest
    split
    · rename_i heq2
      injection heq2 with hc2
      exact absurd hc2 (by decide)
    · rename_i heq2
      injection heq2 with hc2
      exact absurd hc2 (by decide)
    · rename_i heq2
      injection heq2 with hc2
      exact absurd hc2 (by decide)
    · rename_i heq2
      injection heq2 with hc2
      exact absurd hc2 (by decide)
    · rename_i heq2
      injection heq2 with hc2
      exact absurd hc2 (by decide)
    · rename_i heq2
      injection heq2 with hc2
      exact absurd hc2 (by decide)
    · rename_i heq2
      injection heq2 with hc2
      exact absurd hc2 (by decide)
    · rename_i heq2
      injection heq2 with hc2
      exact absurd hc2 (by decide)
    · rename_i h1x h2x h3x h4x rx heq2
      injection heq2 with hu heq2
      injection heq2 with q1 heq2
      injection heq2 with q2 heq2
      injection heq2 with q3 heq2
      injection heq2 with q4 heq2
      subst q1
      subst q2
      subst q3
      subst q4
      subst heq2
      rw [h1, h2, h3, h4]
      dsimp only
      rw [if_pos hs1]
      split
      · rename_i heq3
        injection heq3 with hb3 heq3
        injection heq3 with hu3 heq3
        injection heq3 with w1 heq3
        injection heq3 with w2 heq3
        injection heq3 with w3 heq3
        injection heq3 with w4 heq3
        subst w1
        subst w2
        subst w3
        subst w4
        subst heq3
        rw [k1, k2, k3, k4]
        dsimp only
        rw [if_pos hs2]
      · rename_i hno
        exact (hno g1 g2 g3 g4 r2 rfl).elim
    · rename_i f1 f2 f3 f4 f5 f6 f7 f8 f9
      exact (f9 c1 c2 c3 c4
        ('\\' :: 'u' :: g1 :: g2 :: g3 :: g4 :: r2) rfl).elim
  · rename_i hqf hbf heq
    injection heq with hc hr
    exact (hbf hc.symm).elim

theorem parseStringBody_escL : ∀ (s rest : List Char),
    parseStringBody (escL s ++ '"' :: rest) = some (s, rest) := by
  intro s
  induction s with
  | nil => intro rest; rfl
  | cons c cs ih =>
    intro rest
    rw [escL, List.append_assoc]
    by_cases hq : c = '"'
    · subst hq
      rw [show escChar '"' = ['\\', '"'] from rfl, List.cons_append,
        List.cons_append, List.nil_append]
      have hstep : parseStringBody ('\\' :: '"' :: (escL cs ++ '"' :: rest)) =
          (parseStringBody (escL cs ++ '"' :: rest)).map
            (fun p => ('"' :: p.1, p.2)) := rfl
      rw [hstep, ih]
      rfl
    · by_cases hbs : c = '\\'
      · subst hbs
        rw [show escChar '\\' = ['\\', '\\'] from rfl, List.cons_append,
          List.cons_append, List.nil_append]
        have hstep : parseStringBody ('\\' :: '\\' :: (escL cs ++ '"' :: rest)) =
            (parseStringBody (escL cs ++ '"' :: rest)).map
              (fun p => ('\\' :: p.1, p.2)) := rfl
        rw [hstep, ih]
        rfl
      · by_cases h8 : c.toNat = 8
        · rw [show escChar c = ['\\', 'b'] from by
            rw [escChar, if_neg hq, if_neg hbs, if_pos h8]]
          rw [List.cons_append, List.cons_append, List.nil_append]
          have hstep : parseStringBody ('\\' :: 'b' :: (escL cs ++ '"' :: rest)) =
              (parseStringBody (escL cs ++ '"' :: rest)).map
                (fun p => (Char.ofNat 8 :: p.1, p.2)) := rfl
          rw [hstep, ih, ← char_eq_of_toNat c 8 h8]
          rfl
        · by_cases h9 : c.toNat = 9
          · rw [show escChar c = ['\\', 't'] from by
              rw [escChar, if_neg hq, if_neg hbs, if_neg h8, if_pos h9]]
            rw [List.cons_append, List.cons_append, List.nil_append]
            have hstep : parseStringBody ('\\' :: 't' :: (escL cs ++ '"' :: rest)) =
                (parseStringBody (escL cs ++ '"' :: rest)).map
                  (fun p => ('\t' :: p.1, p.2)) := rfl
            have hc : c = '\t' := char_eq_of_toNat c 9 h9
            rw [hstep, ih, ← hc]
            rfl
          · by_cases h10 : c.toNat = 10
            · rw [show escChar c = ['\\', 'n'] from by
                rw [escChar, if_neg hq, if_neg hbs, if_neg h8, if_neg h9,
                  if_pos h10]]
              rw [List.cons_append, List.cons_append, List.nil_append]
              have hstep : parseStringBody ('\\' :: 'n' :: (escL cs ++ '"' :: rest)) =
                  (parseStringBody (escL cs ++ '"' :: rest)).map
                    (fun p => ('\n' :: p.1, p.2)) := rfl
              have hc : c = '\n' := char_eq_of_toNat c 10 h10
              rw [hstep, ih, ← hc]
              rfl
            · by_cases h12 : c.toNat = 12
              · rw [show escChar c = ['\\', 'f'] from by
                  rw [escChar, if_neg hq, if_neg hbs, if_neg h8, if_neg h9,
                    if_neg h10, if_pos h12]]
                rw [List.cons_append, List.cons_append, List.nil_append]
                have hstep : parseStringBody
                    ('\\' :: 'f' :: (escL cs ++ '"' :: rest)) =
                    (parseStringBody (escL cs ++ '"' :: rest)).map
                      (fun p => (Char.ofNat 12 :: p.1, p.2)) := rfl
                rw [hstep, ih, ← char_eq_of_toNat c 12 h12]
                rfl
              · by_cases h13 : c.toNat = 13
                · rw [show escChar c = ['\\', 'r'] from by
                    rw [escChar, if_neg hq, if_neg hbs, if_neg h8, if_neg h9,
                      if_neg h10, if_neg h12, if_pos h13]]
                  rw [List.cons_append, List.cons_append, List.nil_append]
                  have hstep : parseStringBody
                      ('\\' :: 'r' :: (escL cs ++ '"' :: rest)) =
                      (parseStringBody (escL cs ++ '"' :: rest)).map
                        (fun p => (Char.ofNat 13 :: p.1, p.2)) := rfl
                  rw [hstep, ih, ← char_eq_of_toNat c 13 h13]
                  rfl
                · by_cases hpr : 32 ≤ c.toNat ∧ c.toNat ≤ 126
                  · rw [show escChar c = [c] from by
                      rw [escChar, if_neg hq, if_neg hbs, if_neg h8, if_neg h9,
                        if_neg h10, if_neg h12, if_neg h13, if_pos hpr]]
                    rw [List.singleton_append]
                    unfold parseStringBody
                    split
                    · rename_i heq
                      exact absurd heq (fun h => List.noConfusion h)
                    · rename_i heq
                      injection heq with hc
                      exact absurd hc hq
                    · rename_i heq
                      injection heq with hc
                      exact absurd hc hbs
                    · rename_i c2 rest2 h1 h2 h3 heq
                      injection heq with hc hrest
                      subst hc
                      subst hrest
                      rw [if_neg (by omega), ih]
                      rfl
                  · by_cases hlt : c.toNat < 65536
                    · rw [show escChar c = '\\' :: 'u' :: hex4 c.toNat from by
                        rw [escChar, if_neg hq, if_neg hbs, if_neg h8, if_neg h9,
                          if_neg h10, if_neg h12, if_neg h13, if_neg hpr,
                          if_pos hlt]]
                      rw [hex4]
                      simp only [List.cons_append, List.nil_append]
                      rcases char_valid_range c with hvr | hvr
                      all_goals
                        rw [parseStringBody_u_bmp _ _ _ _ _ _ _ _ _
                          (hexVal_hexDigitChar _ (by omega))
                          (hexVal_hexDigitChar _ (by omega))
                          (hexVal_hexDigitChar _ (by omega))
                          (hexVal_hexDigitChar _ (by omega))
                          (by omega) (by omega), ih,
                          show Char.ofNat (c.toNat / 4096 % 16 * 4096 +
                            c.toNat / 256 % 16 * 256 + c.toNat / 16 % 16 * 16 +
                            c.toNat % 16) = c from by
                            rw [show c.toNat / 4096 % 16 * 4096 +
                              c.toNat / 256 % 16 * 256 + c.toNat / 16 % 16 * 16 +
                              c.toNat % 16 = c.toNat from by omega,
                              Char.ofNat_toNat]]
                        rfl
                    · have hub : c.toNat < 1114112 := by
                        rcases char_valid_range c with h | h
                        all_goals omega
                      rw [show escChar c =
                          '\\' :: 'u' :: hex4 (55296 + (c.toNat - 65536) / 1024) ++
                            '\\' :: 'u' :: hex4 (56320 + (c.toNat - 65536) % 1024)
                          from by
                        rw [escChar, if_neg hq, if_neg hbs, if_neg h8, if_neg h9,
                          if_neg h10, if_neg h12, if_neg h13, if_neg hpr,
                          if_neg hlt]]
                      rw [hex4, hex4]
                      simp only [List.cons_append, List.nil_append,
                        List.append_assoc]
                      rw [parseStringBody_u_pair _ _ _ _ _ _ _ _ _ _ _ _ _ _ _ _ _
                        (hexVal_hexDigitChar _ (by omega))
                        (hexVal_hexDigitChar _ (by omega))
                        (hexVal_hexDigitChar _ (by omega))
                        (hexVal_hexDigitChar _ (by omega))
                        (hexVal_hexDigitChar _ (by omega))
                        (hexVal_hexDigitChar _ (by omega))
                        (hexVal_hexDigitChar _ (by omega))
                        (hexVal_hexDigitChar _ (by omega))
                        (by omega) (by omega)]
                      rw [ih]
                      rw [show Char.ofNat (65536 +
                          ((55296 + (c.toNat - 65536) / 1024) / 4096 % 16 * 4096 +
                            (55296 + (c.toNat - 65536) / 1024) / 256 % 16 * 256 +
                            (55296 + (c.toNat - 65536) / 1024) / 16 % 16 * 16 +
                            (55296 + (c.toNat - 65536) / 1024) % 16 - 55296) * 1024 +
                          ((56320 + (c.toNat - 65536) % 1024) / 4096 % 16 * 4096 +
                            (56320 + (c.toNat - 65536) % 1024) / 256 % 16 * 256 +
                            (56320 + (c.toNat - 65536) % 1024) / 16 % 16 * 16 +
                            (56320 + (c.toNat - 65536) % 1024) % 16 - 56320)) = c
                          from by
                        rw [show 65536 +
                            ((55296 + (c.toNat - 65536) / 1024) / 4096 % 16 * 4096 +
                              (55296 + (c.toNat - 65536) / 1024) / 256 % 16 * 256 +
                              (55296 + (c.toNat - 65536) / 1024) / 16 % 16 * 16 +
                              (55296 + (c.toNat - 65536) / 1024) % 16 - 55296) * 1024 +
                            ((56320 + (c.toNat - 65536) % 1024) / 4096 % 16 * 4096 +
                              (56320 + (c.toNat - 65536) % 1024) / 256 % 16 * 256 +
                              (56320 + (c.toNat - 65536) % 1024) / 16 % 16 * 16 +
                              (56320 + (c.toNat - 65536) % 1024) % 16 - 56320) =
                            c.toNat from by omega, Char.ofNat_toNat]]
                      rfl

theorem parseVal_null (f : Nat) (rest : List Char) :
    parseVal (f + 1) ('n' :: 'u' :: 'l' :: 'l' :: rest) = some (.null, rest) := rfl

theorem parseVal_true (f : Nat) (rest : List Char) :
    parseVal (f + 1) ('t' :: 'r' :: 'u' :: 'e' :: rest) =
      some (.bool true, rest) := rfl

theorem parseVal_false (f : Nat) (rest : List Char) :
    parseVal (f + 1) ('f' :: 'a' :: 'l' :: 's' :: 'e' :: rest) =
      some (.bool false, rest) := rfl

theorem parseVal_str (f : Nat) (cs : List Char) (s r : List Char)
    (hp : parseStringBody cs = some (s, r)) :
    parseVal (f + 1) ('"' :: cs) = some (.str (String.mk s), r) := by
  have h0 : parseVal (f + 1) ('"' :: cs) =
      (parseStringBody cs).map (fun (s2, r2) =>
        (Json.str (String.mk s2), r2)) := rfl
  rw [h0, hp]
  rfl

theorem parseVal_neg (f : Nat) (cs : List Char) (n2 : Nat) (r : List Char)
    (hp : parseUIntPart cs = some (n2, r)) (hff : floatFollow r = false) :
    parseVal (f + 1) ('-' :: cs) = some (.int (-(n2 : Int)), r) := by
  have h0 : parseVal (f + 1) ('-' :: cs) =
      (match parseUIntPart cs with
       | some (n, r) => if floatFollow r then none
         else some (Json.int (-(n : Int)), r)
       | none => none) := rfl
  rw [h0, hp]
  dsimp only
  rw [hff]
  rfl

theorem parseVal_arr_nil (f : Nat) (cs : List Char) (r : List Char)
    (h : skipWs cs = ']' :: r) :
    parseVal (f + 1) ('[' :: cs) = some (.arr .nil, r) := by
  have h0 : parseVal (f + 1) ('[' :: cs) =
      (match skipWs cs with
       | ']' :: r => some (Json.arr .nil, r)
       | r => (parseElems f r).map (fun (xs, r2) => (Json.arr xs, r2))) := rfl
  rw [h0, h]
  rfl

theorem parseVal_arr_go (f : Nat) (cs : List Char) (c0 : Char) (r : List Char)
    (h : skipWs cs = c0 :: r) (hne : c0 ≠ ']')
    (xs : JsonA) (r2 : List Char)
    (hres : parseElems f (c0 :: r) = some (xs, r2)) :
    parseVal (f + 1) ('[' :: cs) = some (.arr xs, r2) := by
  have h0 : parseVal (f + 1) ('[' :: cs) =
      (match skipWs cs with
       | ']' :: r => some (Json.arr .nil, r)
       | r => (parseElems f r).map (fun (xs, r2) => (Json.arr xs, r2))) := rfl
  rw [h0, h]
  split
  · rename_i heq
    injection heq with hc
    exact absurd hc hne
  · rw [hres]
    rfl

theorem parseVal_obj_nil (f : Nat) (cs : List Char) (r : List Char)
    (h : skipWs cs = '}' :: r) :
    parseVal (f + 1) ('{' :: cs) = some (.obj .nil, r) := by
  have h0 : parseVal (f + 1) ('{' :: cs) =
      (match skipWs cs with
       | '}' :: r => some (Json.obj .nil, r)
       | r => (parseMembers f r).map (fun (kvs, r2) => (Json.obj kvs, r2))) := rfl
  rw [h0, h]
  rfl

theorem parseVal_obj_go (f : Nat) (cs : List Char) (c0 : Char) (r : List Char)
    (h : skipWs cs = c0 :: r) (hne : c0 ≠ '}')
    (kvs : JsonO) (r2 : List Char)
    (hres : parseMembers f (c0 :: r) = some (kvs, r2)) :
    parseVal (f + 1) ('{' :: cs) = some (.obj kvs, r2) := by
  have h0 : parseVal (f + 1) ('{' :: cs) =
      (match skipWs cs with
       | '}' :: r => some (Json.obj .nil, r)
       | r => (parseMembers f r).map (fun (kvs, r2) => (Json.obj kvs, r2))) := rfl
  rw [h0, h]
  split
  · rename_i heq
    injection heq with hc
    exact absurd hc hne
  · rw [hres]
    rfl

theorem parseVal_digit (f : Nat) (c : Char) (cs : List Char)
    (h1 : 48 ≤ c.toNat) (h2 : c.toNat ≤ 57) (n2 : Nat) (r : List Char)
    (hp : parseUIntPart (c :: cs) = some (n2, r))
    (hff : floatFollow r = false) :
    parseVal (f + 1) (c :: cs) = some (.int (n2 : Int), r) := by
  conv_lhs => unfold parseVal
  split
  · rename_i heq
    exact absurd heq (Nat.succ_ne_zero f)
  · rename_i rest hfq hl
    injection hl with hc2 htl
    rw [hc2] at h2
    exact absurd h2 (by decide)
  · rename_i rest hfq hl
    injection hl with hc2 htl
    rw [hc2] at h2
    exact absurd h2 (by decide)
  · rename_i rest hfq hl
    injection hl with hc2 htl
    rw [hc2] at h2
    exact absurd h2 (by decide)
  · rename_i rest hfq hl
    injection hl with hc2 htl
    rw [hc2] at h1
    exact absurd h1 (by decide)
  · rename_i rest hfq hl
    injection hl with hc2 htl
    rw [hc2] at h1
    exact absurd h1 (by decide)
  · rename_i rest hfq hl
    injection hl with hc2 htl
    rw [hc2] at h2
    exact absurd h2 (by decide)
  · rename_i rest hfq hl
    injection hl with hc2 htl
    rw [hc2] at h2
    exact absurd h2 (by decide)
  · rename_i c2 rest2 hfq hl
    injection hl with hc2 htl
    subst hc2
    subst htl
    rw [hp]
    dsimp only
    rw [hff]
    rfl
  · rename_i hfq hl
    exact absurd hl (fun h => List.noConfusion h)

theorem parseElems_last (f : Nat) (cs : List Char) (v : Json)
    (r r2 : List Char)
    (hv : parseVal f cs = some (v, r)) (hr : skipWs r = ']' :: r2) :
    parseElems (f + 1) cs = some (.cons v .nil, r2) := by
  have h0 : parseElems (f + 1) cs =
      (match parseVal f cs with
       | none => none
       | some (v, r) =>
         match skipWs r with
         | ',' :: r2 =>
           (parseElems f (skipWs r2)).map (fun (xs, r3) => (JsonA.cons v xs, r3))
         | ']' :: r2 => some (JsonA.cons v .nil, r2)
         | _ => none) := rfl
  rw [h0, hv]
  dsimp only
  rw [hr]
  rfl

theorem parseElems_cons (f : Nat) (cs : List Char) (v : Json)
    (r r2 : List Char) (xs : JsonA) (r3 : List Char)
    (hv : parseVal f cs = some (v, r)) (hr : skipWs r = ',' :: r2)
    (hrec : parseElems f (skipWs r2) = some (xs, r3)) :
    parseElems (f + 1) cs = some (.cons v xs, r3) := by
  have h0 : parseElems (f + 1) cs =
      (match parseVal f cs with
       | none => none
       | some (v, r) =>
         match skipWs r with
         | ',' :: r2 =>
           (parseElems f (skipWs r2)).map (fun (xs, r3) => (JsonA.cons v xs, r3))
         | ']' :: r2 => some (JsonA.cons v .nil, r2)
         | _ => none) := rfl
  rw [h0, hv]
  dsimp only
  rw [hr]
  split
  · rename_i r2x heq
    injection heq with hc htl
    subst htl
    rw [hrec]
    rfl
  · rename_i r2x heq
    injection heq with hc htl
    exact absurd hc (by decide)
  · rename_i f1 f2
    exact (f1 r2 rfl).elim

theorem parseMembers_last (f : Nat) (r0 kcs r1 : List Char) (v : Json)
    (r2 r3 r4 : List Char)
    (hk : parseStringBody r0 = some (kcs, r1))
    (hc : skipWs r1 = ':' :: r2)
    (hv : parseVal f (skipWs r2) = some (v, r3))
    (he : skipWs r3 = '}' :: r4) :
    parseMembers (f + 1) ('"' :: r0) =
      some (.cons (String.mk kcs) v .nil, r4) := by
  have h0 : parseMembers (f + 1) ('"' :: r0) =
      (match parseStringBody r0 with
       | none => none
       | some (kcs, r1) =>
         match skipWs r1 with
         | ':' :: r2 =>
           match parseVal f (skipWs r2) with
           | none => none
           | some (v, r3) =>
             match skipWs r3 with
             | ',' :: r4 =>
               match skipWs r4 with
               | '"' :: r5 =>
                 (parseMembers f ('"' :: r5)).map
                   (fun (kvs, r6) => (JsonO.cons (String.mk kcs) v kvs, r6))
               | _ => none
             | '}' :: r4 => some (JsonO.cons (String.mk kcs) v .nil, r4)
             | _ => none
         | _ => none) := rfl
  rw [h0, hk]
  dsimp only
  rw [hc]
  split
  · rename_i r2x heq
    injection heq with hcx htl
    subst htl
    rw [hv]
    dsimp only
    rw [he]
    rfl
  · rename_i f1
    exact (f1 r2 rfl).elim

theorem parseMembers_cons (f : Nat) (r0 kcs r1 : List Char) (v : Json)
    (r2 r3 r4 r5 : List Char) (kvs : JsonO) (r6 : List Char)
    (hk : parseStringBody r0 = some (kcs, r1))
    (hc : skipWs r1 = ':' :: r2)
    (hv : parseVal f (skipWs r2) = some (v, r3))
    (he : skipWs r3 = ',' :: r4)
    (hq : skipWs r4 = '"' :: r5)
    (hrec : parseMembers f ('"' :: r5) = some (kvs, r6)) :
    parseMembers (f + 1) ('"' :: r0) =
      some (.cons (String.mk kcs) v kvs, r6) := by
  have h0 : parseMembers (f + 1) ('"' :: r0) =
      (match parseStringBody r0 with
       | none => none
       | some (kcs, r1) =>
         match skipWs r1 with
         | ':' :: r2 =>
           match parseVal f (skipWs r2) with
           | none => none
           | some (v, r3) =>
             match skipWs r3 with
             | ',' :: r4 =>
               match skipWs r4 with
               | '"' :: r5 =>
                 (parseMembers f ('"' :: r5)).map
                   (fun (kvs, r6) => (JsonO.cons (String.mk kcs) v kvs, r6))
               | _ => none
             | '}' :: r4 => some (JsonO.cons (String.mk kcs) v .nil, r4)
             | _ => none
         | _ => none) := rfl
  rw [h0, hk]
  dsimp only
  rw [hc]
  split
  · rename_i r2x heq
    injection heq with hcx htl
    subst htl
    rw [hv]
    dsimp only
    rw [he]
    split
    · rename_i r4x heq2
      injection heq2 with hc2 htl2
      subst htl2
      rw [hq]
      split
      · rename_i r5x heq3
        injection heq3 with hc3 htl3
        subst htl3
        rw [hrec]
        rfl
      · rename_i f1
        exact (f1 r5 rfl).elim
    · rename_i r4x heq2
      injection heq2 with hc2 htl2
      exact absurd hc2 (by decide)
    · rename_i f1 f2
      exact (f1 r4 rfl).elim
  · rename_i f1
    exact (f1 r2 rfl).elim

mutual

/-- Recursion-depth requirement of the parser on a serialized value:
`parseVal` needs this much fuel to reparse `dumpsL`. -/
def needVal : Json → Nat
  | .null => 1
  | .bool _ => 1
  | .int _ => 1
  | .str _ => 1
  | .arr xs => needA xs + 1
  | .obj kvs => needO kvs + 1

def needA : JsonA → Nat
  | .nil => 1
  | .cons x xs => max (needVal x) (needA xs) + 1

def needO : JsonO → Nat
  | .nil => 1
  | .cons _ v xs => max (needVal v) (needO xs) + 1

end

theorem natChars_length_pos (n : Nat) : 0 < (natChars n).length := by
  rw [natChars, natDigits]
  split
  · simp
  · simp

theorem intChars_length_pos (n : Int) : 0 < (intChars n).length := by
  rw [intChars]
  split
  · simp
  · exact natChars_length_pos n.toNat

theorem digit_char_props (d : Nat) (hd : d ≤ 9) :
    jsonWs (Char.ofNat (48 + d)) = false ∧ Char.ofNat (48 + d) ≠ ']' ∧
      48 ≤ (Char.ofNat (48 + d)).toNat ∧ (Char.ofNat (48 + d)).toNat ≤ 57 := by
  interval_cases d <;> exact ⟨rfl, by decide, by decide, by decide⟩

theorem dumpsL_head (v : Json) :
    ∃ c cs, dumpsL v = c :: cs ∧ jsonWs c = false ∧ c ≠ ']' := by
  match v with
  | .null => exact ⟨'n', _, rfl, rfl, by decide⟩
  | .bool true => exact ⟨'t', _, rfl, rfl, by decide⟩
  | .bool false => exact ⟨'f', _, rfl, rfl, by decide⟩
  | .str s => exact ⟨'"', _, rfl, rfl, by decide⟩
  | .arr xs => exact ⟨'[', _, rfl, rfl, by decide⟩
  | .obj kvs => exact ⟨'{', _, rfl, rfl, by decide⟩
  | .int n =>
    rw [show dumpsL (.int n) = intChars n from rfl, intChars]
    split
    · exact ⟨'-', _, rfl, rfl, by decide⟩
    · obtain ⟨d, ds, hnd, hd9, _⟩ := natDigits_head (n.toNat + 1) n.toNat
        (nat_lt_pow_succ n.toNat) (by omega)
      obtain ⟨hws, hne, _, _⟩ := digit_char_props d hd9
      exact ⟨Char.ofNat (48 + d), ds, by rw [natChars, hnd], hws, hne⟩

theorem skipWs_cons (c : Char) (l : List Char) (h : jsonWs c = false) :
    skipWs (c :: l) = c :: l := by
  rw [skipWs, if_neg (by simp [h])]

theorem skipWs_dumpsL (v : Json) (r : List Char) :
    skipWs (dumpsL v ++ r) = dumpsL v ++ r := by
  obtain ⟨c, cs, hd, hws, _⟩ := dumpsL_head v
  rw [hd, List.cons_append, skipWs_cons c (cs ++ r) hws]

mutual

/-- Round-trip: the parser re-reads a serialized value exactly,
leaving any legal continuation untouched. -/
theorem parse_dumpsL : ∀ (v : Json) (fuel : Nat) (rest : List Char),
    needVal v ≤ fuel → followOk rest →
    parseVal fuel (dumpsL v ++ rest) = some (v, rest)
  | .null, fuel, rest, hf, hr => by
    cases fuel with
    | zero => simp [needVal] at hf
    | succ f => exact parseVal_null f rest
  | .bool true, fuel, rest, hf, hr => by
    cases fuel with
    | zero => simp [needVal] at hf
    | succ f => exact parseVal_true f rest
  | .bool false, fuel, rest, hf, hr => by
    cases fuel with
    | zero => simp [needVal] at hf
    | succ f => exact parseVal_false f rest
  | .int n, fuel, rest, hf, hr => by
    cases fuel with
    | zero => simp [needVal] at hf
    | succ f =>
      rcases lt_or_ge n 0 with hneg | hpos
      · have hi : dumpsL (.int n) = '-' :: natChars n.natAbs := by
          rw [show dumpsL (.int n) = intChars n from rfl, intChars, if_pos hneg]
        have hpv := parseVal_neg f (natChars n.natAbs ++ rest) n.natAbs rest
          (parseUIntPart_natChars n.natAbs rest hr)
          (floatFollow_followOk rest hr)
        rw [hi, List.cons_append, hpv,
          show (-(n.natAbs : Int)) = n from by omega]
      · have hi : dumpsL (.int n) = natChars n.toNat := by
          rw [show dumpsL (.int n) = intChars n from rfl, intChars,
            if_neg (by omega)]
        obtain ⟨d, ds, hnd, hd9, _⟩ := natDigits_head (n.toNat + 1) n.toNat
          (nat_lt_pow_succ n.toNat) (by omega)
        obtain ⟨_, _, h48, h57⟩ := digit_char_props d hd9
        have hnc : natChars n.toNat = Char.ofNat (48 + d) :: ds := by
          rw [natChars, hnd]
        have hup := parseUIntPart_natChars n.toNat rest hr
        rw [hnc, List.cons_append] at hup
        have hpv := parseVal_digit f (Char.ofNat (48 + d)) (ds ++ rest)
          h48 h57 n.toNat rest hup (floatFollow_followOk rest hr)
        rw [hi, hnc, List.cons_append, hpv,
          show ((n.toNat : Int)) = n from by omega]
  | .str s, fuel, rest, hf, hr => by
    cases fuel with
    | zero => simp [needVal] at hf
    | succ f =>
      have hd : dumpsL (.str s) ++ rest = '"' :: (escL s.data ++ ('"' :: rest)) := by
        rw [show dumpsL (.str s) = '"' :: (escL s.data ++ ['"']) from rfl]
        simp
      rw [hd, parseVal_str f (escL s.data ++ ('"' :: rest)) s.data rest
        (parseStringBody_escL s.data rest),
        show String.mk s.data = s from by cases s with | mk d => rfl]
  | .arr xs, fuel, rest, hf, hr => by
    cases fuel with
    | zero => simp [needVal] at hf
    | succ f =>
      have hd : dumpsL (.arr xs) ++ rest = '[' :: (dumpsA xs ++ (']' :: rest)) := by
        rw [show dumpsL (.arr xs) = '[' :: (dumpsA xs ++ [']']) from rfl]
        simp
      rw [hd]
      match xs with
      | .nil =>
        exact parseVal_arr_nil f _ rest (by
          rw [show dumpsA .nil = ([] : List Char) from rfl, List.nil_append]
          exact skipWs_cons ']' rest rfl)
      | .cons x tail =>
        have hne : needA (JsonA.cons x tail) ≤ f := by
          simp [needVal] at hf
          omega
        obtain ⟨c, cs2, hdx, hws, hnee⟩ := dumpsL_head x
        have hstart : ∃ rs, dumpsA (.cons x tail) = dumpsL x ++ rs := by
          match tail with
          | .nil => exact ⟨[], by
              rw [show dumpsA (.cons x .nil) = dumpsL x from rfl,
                List.append_nil]⟩
          | .cons y ys => exact ⟨',' :: ' ' :: dumpsA (.cons y ys), rfl⟩
        obtain ⟨rs, hrs⟩ := hstart
        have hfull : dumpsA (.cons x tail) ++ ']' :: rest =
            c :: (cs2 ++ (rs ++ ']' :: rest)) := by
          rw [hrs, hdx]
          simp
        refine parseVal_arr_go f _ c (cs2 ++ (rs ++ ']' :: rest)) ?_ hnee
          (.cons x tail) rest ?_
        · rw [hfull]
          exact skipWs_cons c _ hws
        · rw [show (c :: (cs2 ++ (rs ++ ']' :: rest))) =
            dumpsA (.cons x tail) ++ ']' :: rest from hfull.symm]
          exact parse_dumpsA (.cons x tail) f rest
            (fun h => JsonA.noConfusion h) hne hr
  | .obj kvs, fuel, rest, hf, hr => by
    cases fuel with
    | zero => simp [needVal] at hf
    | succ f =>
      have hd : dumpsL (.obj kvs) ++ rest = '{' :: (dumpsO kvs ++ ('}' :: rest)) := by
        rw [show dumpsL (.obj kvs) = '{' :: (dumpsO kvs ++ ['}']) from rfl]
        simp
      rw [hd]
      match kvs with
      | .nil =>
        exact parseVal_obj_nil f _ rest (by
          rw [show dumpsO .nil = ([] : List Char) from rfl, List.nil_append]
          exact skipWs_cons '}' rest rfl)
      | .cons k v tail =>
        have hne : needO (JsonO.cons k v tail) ≤ f := by
          simp [needVal] at hf
          omega
        have hhead : ∃ ds, dumpsO (.cons k v tail) = '"' :: ds := by
          match tail with
          | .nil =>
            exact ⟨(escL k.data ++ ['"']) ++ ':' :: ' ' :: dumpsL v, by
              rw [show dumpsO (.cons k v .nil) =
                '"' :: (escL k.data ++ ['"']) ++ ':' :: ' ' :: dumpsL v
                from rfl]
              simp⟩
          | .cons k2 v2 ys =>
            exact ⟨(escL k.data ++ ['"']) ++ ':' :: ' ' :: dumpsL v ++
              ',' :: ' ' :: dumpsO (.cons k2 v2 ys), by
              rw [show dumpsO (.cons k v (.cons k2 v2 ys)) =
                '"' :: (escL k.data ++ ['"']) ++ ':' :: ' ' :: dumpsL v ++
                  ',' :: ' ' :: dumpsO (.cons k2 v2 ys) from rfl]
              simp⟩
        obtain ⟨ds, hds⟩ := hhead
        have hfull : dumpsO (.cons k v tail) ++ '}' :: rest =
            '"' :: (ds ++ '}' :: rest) := by
          rw [hds, List.cons_append]
        refine parseVal_obj_go f _ '"' (ds ++ '}' :: rest) ?_ (by decide)
          (.cons k v tail) rest ?_
        · rw [hfull]
          exact skipWs_cons '"' _ rfl
        · rw [show ('"' :: (ds ++ '}' :: rest)) =
            dumpsO (.cons k v tail) ++ '}' :: rest from hfull.symm]
          exact parse_dumpsO (.cons k v tail) f rest
            (fun h => JsonO.noConfusion h) hne hr

theorem parse_dumpsA : ∀ (xs : JsonA) (fuel : Nat) (rest : List Char),
    xs ≠ .nil → needA xs ≤ fuel → followOk rest →
    parseElems fuel (dumpsA xs ++ ']' :: rest) = some (xs, rest)
  | .nil, _, _, hne, _, _ => absurd rfl hne
  | .cons x tail, fuel, rest, _, hf, hr => by
    cases fuel with
    | zero => simp [needA] at hf
    | succ f =>
      have hf2 : max (needVal x) (needA tail) + 1 ≤ f + 1 := hf
      have hx : needVal x ≤ f := by
        have h3 := le_max_left (needVal x) (needA tail)
        omega
      match tail with
      | .nil =>
        have hv := parse_dumpsL x f (']' :: rest) hx (Or.inr (Or.inl rfl))
        rw [show dumpsA (.cons x .nil) = dumpsL x from rfl]
        exact parseElems_last f _ x (']' :: rest) rest hv
          (skipWs_cons ']' rest rfl)
      | .cons y ys =>
        have htail : needA (JsonA.cons y ys) ≤ f := by
          have h3 := le_max_right (needVal x) (needA (JsonA.cons y ys))
          omega
        have hv := parse_dumpsL x f
          (',' :: ' ' :: dumpsA (.cons y ys) ++ ']' :: rest) hx (Or.inl rfl)
        have hstart : ∃ rs, dumpsA (.cons y ys) = dumpsL y ++ rs := by
          match ys with
          | .nil => exact ⟨[], by
              rw [show dumpsA (.cons y .nil) = dumpsL y from rfl,
                List.append_nil]⟩
          | .cons z zs => exact ⟨',' :: ' ' :: dumpsA (.cons z zs), rfl⟩
        obtain ⟨rs, hrs⟩ := hstart
        have hskip2 : skipWs (' ' :: dumpsA (.cons y ys) ++ ']' :: rest) =
            dumpsA (.cons y ys) ++ ']' :: rest := by
          rw [show skipWs (' ' :: dumpsA (.cons y ys) ++ ']' :: rest) =
            skipWs (dumpsA (.cons y ys) ++ ']' :: rest) from rfl, hrs,
            List.append_assoc]
          exact skipWs_dumpsL y (rs ++ ']' :: rest)
        have hrec := parse_dumpsA (.cons y ys) f rest
          (fun h => JsonA.noConfusion h) htail hr
        rw [show dumpsA (.cons x (.cons y ys)) =
          dumpsL x ++ ',' :: ' ' :: dumpsA (.cons y ys) from rfl,
          List.append_assoc]
        refine parseElems_cons f _ x
          (',' :: ' ' :: dumpsA (.cons y ys) ++ ']' :: rest)
          (' ' :: dumpsA (.cons y ys) ++ ']' :: rest)
          (.cons y ys) rest ?_ ?_ ?_
        · exact hv
        · exact skipWs_cons ',' _ rfl
        · rw [hskip2]
          exact hrec

theorem parse_dumpsO : ∀ (kvs : JsonO) (fuel : Nat) (rest : List Char),
    kvs ≠ .nil → needO kvs ≤ fuel → followOk rest →
    parseMembers fuel (dumpsO kvs ++ '}' :: rest) = some (kvs, rest)
  | .nil, _, _, hne, _, _ => absurd rfl hne
  | .cons k v tail, fuel, rest, _, hf, hr => by
    cases fuel with
    | zero => simp [needO] at hf
    | succ f =>
      have hf2 : max (needVal v) (needO tail) + 1 ≤ f + 1 := hf
      have hx : needVal v ≤ f := by
        have h3 := le_max_left (needVal v) (needO tail)
        omega
      match tail with
      | .nil =>
        have hshape : dumpsO (.cons k v .nil) ++ '}' :: rest =
            '"' :: (escL k.data ++ '"' :: (':' :: ' ' :: (dumpsL v ++
              '}' :: rest))) := by
          rw [show dumpsO (.cons k v .nil) =
            '"' :: (escL k.data ++ ['"']) ++ ':' :: ' ' :: dumpsL v from rfl]
          simp
        rw [hshape]
        have hv := parse_dumpsL v f ('}' :: rest) hx (Or.inr (Or.inr rfl))
        refine parseMembers_last f _ k.data
          (':' :: ' ' :: (dumpsL v ++ '}' :: rest)) v
          (' ' :: (dumpsL v ++ '}' :: rest)) ('}' :: rest) rest
          (parseStringBody_escL k.data _) (skipWs_cons ':' _ rfl) ?_
          (skipWs_cons '}' rest rfl)
        rw [show skipWs (' ' :: (dumpsL v ++ '}' :: rest)) =
          skipWs (dumpsL v ++ '}' :: rest) from rfl,
          skipWs_dumpsL v ('}' :: rest)]
        exact hv
      | .cons k2 v2 ys =>
        have htail : needO (JsonO.cons k2 v2 ys) ≤ f := by
          have h3 := le_max_right (needVal v) (needO (JsonO.cons k2 v2 ys))
          omega
        have hshape : dumpsO (.cons k v (.cons k2 v2 ys)) ++ '}' :: rest =
            '"' :: (escL k.data ++ '"' :: (':' :: ' ' :: (dumpsL v ++
              ',' :: ' ' :: (dumpsO (.cons k2 v2 ys) ++ '}' :: rest)))) := by
          rw [show dumpsO (.cons k v (.cons k2 v2 ys)) =
            '"' :: (escL k.data ++ ['"']) ++ ':' :: ' ' :: dumpsL v ++
              ',' :: ' ' :: dumpsO (.cons k2 v2 ys) from rfl]
          simp
        rw [hshape]
        have hv := parse_dumpsL v f
          (',' :: ' ' :: (dumpsO (.cons k2 v2 ys) ++ '}' :: rest)) hx
          (Or.inl rfl)
        have hrec := parse_dumpsO (.cons k2 v2 ys) f rest
          (fun h => JsonO.noConfusion h) htail hr
        have hhead2 : ∃ ds2, dumpsO (.cons k2 v2 ys) = '"' :: ds2 := by
          match ys with
          | .nil =>
            exact ⟨(escL k2.data ++ ['"']) ++ ':' :: ' ' :: dumpsL v2, by
              rw [show dumpsO (.cons k2 v2 .nil) =
                '"' :: (escL k2.data ++ ['"']) ++ ':' :: ' ' :: dumpsL v2
                from rfl]
              simp⟩
          | .cons k3 v3 zs =>
            exact ⟨(escL k2.data ++ ['"']) ++ ':' :: ' ' :: dumpsL v2 ++
              ',' :: ' ' :: dumpsO (.cons k3 v3 zs), by
              rw [show dumpsO (.cons k2 v2 (.cons k3 v3 zs)) =
                '"' :: (escL k2.data ++ ['"']) ++ ':' :: ' ' :: dumpsL v2 ++
                  ',' :: ' ' :: dumpsO (.cons k3 v3 zs) from rfl]
              simp⟩
        obtain ⟨ds2, hds2⟩ := hhead2
        have hq2 : dumpsO (.cons k2 v2 ys) ++ '}' :: rest =
            '"' :: (ds2 ++ '}' :: rest) := by
          rw [hds2, List.cons_append]
        refine parseMembers_cons f _ k.data
          (':' :: ' ' :: (dumpsL v ++
            ',' :: ' ' :: (dumpsO (.cons k2 v2 ys) ++ '}' :: rest))) v
          (' ' :: (dumpsL v ++
            ',' :: ' ' :: (dumpsO (.cons k2 v2 ys) ++ '}' :: rest)))
          (',' :: ' ' :: (dumpsO (.cons k2 v2 ys) ++ '}' :: rest))
          (' ' :: (dumpsO (.cons k2 v2 ys) ++ '}' :: rest))
          (ds2 ++ '}' :: rest)
          (.cons k2 v2 ys) rest
          (parseStringBody_escL k.data _) (skipWs_cons ':' _ rfl) ?_
          (skipWs_cons ',' _ rfl) ?_ ?_
        · rw [show skipWs (' ' :: (dumpsL v ++
            ',' :: ' ' :: (dumpsO (.cons k2 v2 ys) ++ '}' :: rest))) =
            skipWs (dumpsL v ++
              ',' :: ' ' :: (dumpsO (.cons k2 v2 ys) ++ '}' :: rest)) from rfl,
            skipWs_dumpsL v _]
          exact hv
        · rw [show skipWs (' ' :: (dumpsO (.cons k2 v2 ys) ++ '}' :: rest)) =
            skipWs (dumpsO (.cons k2 v2 ys) ++ '}' :: rest) from rfl, hq2]
          exact skipWs_cons '"' _ rfl
        · rw [show ('"' :: (ds2 ++ '}' :: rest)) =
            dumpsO (.cons k2 v2 ys) ++ '}' :: rest from hq2.symm]
          exact hrec

end

mutual

theorem needVal_le : ∀ v : Json, needVal v ≤ (dumpsL v).length
  | .null => by
    rw [show needVal .null = 1 from rfl, show (dumpsL .null).length = 4 from rfl]
    omega
  | .bool true => by
    rw [show needVal (.bool true) = 1 from rfl,
      show (dumpsL (.bool true)).length = 4 from rfl]
    omega
  | .bool false => by
    rw [show needVal (.bool false) = 1 from rfl,
      show (dumpsL (.bool false)).length = 5 from rfl]
    omega
  | .int n => by
    rw [show needVal (.int n) = 1 from rfl,
      show dumpsL (.int n) = intChars n from rfl]
    exact intChars_length_pos n
  | .str s => by
    rw [show needVal (.str s) = 1 from rfl,
      show dumpsL (.str s) = '"' :: (escL s.data ++ ['"']) from rfl]
    simp
  | .arr xs => by
    have h := needA_le xs
    rw [show needVal (.arr xs) = needA xs + 1 from rfl,
      show dumpsL (.arr xs) = '[' :: (dumpsA xs ++ [']']) from rfl]
    simp only [List.length_cons, List.length_append, List.length_singleton]
    omega
  | .obj kvs => by
    have h := needO_le kvs
    rw [show needVal (.obj kvs) = needO kvs + 1 from rfl,
      show dumpsL (.obj kvs) = '{' :: (dumpsO kvs ++ ['}']) from rfl]
    simp only [List.length_cons, List.length_append, List.length_singleton]
    omega

theorem needA_le : ∀ xs : JsonA, needA xs ≤ (dumpsA xs).length + 1
  | .nil => by
    rw [show needA .nil = 1 from rfl, show dumpsA .nil = ([] : List Char) from rfl]
    omega
  | .cons x .nil => by
    have h1 := needVal_le x
    obtain ⟨c, cs, hd, _, _⟩ := dumpsL_head x
    rw [show needA (.cons x .nil) = max (needVal x) (needA .nil) + 1 from rfl,
      show needA .nil = 1 from rfl,
      show dumpsA (.cons x .nil) = dumpsL x from rfl]
    apply Nat.succ_le_succ
    apply Nat.max_le.mpr
    constructor
    · omega
    · rw [hd]
      simp
  | .cons x (.cons y ys) => by
    have h1 := needVal_le x
    have h2 := needA_le (JsonA.cons y ys)
    rw [show needA (.cons x (.cons y ys)) =
      max (needVal x) (needA (.cons y ys)) + 1 from rfl,
      show dumpsA (.cons x (.cons y ys)) =
        dumpsL x ++ ',' :: ' ' :: dumpsA (.cons y ys) from rfl]
    simp only [List.length_append, List.length_cons]
    apply Nat.succ_le_succ
    apply Nat.max_le.mpr
    constructor
    · omega
    · omega

theorem needO_le : ∀ kvs : JsonO, needO kvs ≤ (dumpsO kvs).length + 1
  | .nil => by
    rw [show needO .nil = 1 from rfl, show dumpsO .nil = ([] : List Char) from rfl]
    omega
  | .cons k v .nil => by
    have h1 := needVal_le v
    rw [show needO (.cons k v .nil) = max (needVal v) (needO .nil) + 1 from rfl,
      show needO .nil = 1 from rfl,
      show dumpsO (.cons k v .nil) =
        '"' :: (escL k.data ++ ['"']) ++ ':' :: ' ' :: dumpsL v from rfl]
    simp only [List.length_append, List.length_cons, List.length_singleton]
    apply Nat.succ_le_succ
    apply Nat.max_le.mpr
    constructor
    · omega
    · omega
  | .cons k v (.cons k2 v2 ys) => by
    have h1 := needVal_le v
    have h2 := needO_le (JsonO.cons k2 v2 ys)
    rw [show needO (.cons k v (.cons k2 v2 ys)) =
      max (needVal v) (needO (.cons k2 v2 ys)) + 1 from rfl,
      show dumpsO (.cons k v (.cons k2 v2 ys)) =
        '"' :: (escL k.data ++ ['"']) ++ ':' :: ' ' :: dumpsL v ++
          ',' :: ' ' :: dumpsO (.cons k2 v2 ys) from rfl]
    simp only [List.length_append, List.length_cons, List.length_singleton]
    apply Nat.succ_le_succ
    apply Nat.max_le.mpr
    constructor
    · omega
    · omega

end

/-- Python `json.loads ∘ json.dumps` is the identity on the modelled
values. -/
theorem loads_dumps (v : Json) : loads (dumps v) = some v := by
  unfold loads dumps
  rw [show (String.mk (dumpsL v)).data = dumpsL v from rfl]
  dsimp only
  rw [show skipWs (dumpsL v) = dumpsL v from by
    have h := skipWs_dumpsL v []
    simpa using h]
  have h := parse_dumpsL v ((dumpsL v).length + 1) []
    (le_trans (needVal_le v) (Nat.le_succ _)) trivial
  rw [List.append_nil] at h
  rw [h]
  rfl

theorem takeWord_word : ∀ (w r : List Char),
    (∀ c ∈ w, isWordChar c = true) →
    (match r with | [] => True | c :: _ => isWordChar c = false) →
    takeWord (w ++ r) = (w, r)
  | [], r, _, hr => by
    match r with
    | [] => rfl
    | c :: cs =>
      rw [List.nil_append, takeWord, if_neg (by simp [hr])]
  | c :: w, r, hw, hr => by
    rw [List.cons_append, takeWord,
      if_pos (hw c (List.mem_cons_self c w)),
      takeWord_word w r (fun c2 h2 => hw c2 (List.mem_cons_of_mem c h2)) hr]

theorem matchVarRef_word (k : List Char) (hk : k ≠ [])
    (hw : ∀ c ∈ k, isWordChar c = true) :
    matchVarRef (k ++ ['}', '}']) = some ([String.mk k], []) := by
  unfold matchVarRef matchDotPath
  rw [takeWord_word k ['}', '}'] hw (by decide)]
  match k, hk with
  | c :: cs, _ =>
    dsimp only
    rw [show matchDotPathGo (['}', '}'] : List Char).length ['}', '}']
      [String.mk (c :: cs)] = some ([String.mk (c :: cs)], ['}', '}'])
      from rfl]
    rfl

theorem substReplace_single (k : String) (ctx : Ctx) (v : Json)
    (hv : Ctx.lookup ctx k = some v) :
    substReplace [k] ctx = .ok (renderValue v) := by
  unfold substReplace
  rw [if_neg (by simp)]
  dsimp only
  rw [hv]

/-- Substituting the bare template `\x7b\x7bk\x7d\x7d` for a bound
word-character key yields exactly the rendering of its value. -/
theorem substitute_variables_single (k : String) (ctx : Ctx) (v : Json)
    (hk : k.data ≠ [])
    (hw : ∀ c ∈ k.data, isWordChar c = true)
    (hv : Ctx.lookup ctx k = some v) :
    substitute_variables ("\x7b\x7b" ++ k ++ "\x7d\x7d") ctx =
      .ok (renderValue v) := by
  have hdata : ("\x7b\x7b" ++ k ++ "\x7d\x7d").data =
      '{' :: '{' :: (k.data ++ ['}', '}']) := by
    rw [String.data_append, String.data_append]
    rfl
  have hlen : ("\x7b\x7b" ++ k ++ "\x7d\x7d").data.length =
      k.data.length + 4 := by
    rw [hdata]
    simp
  have hmk : String.mk k.data = k := by cases k with | mk d => rfl
  have hb : subVarsAux ctx (k.data.length + 4 + 1)
      ('{' :: '{' :: (k.data ++ ['}', '}'])) =
      (match matchVarRef (k.data ++ ['}', '}']) with
       | some (segs, after) =>
         (match substReplace segs ctx with
          | .error e => .error e
          | .ok rep =>
            match subVarsAux ctx (k.data.length + 4) after with
            | .error e => .error e
            | .ok tail => .ok (rep.data ++ tail))
       | none =>
         match subVarsAux ctx (k.data.length + 4) ('{' :: (k.data ++ ['}', '}'])) with
         | .error e => .error e
         | .ok tail => .ok ('{' :: tail)) := rfl
  unfold substitute_variables
  rw [hlen, hdata, hb, matchVarRef_word k.data hk hw]
  dsimp only
  rw [hmk, substReplace_single k ctx v hv]
  dsimp only
  rw [show subVarsAux ctx (k.data.length + 4) [] = .ok [] from rfl]
  dsimp only
  rw [List.append_nil, show String.mk (renderValue v).data = renderValue v
    from by cases renderValue v with | mk d => rfl]

/-- C7: template substitution round-trip: substituting `\x7b\x7bk\x7d\x7d`
for a context key bound to a value yields that value's rendering; for a
map or list value the rendering is the canonical `json.dumps`
serialization, and parsing it back with `json.loads` returns a value
equal to the original; scalars render by their plain string form (the
definition of `renderValue`). -/
theorem template_substitution_roundtrip (ctx : Ctx) (k : String) (v : Json)
    (hk : k.data ≠ []) (hw : ∀ c ∈ k.data, isWordChar c = true)
    (hv : Ctx.lookup ctx k = some v) :
    substitute_variables ("\x7b\x7b" ++ k ++ "\x7d\x7d") ctx =
      .ok (renderValue v) ∧
    (∀ xs, v = .arr xs → renderValue v = dumps v ∧
      loads (renderValue v) = some v) ∧
    (∀ kvs, v = .obj kvs → renderValue v = dumps v ∧
      loads (renderValue v) = some v) := by
  refine ⟨substitute_variables_single k ctx v hk hw hv, ?_, ?_⟩
  · intro xs hx
    subst hx
    exact ⟨rfl, loads_dumps (.arr xs)⟩
  · intro kvs hx
    subst hx
    exact ⟨rfl, loads_dumps (.obj kvs)⟩

/-- Concrete instance of the substitution round-trip: key `cfg` bound to
the dict `\x7b"a": 1\x7d` renders as its canonical JSON and re-parses to
the same value. -/
theorem template_substitution_roundtrip_witness :
    Ctx.lookup [("cfg", Json.obj (.cons "a" (.int 1) .nil))] "cfg" =
      some (Json.obj (.cons "a" (.int 1) .nil)) ∧
    substitute_variables "\x7b\x7bcfg\x7d\x7d"
      [("cfg", Json.obj (.cons "a" (.int 1) .nil))] =
      .ok "\x7b\"a\": 1\x7d" ∧
    loads "\x7b\"a\": 1\x7d" = some (Json.obj (.cons "a" (.int 1) .nil)) := by
  have h := template_substitution_roundtrip
    [("cfg", Json.obj (.cons "a" (.int 1) .nil))] "cfg"
    (Json.obj (.cons "a" (.int 1) .nil)) (by decide) (by decide) rfl
  refine ⟨by decide, ?_, ?_⟩
  · exact h.1.trans (by rfl)
  · exact (h.2.2 (.cons "a" (.int 1) .nil) rfl).2.trans (by decide)
